import Mathlib

/-!
Planar geometry primitives of `marsbin.c`.

A shallow embedding of the planar predicates of
`src/src/Marsbin/generic/marsbin.c` (`dmin`, `dmax`, `bbox`, `ccw`,
`intersect`, `ptinpoly`) together with the `Point`, `Bbox` and `Points`
records they work on.

Number model.  The C code computes on `double`.  Every finite `double` is a
rational number, so coordinates are modelled as `ℚ`.  The arithmetic functions
are embedded twice.  Under their plain names (`ccw`, `intersect`, `ptinpoly`,
`ll_area`, ...) every operation is exact: they are the code with no result
rounded, and the theorems about them are statements in exact arithmetic.
Under `Rounded` the same functions take the rounding `rnd` that is applied to
the result of every arithmetic operation: with `binary64` (IEEE 754 double,
round to nearest, ties to even, gradual underflow) they are the code as the
machine runs it, and with the identity they are the plain functions.
Infinities and NaN are outside both models.  All definitions are computable
and every test they perform is decidable.

Memory model.  The storage `pts` of a `Points` buffer is a list whose length
is the number of allocated slots.  A read of slot `i` is `pts[i]?`; a read or
a store outside the allocated storage (undefined behaviour in C) makes the
embedded function return `none`.  The `int` fields `size` and `maxSize` are
never negative in the program and are modelled as `Nat`; the loop counters
stay far below `2^31`, so no wrap-around is modelled.  Freshly allocated
memory holds unspecified values, given by a parameter `junk`.

Spherical functions.  `spheredist` and `ll_area` call `sin`, `cos`, `asin`
and `sqrt` of the C math library; these are a parameter (`Libm`), and a
theorem that needs a fact about them states it as a hypothesis.

Tcl layer.  Of a Tcl value the code only observes whether it converts to a
number and whether it splits into a list (`TclObj`); of the interpreter only
the return code and the value of the result are kept, not the error
messages.  The embedding covers `getLatLong`, `validateLatLong`, `getPoints`,
`spheredist`, `ll_area` and the commands `latlong dist`, `latlong dist4`,
`latlong radius` and `latlong area`.
-/

namespace Mars

/-! ## Data model -/

/-- A coordinate pair (`struct Point`). -/
structure Point where
  x : ℚ
  y : ℚ
deriving DecidableEq

/-- A bounding box (`struct Bbox`). -/
structure Bbox where
  xmin : ℚ
  ymin : ℚ
  xmax : ℚ
  ymax : ℚ
deriving DecidableEq

/-- A list of points (`struct Points`): `maxSize` is the recorded capacity,
`pts` the allocated storage and `size` the logical length. -/
structure Points where
  maxSize : Nat
  pts : List Point
  size : Nat
deriving DecidableEq

/-! ## The code -/

/-- The minimum of two values (`dmin`). -/
def dmin (a b : ℚ) : ℚ :=
  if a < b then a else b

/-- The maximum of two values (`dmax`). -/
def dmax (a b : ℚ) : ℚ :=
  if a > b then a else b

/-- One pass of the body of the `for` loop of `bbox` on the point `pt`. -/
def bboxStep (box : Bbox) (pt : Point) : Bbox :=
  let x := pt.x
  let y := pt.y
  let box1 : Bbox :=
    if x < box.xmin then { box with xmin := x }
    else if x > box.xmax then { box with xmax := x }
    else box
  if y < box1.ymin then { box1 with ymin := y }
  else if y > box1.ymax then { box1 with ymax := y }
  else box1

/-- The `for (i = 1; i < points->size; i++)` loop of `bbox`: the first
argument is the number of iterations still to run, the second the current
value of `i`. -/
def bboxLoop (points : Points) : Nat → Nat → Bbox → Option Bbox
  | 0, _, box => some box
  | k + 1, i, box =>
    match points.pts[i]? with
    | none => none
    | some pt => bboxLoop points k (i + 1) (bboxStep box pt)

/-- The bounding box of the points (`bbox`), seeded from slot 0. -/
def bbox (points : Points) : Option Bbox :=
  match points.pts[0]? with
  | none => none
  | some p0 =>
    bboxLoop points (points.size - 1) 1
      { xmin := p0.x, ymin := p0.y, xmax := p0.x, ymax := p0.y }

/-- The turn test `ccw`: 1, -1 or 0. -/
def ccw (a b c : Point) : Int :=
  let dx1 := b.x - a.x
  let dy1 := b.y - a.y
  let dx2 := c.x - a.x
  let dy2 := c.y - a.y
  if dx1 * dy2 > dy1 * dx2 then 1
  else if dx1 * dy2 < dy1 * dx2 then -1
  else if dx1 * dx2 < 0 ∨ dy1 * dy2 < 0 then -1
  else if dx1 = 0 ∧ dy1 = 0 then
    if dx2 < 0 then -1
    else if dx2 > 0 then 1
    else 0
  else if dx1 * dx1 + dy1 * dy1 < dx2 * dx2 + dy2 * dy2 then 1
  else 0

/-- The segment test `intersect`: 1 or 0. -/
def intersect (p1 p2 q1 q2 : Point) : Int :=
  if ccw p1 p2 q1 * ccw p1 p2 q2 ≤ 0 ∧ ccw q1 q2 p1 * ccw q1 q2 p2 ≤ 0 then 1
  else 0

/-- The crossing test of the ray cast in `ptinpoly` for the edge `p1`-`p2`:
true when the body would execute `++counter`. -/
def crosses (p1 p2 p : Point) : Bool :=
  if p.y > dmin p1.y p2.y then
    if p.y ≤ dmax p1.y p2.y then
      if p.x ≤ dmax p1.x p2.x then
        if p1.y ≠ p2.y then
          let xInters := (p.y - p1.y) * (p2.x - p1.x) / (p2.y - p1.y) + p1.x
          if p1.x = p2.x ∨ p.x ≤ xInters then true else false
        else false
      else false
    else false
  else false

/-- The `for (i = 1; i <= poly->size; i++)` loop of `ptinpoly` followed by
the parity test.  The first argument is the number of iterations still to
run, `i` the loop variable, `i1` the slot the pointer `p1` points at and
`counter` the crossing counter. -/
def ptinpolyLoop (poly : Points) (p : Point) : Nat → Nat → Nat → Nat → Option Int
  | 0, _, _, counter => some (if counter % 2 = 0 then 0 else 1)
  | k + 1, i, i1, counter =>
    match poly.pts[i1]?, poly.pts[i % poly.size]? with
    | some p1, some p2 =>
      if intersect p1 p2 p p ≠ 0 then some 1
      else
        ptinpolyLoop poly p k (i + 1) (i % poly.size)
          (if crosses p1 p2 p then counter + 1 else counter)
    | _, _ => none

/-- The point-in-polygon test `ptinpoly`: 1 or 0. -/
def ptinpoly (poly : Points) (p : Point) (box : Bbox) : Option Int :=
  if p.x < box.xmin ∨ p.x > box.xmax ∨ p.y < box.ymin ∨ p.y > box.ymax then some 0
  else ptinpolyLoop poly p poly.size 1 0 0

/-! ## Specification vocabulary -/

/-- The cross product `(b.x-a.x)(c.y-a.y) - (b.y-a.y)(c.x-a.x)`. -/
def cross (a b c : Point) : ℚ :=
  (b.x - a.x) * (c.y - a.y) - (b.y - a.y) * (c.x - a.x)

/-- The point `a + t (b - a)` of the line through `a` and `b`. -/
def lineAt (a b : Point) (t : ℚ) : Point :=
  { x := a.x + t * (b.x - a.x), y := a.y + t * (b.y - a.y) }

/-- The point `p` lies on the closed segment from `a` to `b`. -/
def OnSegment (a b p : Point) : Prop :=
  ∃ t : ℚ, 0 ≤ t ∧ t ≤ 1 ∧ p = lineAt a b t

/-- The closed segments `p1`-`p2` and `q1`-`q2` have a point in common. -/
def SegmentsMeet (p1 p2 q1 q2 : Point) : Prop :=
  ∃ r : Point, OnSegment p1 p2 r ∧ OnSegment q1 q2 r

/-- The box `box` is the exact axis-aligned extent of the points of `l`:
every point of `l` lies inside it and each of its four bounds is attained by
some point of `l`. -/
def IsBboxOf (box : Bbox) (l : List Point) : Prop :=
  (∀ q ∈ l, box.xmin ≤ q.x ∧ q.x ≤ box.xmax ∧ box.ymin ≤ q.y ∧ q.y ≤ box.ymax) ∧
  (∃ q ∈ l, q.x = box.xmin) ∧ (∃ q ∈ l, q.x = box.xmax) ∧
  (∃ q ∈ l, q.y = box.ymin) ∧ (∃ q ∈ l, q.y = box.ymax)

/-- The vertex list of the axis-aligned rectangle with corners `(x0,y0)` and
`(x1,y1)`, in the order `(x0,y0)`, `(x1,y0)`, `(x1,y1)`, `(x0,y1)`. -/
def rectangle (x0 y0 x1 y1 : ℚ) : List Point :=
  [⟨x0, y0⟩, ⟨x1, y0⟩, ⟨x1, y1⟩, ⟨x0, y1⟩]

/-- A buffer that holds exactly the points of `l`. -/
def ofList (l : List Point) : Points :=
  { maxSize := l.length, pts := l, size := l.length }

/-! ## Tcl values, the math library and the marshalling layer -/

/-- The return codes `TCL_OK` and `TCL_ERROR`. -/
inductive TclStatus where
  | TCL_OK
  | TCL_ERROR
deriving DecidableEq

/-- The outcome of a command: `TCL_ERROR`, or `TCL_OK` together with the
value stored in the interpreter result. -/
inductive Outcome (α : Type) where
  | error
  | ok (value : α)
deriving DecidableEq

/-- What the code observes of a Tcl value (`Tcl_Obj*`): `asDouble` is the
result of `Tcl_GetDoubleFromObj` on it (`none`: not a number) and `asList`
the result of `Tcl_ListObjGetElements` (`none`: not a list), every element of
the list being given by the result of `Tcl_GetDoubleFromObj` on that
element. -/
structure TclObj where
  asDouble : Option ℚ
  asList : Option (List (Option ℚ))
deriving DecidableEq

/-- The functions of the C math library that `spheredist` and `ll_area`
call.  They are not part of the repository and are taken as a parameter; a
theorem that needs a fact about one of them states it as a hypothesis. -/
structure Libm where
  sin : ℚ → ℚ
  cos : ℚ → ℚ
  asin : ℚ → ℚ
  sqrt : ℚ → ℚ

/-- The constants `LAT_MIN`, `LAT_MAX`, `LON_MIN` and `LON_MAX`. -/
def LAT_MIN : ℚ := -90

def LAT_MAX : ℚ := 90

def LON_MIN : ℚ := -180

def LON_MAX : ℚ := 360

/-- The constant `radians` (the decimal literal of the source). -/
def radians : ℚ := 17453292519943295 / 1000000000000000000

/-- The constant `earthRadius`. -/
def earthRadius : ℚ := 6371

/-- Data of the `latlong` command (`struct LatlongInfo`). -/
structure LatlongInfo where
  spheroid : Int
  poleLat : ℚ
  poleLon : ℚ
  pointsBuffer : Points

/-- The great-circle distance `spheredist`, in kilometers. -/
def spheredist (m : Libm) (lat1 lon1 lat2 lon2 : ℚ) : ℚ :=
  let diameter : ℚ := 12742
  let lat1 := lat1 * radians
  let lon1 := lon1 * radians
  let lat2 := lat2 * radians
  let lon2 := lon2 * radians
  let sinHalfDlat := m.sin ((lat2 - lat1) / 2)
  let sinHalfDlon := m.sin ((lon2 - lon1) / 2)
  diameter *
    m.asin (m.sqrt (sinHalfDlat * sinHalfDlat +
      m.cos lat1 * m.cos lat2 * sinHalfDlon * sinHalfDlon))

/-- The parser `getLatLong`: a two-element list of numbers, with no range
check. -/
def getLatLong (loc : TclObj) : Outcome (ℚ × ℚ) :=
  match loc.asList with
  | none => Outcome.error
  | some [e0, e1] =>
    match e0 with
    | none => Outcome.error
    | some lat =>
      match e1 with
      | none => Outcome.error
      | some lon => Outcome.ok (lat, lon)
  | some _ => Outcome.error

/-- The range check `validateLatLong`. -/
def validateLatLong (lat lon : ℚ) : TclStatus :=
  if lat < LAT_MIN ∨ lat > LAT_MAX then TclStatus.TCL_ERROR
  else if lon < LON_MIN ∨ lon > LON_MAX then TclStatus.TCL_ERROR
  else TclStatus.TCL_OK

/-- The command `latlong dist loc1 loc2`; `objv` is the full argument
vector, so `objv[2]` and `objv[3]` are the two locations. -/
def latlong_dist (m : Libm) (objv : List TclObj) : Outcome ℚ :=
  match objv with
  | [_, _, o2, o3] =>
    match getLatLong o2 with
    | Outcome.error => Outcome.error
    | Outcome.ok (lat1, lon1) =>
      match getLatLong o3 with
      | Outcome.error => Outcome.error
      | Outcome.ok (lat2, lon2) => Outcome.ok (spheredist m lat1 lon1 lat2 lon2)
  | _ => Outcome.error

/-- The command `latlong dist4 lat1 lon1 lat2 lon2`. -/
def latlong_dist4 (m : Libm) (objv : List TclObj) : Outcome ℚ :=
  match objv with
  | [_, _, o2, o3, o4, o5] =>
    match o2.asDouble with
    | none => Outcome.error
    | some lat1 =>
      match o3.asDouble with
      | none => Outcome.error
      | some lon1 =>
        match o4.asDouble with
        | none => Outcome.error
        | some lat2 =>
          match o5.asDouble with
          | none => Outcome.error
          | some lon2 => Outcome.ok (spheredist m lat1 lon1 lat2 lon2)
  | _ => Outcome.error

/-- The command `latlong radius lat lon`: the distance to the pole stored
in `info`. -/
def latlong_radius (m : Libm) (info : LatlongInfo) (objv : List TclObj) : Outcome ℚ :=
  match objv with
  | [_, _, o2, o3] =>
    match o2.asDouble with
    | none => Outcome.error
    | some lat =>
      match o3.asDouble with
      | none => Outcome.error
      | some lon => Outcome.ok (spheredist m lat lon info.poleLat info.poleLon)
  | _ => Outcome.error

/-- Uninitialised storage of `n` slots, as `Tcl_Alloc` returns it: slot `i`
holds the unspecified value `junk i`. -/
def alloc (junk : Nat → Point) (n : Nat) : List Point :=
  (List.range n).map junk

/-- Storage of `n` slots as `Tcl_Realloc` returns it: the old contents come
first and the slots after them hold unspecified values. -/
def realloc (junk : Nat → Point) (pts : List Point) (n : Nat) : List Point :=
  (pts ++ (List.range n).map junk).take n

/-- The store `pts[i].x = v`; `none` when slot `i` is not allocated. -/
def storeX (pts : List Point) (i : Nat) (v : ℚ) : Option (List Point) :=
  match pts[i]? with
  | none => none
  | some q => some (pts.set i { q with x := v })

/-- The store `pts[i].y = v`; `none` when slot `i` is not allocated. -/
def storeY (pts : List Point) (i : Nat) (v : ℚ) : Option (List Point) :=
  match pts[i]? with
  | none => none
  | some q => some (pts.set i { q with y := v })

/-- The conversion loop `for (i = 0; i < points->size; i++)` of `getPoints`:
the first argument is the number of iterations still to run, the second the
current value of `i`.  `Tcl_GetDoubleFromObj` stores only on success. -/
def getPointsLoop (listv : List (Option ℚ)) :
    Nat → Nat → List Point → Option (TclStatus × List Point)
  | 0, _, pts => some (TclStatus.TCL_OK, pts)
  | k + 1, i, pts =>
    match listv[2 * i]? with
    | none => none
    | some none => some (TclStatus.TCL_ERROR, pts)
    | some (some xv) =>
      match storeX pts i xv with
      | none => none
      | some pts1 =>
        match listv[2 * i + 1]? with
        | none => none
        | some none => some (TclStatus.TCL_ERROR, pts1)
        | some (some yv) =>
          match storeY pts1 i yv with
          | none => none
          | some pts2 => getPointsLoop listv k (i + 1) pts2

/-- The marshalling function `getPoints`: the return code and the state of
the buffer after the call; `none` when a store falls outside the allocated
storage.  `junk` gives the contents of freshly allocated memory. -/
def getPoints (junk : Nat → Point) (coords : TclObj) (minSize : Nat) (points : Points) :
    Option (TclStatus × Points) :=
  match coords.asList with
  | none => some (TclStatus.TCL_ERROR, points)
  | some listv =>
    let listc := listv.length
    if listc % 2 ≠ 0 then some (TclStatus.TCL_ERROR, points)
    else if listc < 2 * minSize then some (TclStatus.TCL_ERROR, points)
    else
      let points1 : Points := { points with size := listc / 2 }
      let points2 : Points :=
        if points1.maxSize = 0 then
          { points1 with maxSize := points1.size, pts := alloc junk points1.size }
        else if points1.size > points1.maxSize then
          { points1 with maxSize := points1.size,
                         pts := realloc junk points1.pts points1.size }
        else points1
      match getPointsLoop listv points2.size 0 points2.pts with
      | none => none
      | some (status, pts) => some (status, { points2 with pts := pts })

/-- The zeroed buffer of `newPoints`. -/
def newPoints : Points :=
  { maxSize := 0, pts := [], size := 0 }

/-- The first loop of `ll_area`: slots `i`, `i+1`, ... are multiplied by
`radians` in place; the first argument is the number of iterations left. -/
def toRadiansLoop : Nat → Nat → List Point → Option (List Point)
  | 0, _, pts => some pts
  | k + 1, i, pts =>
    match pts[i]? with
    | none => none
    | some q =>
      toRadiansLoop k (i + 1) (pts.set i { x := q.x * radians, y := q.y * radians })

/-- A read of `pts[j]` for a signed index `j`. -/
def readAt (pts : List Point) (j : Int) : Option Point :=
  if j < 0 then none else pts[j.toNat]?

/-- The second loop of `ll_area`, which accumulates `sum`; the first
argument is the number of iterations left, the second the value of `i`. -/
def areaSumLoop (m : Libm) (poly : Points) : Nat → Nat → ℚ → Option ℚ
  | 0, _, sum => some sum
  | n + 1, i, sum =>
    let j : Int := (i : Int) - 2
    let j : Int := if j < 0 then j + poly.size else j
    let k : Int := (i : Int) - 1
    let k : Int := if k < 0 then k + poly.size else k
    match poly.pts[i]?, readAt poly.pts j, readAt poly.pts k with
    | some pi, some pj, some pk =>
      let ilon := pi.y
      let jlon := pj.y
      let klat := pk.x
      areaSumLoop m poly n (i + 1) (sum + (ilon - jlon) * m.sin klat)
    | _, _, _ => none

/-- The area function `ll_area`: the area in square kilometers and the
buffer after the in-place conversion to radians. -/
def ll_area (m : Libm) (poly : Points) : Option (ℚ × Points) :=
  match toRadiansLoop poly.size 0 poly.pts with
  | none => none
  | some pts1 =>
    let poly1 : Points := { poly with pts := pts1 }
    match areaSumLoop m poly1 poly1.size 0 0 with
    | none => none
    | some sum => some (-(earthRadius * earthRadius / 2) * sum, poly1)

/-- The index `j` that `ll_area` computes for the vertex `i`: `i - 2`, plus
`size` when that is negative. -/
def areaIndexJ (size i : Nat) : Int :=
  let j : Int := (i : Int) - 2
  if j < 0 then j + size else j

/-- The index `k` that `ll_area` computes for the vertex `i`: `i - 1`, plus
`size` when that is negative. -/
def areaIndexK (size i : Nat) : Int :=
  let k : Int := (i : Int) - 1
  if k < 0 then k + size else k

/-- The loop of `latlong_area` that validates the pairs in slots `i`,
`i+1`, ...; the first argument is the number of iterations left. -/
def validateLoop (pts : List Point) : Nat → Nat → Option TclStatus
  | 0, _ => some TclStatus.TCL_OK
  | k + 1, i =>
    match pts[i]? with
    | none => none
    | some q =>
      if validateLatLong q.x q.y ≠ TclStatus.TCL_OK then some TclStatus.TCL_ERROR
      else validateLoop pts k (i + 1)

/-- The command `latlong area coords`: the outcome and the command data
after the call (the points buffer of `info` is reused). -/
def latlong_area (m : Libm) (junk : Nat → Point) (info : LatlongInfo)
    (objv : List TclObj) : Option (Outcome ℚ × LatlongInfo) :=
  match objv with
  | [_, _, o2] =>
    match getPoints junk o2 3 info.pointsBuffer with
    | none => none
    | some (TclStatus.TCL_ERROR, buf) =>
      some (Outcome.error, { info with pointsBuffer := buf })
    | some (TclStatus.TCL_OK, buf) =>
      match validateLoop buf.pts buf.size 0 with
      | none => none
      | some TclStatus.TCL_ERROR =>
        some (Outcome.error, { info with pointsBuffer := buf })
      | some TclStatus.TCL_OK =>
        match ll_area m buf with
        | none => none
        | some (area, buf') => some (Outcome.ok area, { info with pointsBuffer := buf' })
  | _ => some (Outcome.error, info)

/-- The quotient `a / b` with the division made partial: `none` for a zero
divisor. -/
def divChecked (a b : ℚ) : Option ℚ :=
  if b = 0 then none else some (a / b)

/-- The crossing test of `ptinpoly` with the division of `xInters` made
partial: `none` when the code would divide by zero. -/
def crossesChecked (p1 p2 p : Point) : Option Bool :=
  if p.y > dmin p1.y p2.y then
    if p.y ≤ dmax p1.y p2.y then
      if p.x ≤ dmax p1.x p2.x then
        if p1.y ≠ p2.y then
          match divChecked ((p.y - p1.y) * (p2.x - p1.x)) (p2.y - p1.y) with
          | none => none
          | some quot =>
            let xInters := quot + p1.x
            if p1.x = p2.x ∨ p.x ≤ xInters then some true else some false
        else some false
      else some false
    else some false
  else some false

/-- A rational stand-in for the math library (low-order approximations of
`sin`, `cos`, `asin` and `sqrt`), used only to evaluate examples. -/
def polyLibm : Libm :=
  { sin := fun x => x - x ^ 3 / 6
    cos := fun x => 1 - x ^ 2 / 2
    asin := fun x => x + x ^ 3 / 6
    sqrt := fun x => 2 * x / (1 + x) }

/-- The Tcl value of a number. -/
def TclObj.num (v : ℚ) : TclObj :=
  { asDouble := some v, asList := some [some v] }

/-- The Tcl value of a list of numbers. -/
def TclObj.nums (vs : List ℚ) : TclObj :=
  { asDouble := none, asList := some (vs.map some) }

/-- A Tcl value that is neither a number nor a list of numbers (a word). -/
def TclObj.word : TclObj :=
  { asDouble := none, asList := some [none] }

/-- The points of a flat coordinate list `x0 y0 x1 y1 ...`. -/
def toPoints : List ℚ → List Point
  | x :: y :: rest => { x := x, y := y } :: toPoints rest
  | _ => []

/-- The buffer is well formed: its recorded capacity is the number of
allocated slots. -/
def Points.WellFormed (points : Points) : Prop :=
  points.pts.length = points.maxSize

/-- The number at position `n` of an element vector (0 when the element is
missing or not a number). -/
def numAt (listv : List (Option ℚ)) (n : Nat) : ℚ :=
  (listv.getD n none).getD 0

/-- The index `i - 2`, wrapped around a cycle of length `n` (the value of
`j` in `ll_area`). -/
def prev2 (n i : Nat) : Nat :=
  if i < 2 then i + n - 2 else i - 2

/-- The index `i - 1`, wrapped around a cycle of length `n` (the value of
`k` in `ll_area`). -/
def prev1 (n i : Nat) : Nat :=
  if i < 1 then i + n - 1 else i - 1

/-- The index `i + 1`, wrapped around a cycle of length `n`. -/
def next1 (n i : Nat) : Nat :=
  if i + 1 < n then i + 1 else 0

/-- A point converted from degrees to radians. -/
def toRadians (q : Point) : Point :=
  { x := q.x * radians, y := q.y * radians }

/-- The term that `ll_area` adds to `sum` for the vertex `i` of the cycle
`g` of length `n` (coordinates in radians). -/
def areaTerm (m : Libm) (g : Nat → Point) (n i : Nat) : ℚ :=
  ((g i).y - (g (prev2 n i)).y) * m.sin (g (prev1 n i)).x

/-- The value of `sum` at the end of `ll_area`, as a finite sum. -/
def areaSum (m : Libm) (g : Nat → Point) (n : Nat) : ℚ :=
  Finset.sum (Finset.range n) (fun i => areaTerm m g n i)

/-- The point `p` lies in the closed triangle `a b c`: it is a convex
combination of the three vertices. -/
def InTriangle (a b c p : Point) : Prop :=
  ∃ α β γ : ℚ, 0 ≤ α ∧ 0 ≤ β ∧ 0 ≤ γ ∧ α + β + γ = 1 ∧
    p.x = α * a.x + β * b.x + γ * c.x ∧ p.y = α * a.y + β * b.y + γ * c.y

/-- One call of `getPoints` on the buffer of a session: the contents of
fresh memory at that time, the coordinates and the minimum size. -/
structure Call where
  junk : Nat → Point
  coords : TclObj
  minSize : Nat

/-- The buffer after a sequence of `getPoints` calls, successful or not. -/
def runCalls : List Call → Points → Option Points
  | [], b => some b
  | c :: cs, b =>
    match getPoints c.junk c.coords c.minSize b with
    | none => none
    | some (_, b') => runCalls cs b'

/-- The dot product `(b - a) · (c - a)`. -/
def dot (a b c : Point) : ℚ :=
  (b.x - a.x) * (c.x - a.x) + (b.y - a.y) * (c.y - a.y)


/-! ## Double-precision arithmetic -/

/-- The quotient `n / d` rounded to the nearest natural number, a tie going
to the even neighbour. -/
def roundHalfEven (n d : Nat) : Nat :=
  let f := n / d
  let r := n % d
  if 2 * r < d then f
  else if d < 2 * r then f + 1
  else if f % 2 = 0 then f
  else f + 1

/-- The number of binary digits of `n`; the first argument bounds the number
of halvings and is taken to be `n` itself. -/
def bitLength : Nat → Nat → Nat
  | 0, _ => 0
  | fuel + 1, n => if n = 0 then 0 else bitLength fuel (n / 2) + 1

/-- The exponent `e` of the spacing `2 ^ e` of the doubles around `n / d`:
53 significant bits in the normal range, and never below the spacing
`2 ^ (-1074)` of the subnormal numbers. -/
def quantum (n d : Nat) : Int :=
  let e0 : Int := (bitLength n n : Int) - (bitLength d d : Int)
  let e1 : Int :=
    if 0 ≤ e0 then (if d * 2 ^ e0.toNat ≤ n then e0 else e0 - 1)
    else (if d ≤ n * 2 ^ (-e0).toNat then e0 else e0 - 1)
  max (e1 - 52) (-1074)

/-- The value of type `double` (IEEE 754 binary64) that a real result `q` is
rounded to, in the default rounding mode: the nearest multiple of the spacing,
a tie going to the even significand.  The sign of a zero is not kept, and a
result beyond the largest finite `double` is rounded to 53 bits like any
other instead of becoming an infinity. -/
def binary64 (q : ℚ) : ℚ :=
  let n := q.num.natAbs
  let d := q.den
  let e := quantum n d
  let m : Nat :=
    if 0 ≤ e then roundHalfEven n (d * 2 ^ e.toNat)
    else roundHalfEven (n * 2 ^ (-e).toNat) d
  let v : ℚ :=
    if 0 ≤ e then ((m * 2 ^ e.toNat : Nat) : ℚ)
    else (m : ℚ) / ((2 ^ (-e).toNat : Nat) : ℚ)
  if q < 0 then -v else v

/-- The constant `radians` as the machine holds it: the literal
`0.017453292519943295` rounded by `rnd`. -/
def Rounded.radians (rnd : ℚ → ℚ) : ℚ :=
  rnd (17453292519943295 / 1000000000000000000)

/-- The constant `earthRadius` as the machine holds it. -/
def Rounded.earthRadius (rnd : ℚ → ℚ) : ℚ :=
  rnd 6371

/-- The turn test `ccw` with the result of every subtraction, multiplication
and addition rounded by `rnd`. -/
def Rounded.ccw (rnd : ℚ → ℚ) (a b c : Point) : Int :=
  let dx1 := rnd (b.x - a.x)
  let dy1 := rnd (b.y - a.y)
  let dx2 := rnd (c.x - a.x)
  let dy2 := rnd (c.y - a.y)
  if rnd (dx1 * dy2) > rnd (dy1 * dx2) then 1
  else if rnd (dx1 * dy2) < rnd (dy1 * dx2) then -1
  else if rnd (dx1 * dx2) < 0 ∨ rnd (dy1 * dy2) < 0 then -1
  else if dx1 = 0 ∧ dy1 = 0 then
    if dx2 < 0 then -1
    else if dx2 > 0 then 1
    else 0
  else if rnd (rnd (dx1 * dx1) + rnd (dy1 * dy1)) <
      rnd (rnd (dx2 * dx2) + rnd (dy2 * dy2)) then 1
  else 0

/-- The segment test `intersect` over the rounded `ccw`. -/
def Rounded.intersect (rnd : ℚ → ℚ) (p1 p2 q1 q2 : Point) : Int :=
  if Rounded.ccw rnd p1 p2 q1 * Rounded.ccw rnd p1 p2 q2 ≤ 0 ∧
      Rounded.ccw rnd q1 q2 p1 * Rounded.ccw rnd q1 q2 p2 ≤ 0 then 1
  else 0

/-- The crossing test of the ray cast in `ptinpoly` with every operation of
`xInters` rounded by `rnd`. -/
def Rounded.crosses (rnd : ℚ → ℚ) (p1 p2 p : Point) : Bool :=
  if p.y > dmin p1.y p2.y then
    if p.y ≤ dmax p1.y p2.y then
      if p.x ≤ dmax p1.x p2.x then
        if p1.y ≠ p2.y then
          let xInters :=
            rnd (rnd (rnd (rnd (p.y - p1.y) * rnd (p2.x - p1.x)) / rnd (p2.y - p1.y)) + p1.x)
          if p1.x = p2.x ∨ p.x ≤ xInters then true else false
        else false
      else false
    else false
  else false

/-- The loop of `ptinpoly` followed by the parity test, over the rounded
`intersect` and crossing test; the arguments are those of `ptinpolyLoop`. -/
def Rounded.ptinpolyLoop (rnd : ℚ → ℚ) (poly : Points) (p : Point) :
    Nat → Nat → Nat → Nat → Option Int
  | 0, _, _, counter => some (if counter % 2 = 0 then 0 else 1)
  | k + 1, i, i1, counter =>
    match poly.pts[i1]?, poly.pts[i % poly.size]? with
    | some p1, some p2 =>
      if Rounded.intersect rnd p1 p2 p p ≠ 0 then some 1
      else
        Rounded.ptinpolyLoop rnd poly p k (i + 1) (i % poly.size)
          (if Rounded.crosses rnd p1 p2 p then counter + 1 else counter)
    | _, _ => none

/-- The point-in-polygon test `ptinpoly` in rounded arithmetic. -/
def Rounded.ptinpoly (rnd : ℚ → ℚ) (poly : Points) (p : Point) (box : Bbox) : Option Int :=
  if p.x < box.xmin ∨ p.x > box.xmax ∨ p.y < box.ymin ∨ p.y > box.ymax then some 0
  else Rounded.ptinpolyLoop rnd poly p poly.size 1 0 0

/-- The first loop of `ll_area` with the products rounded by `rnd`. -/
def Rounded.toRadiansLoop (rnd : ℚ → ℚ) : Nat → Nat → List Point → Option (List Point)
  | 0, _, pts => some pts
  | k + 1, i, pts =>
    match pts[i]? with
    | none => none
    | some q =>
      Rounded.toRadiansLoop rnd k (i + 1)
        (pts.set i { x := rnd (q.x * Rounded.radians rnd), y := rnd (q.y * Rounded.radians rnd) })

/-- The second loop of `ll_area` with every operation rounded by `rnd`. -/
def Rounded.areaSumLoop (rnd : ℚ → ℚ) (m : Libm) (poly : Points) : Nat → Nat → ℚ → Option ℚ
  | 0, _, sum => some sum
  | n + 1, i, sum =>
    match poly.pts[i]?, readAt poly.pts (areaIndexJ poly.size i),
      readAt poly.pts (areaIndexK poly.size i) with
    | some pi, some pj, some pk =>
      let ilon := pi.y
      let jlon := pj.y
      let klat := pk.x
      Rounded.areaSumLoop rnd m poly n (i + 1) (rnd (sum + rnd (rnd (ilon - jlon) * m.sin klat)))
    | _, _, _ => none

/-- The area function `ll_area` in rounded arithmetic. -/
def Rounded.ll_area (rnd : ℚ → ℚ) (m : Libm) (poly : Points) : Option (ℚ × Points) :=
  match Rounded.toRadiansLoop rnd poly.size 0 poly.pts with
  | none => none
  | some pts1 =>
    let poly1 : Points := { poly with pts := pts1 }
    match Rounded.areaSumLoop rnd m poly1 poly1.size 0 0 with
    | none => none
    | some sum =>
      some (rnd (-(rnd (rnd (Rounded.earthRadius rnd * Rounded.earthRadius rnd) / 2)) * sum),
        poly1)
/-! ## Orientation predicate -/

theorem ccw_of_cross_pos (a b c : Point) (h : 0 < cross a b c) : ccw a b c = 1 := by
  unfold cross at h
  unfold ccw
  have h1 : (b.x - a.x) * (c.y - a.y) > (b.y - a.y) * (c.x - a.x) := by linarith
  simp only [if_pos h1]

theorem ccw_of_cross_neg (a b c : Point) (h : cross a b c < 0) : ccw a b c = -1 := by
  unfold cross at h
  unfold ccw
  have h1 : ¬ (b.x - a.x) * (c.y - a.y) > (b.y - a.y) * (c.x - a.x) := by
    intro h'; linarith
  have h2 : (b.x - a.x) * (c.y - a.y) < (b.y - a.y) * (c.x - a.x) := by linarith
  simp only [if_neg h1, if_pos h2]

/-- The value of `ccw` once the cross product is known to vanish. -/
theorem ccw_of_cross_zero (a b c : Point) (h : cross a b c = 0) :
    ccw a b c =
      if (b.x - a.x) * (c.x - a.x) < 0 ∨ (b.y - a.y) * (c.y - a.y) < 0 then -1
      else if b.x - a.x = 0 ∧ b.y - a.y = 0 then
        if c.x - a.x < 0 then -1 else if c.x - a.x > 0 then 1 else 0
      else if (b.x - a.x) * (b.x - a.x) + (b.y - a.y) * (b.y - a.y)
          < (c.x - a.x) * (c.x - a.x) + (c.y - a.y) * (c.y - a.y) then 1
      else 0 := by
  unfold cross at h
  unfold ccw
  have h1 : ¬ (b.x - a.x) * (c.y - a.y) > (b.y - a.y) * (c.x - a.x) := by
    intro h'; linarith
  have h2 : ¬ (b.x - a.x) * (c.y - a.y) < (b.y - a.y) * (c.x - a.x) := by
    intro h'; linarith
  simp only [if_neg h1, if_neg h2]

theorem cross_lineAt (a b : Point) (t : ℚ) : cross a b (lineAt a b t) = 0 := by
  unfold cross lineAt
  ring

theorem Point.ne_iff (a b : Point) : a ≠ b ↔ (b.x - a.x ≠ 0 ∨ b.y - a.y ≠ 0) := by
  constructor
  · intro h
    by_contra hc
    push_neg at hc
    apply h
    cases a; cases b
    simp only [Point.mk.injEq]
    simp only at hc
    constructor <;> linarith [hc.1, hc.2]
  · rintro h rfl
    simp at h

theorem normSq_pos (a b : Point) (h : a ≠ b) :
    0 < (b.x - a.x) * (b.x - a.x) + (b.y - a.y) * (b.y - a.y) := by
  rcases (Point.ne_iff a b).1 h with h | h
  · have := mul_self_pos.2 h
    nlinarith [mul_self_nonneg (b.y - a.y)]
  · have := mul_self_pos.2 h
    nlinarith [mul_self_nonneg (b.x - a.x)]

theorem ccw_lineAt (a b : Point) (t : ℚ) (h : a ≠ b) :
    ccw a b (lineAt a b t) = if t < 0 then -1 else if t ≤ 1 then 0 else 1 := by
  rw [ccw_of_cross_zero a b _ (cross_lineAt a b t)]
  have hN := normSq_pos a b h
  have hne : ¬ (b.x - a.x = 0 ∧ b.y - a.y = 0) := by
    rintro ⟨h1, h2⟩
    rcases (Point.ne_iff a b).1 h with h' | h'
    · exact h' h1
    · exact h' h2
  simp only [lineAt, add_sub_cancel_left, if_neg hne]
  set dx := b.x - a.x with hdx
  set dy := b.y - a.y with hdy
  have e1 : dx * (t * dx) = t * (dx * dx) := by ring
  have e2 : dy * (t * dy) = t * (dy * dy) := by ring
  have e3 : t * dx * (t * dx) + t * dy * (t * dy) = t * t * (dx * dx + dy * dy) := by ring
  rw [e1, e2, e3]
  have hx := mul_self_nonneg dx
  have hy := mul_self_nonneg dy
  by_cases ht : t < 0
  · have : t * (dx * dx) < 0 ∨ t * (dy * dy) < 0 := by
      by_contra hc
      push_neg at hc
      nlinarith [hc.1, hc.2]
    simp only [if_pos this, if_pos ht]
  · have ht0 : 0 ≤ t := not_lt.1 ht
    have : ¬ (t * (dx * dx) < 0 ∨ t * (dy * dy) < 0) := by
      rintro (h' | h')
      · nlinarith
      · nlinarith
    simp only [if_neg this, if_neg ht]
    by_cases ht1 : t ≤ 1
    · have : ¬ dx * dx + dy * dy < t * t * (dx * dx + dy * dy) := by
        intro h'
        have : t * t ≤ 1 := by nlinarith
        nlinarith
      simp only [if_neg this, if_pos ht1]
    · have ht1' : 1 < t := not_le.1 ht1
      have : dx * dx + dy * dy < t * t * (dx * dx + dy * dy) := by
        have : 1 < t * t := by nlinarith
        nlinarith
      simp only [if_pos this, if_neg ht1]

theorem ccw_degenerate (a c : Point) :
    ccw a a c = if c.x < a.x then -1 else if c.x > a.x then 1 else 0 := by
  unfold ccw
  simp only [sub_self, zero_mul, gt_iff_lt, lt_irrefl, if_false, or_self, and_self, if_true,
    sub_neg, sub_pos]


theorem ccw_self_left (a b : Point) : ccw a b a = 0 := by
  unfold ccw
  simp only [sub_self, mul_zero, gt_iff_lt, lt_irrefl, if_false, or_self, add_zero]
  split_ifs with h1 h2
  · rfl
  · exfalso
    exact absurd h2 (not_lt.2 (add_nonneg (mul_self_nonneg _) (mul_self_nonneg _)))
  · rfl

theorem ccw_self_right (a b : Point) : ccw a b b = 0 := by
  by_cases h : a = b
  · subst h
    exact ccw_self_left a a
  · have e : b = lineAt a b 1 := by
      cases a; cases b
      simp [lineAt]
    have := ccw_lineAt a b 1 h
    rw [← e] at this
    rw [this]
    norm_num

theorem cross_swap (a b c : Point) : cross b a c = - cross a b c := by
  unfold cross
  ring

theorem collinear_eq_lineAt (a b c : Point) (h : a ≠ b) (hc : cross a b c = 0) :
    c = lineAt a b (((b.x - a.x) * (c.x - a.x) + (b.y - a.y) * (c.y - a.y)) /
      ((b.x - a.x) * (b.x - a.x) + (b.y - a.y) * (b.y - a.y))) := by
  have hN := normSq_pos a b h
  have hN' := ne_of_gt hN
  unfold cross at hc
  cases a with | mk a1 a2 =>
  cases b with | mk b1 b2 =>
  cases c with | mk c1 c2 =>
  simp only [lineAt, Point.mk.injEq] at *
  constructor
  · field_simp
    linear_combination (-(b2 - a2)) * hc
  · field_simp
    linear_combination (b1 - a1) * hc

theorem lineAt_swap (a b : Point) (t : ℚ) : lineAt a b t = lineAt b a (1 - t) := by
  simp only [lineAt, Point.mk.injEq]
  constructor <;> ring

theorem ccw_swap (a b c : Point) (h : a ≠ b) : ccw b a c = - ccw a b c := by
  rcases lt_trichotomy (cross a b c) 0 with hc | hc | hc
  · rw [ccw_of_cross_neg a b c hc, ccw_of_cross_pos b a c (by rw [cross_swap]; linarith)]
    rfl
  · have e := collinear_eq_lineAt a b c h hc
    generalize ((b.x - a.x) * (c.x - a.x) + (b.y - a.y) * (c.y - a.y)) /
      ((b.x - a.x) * (b.x - a.x) + (b.y - a.y) * (b.y - a.y)) = t at e
    subst e
    have h1 := ccw_lineAt a b t h
    have h2 := ccw_lineAt b a (1 - t) (Ne.symm h)
    rw [← lineAt_swap] at h2
    rw [h1, h2]
    split_ifs <;> first | rfl | (exfalso; linarith)
  · rw [ccw_of_cross_pos a b c hc, ccw_of_cross_neg b a c (by rw [cross_swap]; linarith)]


/-! ## Segment intersection -/

theorem intersect_comm (p1 p2 q1 q2 : Point) :
    intersect p1 p2 q1 q2 = intersect q1 q2 p1 p2 := by
  unfold intersect
  simp only [and_comm]

theorem ccw_mul_swap (a b c d : Point) : ccw b a c * ccw b a d = ccw a b c * ccw a b d := by
  by_cases h : a = b
  · subst h
    rfl
  · rw [ccw_swap a b c h, ccw_swap a b d h]
    ring

theorem intersect_shared_right (p1 p2 q : Point) : intersect p1 p2 p2 q = 1 := by
  unfold intersect
  simp only [ccw_self_left, ccw_self_right, zero_mul, mul_zero, le_refl, and_self, if_true]

theorem intersect_shared_left (p1 p2 q : Point) : intersect p1 p2 p1 q = 1 := by
  unfold intersect
  simp only [ccw_self_left, ccw_self_right, zero_mul, mul_zero, le_refl, and_self, if_true]

theorem ccw_degenerate_mul_nonpos (p a b : Point) (h : (a.x - p.x) * (b.x - p.x) ≤ 0) :
    ccw p p a * ccw p p b ≤ 0 := by
  rw [ccw_degenerate, ccw_degenerate]
  split_ifs <;> first | decide | (exfalso; nlinarith)

theorem lineAt_self (a : Point) (t : ℚ) : lineAt a a t = a := by
  cases a
  simp [lineAt]

theorem intersect_point_of_onSegment (a b p : Point) (h : OnSegment a b p) :
    intersect a b p p = 1 := by
  obtain ⟨t, ht0, ht1, rfl⟩ := h
  by_cases hab : a = b
  · subst hab
    rw [lineAt_self]
    exact intersect_shared_left a a a
  · have h1 : ccw a b (lineAt a b t) = 0 := by
      rw [ccw_lineAt a b t hab, if_neg (not_lt.2 ht0), if_pos ht1]
    have h2 : ccw (lineAt a b t) (lineAt a b t) a * ccw (lineAt a b t) (lineAt a b t) b ≤ 0 := by
      apply ccw_degenerate_mul_nonpos
      simp only [lineAt]
      have : (a.x - (a.x + t * (b.x - a.x))) * (b.x - (a.x + t * (b.x - a.x)))
          = - (t * (1 - t) * ((b.x - a.x) * (b.x - a.x))) := by ring
      rw [this]
      have := mul_nonneg (mul_nonneg ht0 (sub_nonneg.2 ht1)) (mul_self_nonneg (b.x - a.x))
      linarith
    unfold intersect
    rw [h1]
    simp only [mul_zero, le_refl, true_and, if_pos h2]

theorem ccw_sq_of_cross_ne (a b p : Point) (h : cross a b p ≠ 0) :
    ccw a b p * ccw a b p = 1 := by
  rcases lt_or_gt_of_ne h with h | h
  · rw [ccw_of_cross_neg a b p h]
    rfl
  · rw [ccw_of_cross_pos a b p h]
    rfl

theorem intersect_point_of_cross_ne (a b p : Point) (h : cross a b p ≠ 0) :
    intersect a b p p = 0 := by
  unfold intersect
  rw [ccw_sq_of_cross_ne a b p h]
  simp


/-! ## Bounding box -/

theorem IsBboxOf.step (box : Bbox) (l : List Point) (pt : Point) (h : IsBboxOf box l) :
    IsBboxOf (bboxStep box pt) (l ++ [pt]) := by
  obtain ⟨hall, ⟨q1, hq1, e1⟩, ⟨q2, hq2, e2⟩, ⟨q3, hq3, e3⟩, ⟨q4, hq4, e4⟩⟩ := h
  have b1 := hall q1 hq1
  have b3 := hall q3 hq3
  have hx : box.xmin ≤ box.xmax := by linarith [b1.1, b1.2.1]
  have hy : box.ymin ≤ box.ymax := by linarith [b3.2.2.1, b3.2.2.2]
  unfold bboxStep IsBboxOf
  simp only [List.mem_append, List.mem_singleton]
  split_ifs
  all_goals
    refine ⟨?_, ?_, ?_, ?_, ?_⟩
    · rintro q (hq | rfl)
      · have := hall q hq
        refine ⟨?_, ?_, ?_, ?_⟩ <;> (try simp only []) <;> linarith
      · refine ⟨?_, ?_, ?_, ?_⟩ <;> (try simp only []) <;> linarith
    · first
        | exact ⟨pt, Or.inr rfl, rfl⟩
        | exact ⟨q1, Or.inl hq1, e1⟩
    · first
        | exact ⟨pt, Or.inr rfl, rfl⟩
        | exact ⟨q2, Or.inl hq2, e2⟩
    · first
        | exact ⟨pt, Or.inr rfl, rfl⟩
        | exact ⟨q3, Or.inl hq3, e3⟩
    · first
        | exact ⟨pt, Or.inr rfl, rfl⟩
        | exact ⟨q4, Or.inl hq4, e4⟩

theorem bboxLoop_spec (points : Points) :
    ∀ (k i : Nat) (box : Bbox), i + k ≤ points.pts.length →
      IsBboxOf box (points.pts.take i) →
      ∃ box', bboxLoop points k i box = some box' ∧ IsBboxOf box' (points.pts.take (i + k)) := by
  intro k
  induction k with
  | zero =>
    intro i box _ h
    exact ⟨box, rfl, h⟩
  | succ k ih =>
    intro i box hlen h
    have hi : i < points.pts.length := by omega
    have hget : points.pts[i]? = some (points.pts[i]) := List.getElem?_eq_getElem hi
    have htake : points.pts.take (i + 1) = points.pts.take i ++ [points.pts[i]] := by
      rw [List.take_succ, hget]
      rfl
    have h' := IsBboxOf.step box _ (points.pts[i]) h
    rw [← htake] at h'
    obtain ⟨box', hb, hB⟩ := ih (i + 1) _ (by omega) h'
    refine ⟨box', ?_, ?_⟩
    · rw [bboxLoop, hget]
      exact hb
    · rw [show i + (k + 1) = i + 1 + k by omega]
      exact hB

theorem bbox_spec (points : Points) (h1 : 1 ≤ points.size)
    (h2 : points.size ≤ points.pts.length) :
    ∃ box, bbox points = some box ∧ IsBboxOf box (points.pts.take points.size) := by
  have h0 : 0 < points.pts.length := by omega
  have hget : points.pts[0]? = some (points.pts[0]) := List.getElem?_eq_getElem h0
  have htake : points.pts.take 1 = [points.pts[0]] := by
    rw [List.take_succ, hget]
    rfl
  have hseed : IsBboxOf
      { xmin := (points.pts[0]).x, ymin := (points.pts[0]).y,
        xmax := (points.pts[0]).x, ymax := (points.pts[0]).y } (points.pts.take 1) := by
    rw [htake]
    simp [IsBboxOf]
  obtain ⟨box', hb, hB⟩ := bboxLoop_spec points (points.size - 1) 1 _ (by omega) hseed
  refine ⟨box', ?_, ?_⟩
  · rw [bbox, hget]
    exact hb
  · rw [show 1 + (points.size - 1) = points.size by omega] at hB
    exact hB


/-! ## Point in polygon -/

theorem ptinpoly_outside (poly : Points) (p : Point) (box : Bbox)
    (h : p.x < box.xmin ∨ p.x > box.xmax ∨ p.y < box.ymin ∨ p.y > box.ymax) :
    ptinpoly poly p box = some 0 := by
  unfold ptinpoly
  rw [if_pos h]

theorem ptinpolyLoop_of_edge (poly : Points) (p : Point)
    (hn : poly.size ≤ poly.pts.length) :
    ∀ (k i counter : Nat), 1 ≤ i → i + k = poly.size + 1 →
      (∃ e a b, i - 1 ≤ e ∧ e < poly.size ∧ poly.pts[e]? = some a ∧
        poly.pts[(e + 1) % poly.size]? = some b ∧ intersect a b p p ≠ 0) →
      ptinpolyLoop poly p k i (i - 1) counter = some 1 := by
  intro k
  induction k with
  | zero =>
    rintro i counter hi hk ⟨e, a, b, h1, h2, -⟩
    omega
  | succ k ih =>
    rintro i counter hi hk ⟨e, a, b, h1, h2, ha, hb, hab⟩
    have hpos : 0 < poly.size := by omega
    have hi1 : i - 1 < poly.pts.length := by omega
    have hi2 : i % poly.size < poly.pts.length :=
      lt_of_lt_of_le (Nat.mod_lt _ hpos) hn
    obtain ⟨p1, g1⟩ : ∃ p1, poly.pts[i - 1]? = some p1 :=
      ⟨_, List.getElem?_eq_getElem hi1⟩
    obtain ⟨p2, g2⟩ : ∃ p2, poly.pts[i % poly.size]? = some p2 :=
      ⟨_, List.getElem?_eq_getElem hi2⟩
    rw [ptinpolyLoop, g1, g2]
    simp only []
    by_cases hint : intersect p1 p2 p p ≠ 0
    · rw [if_pos hint]
    · rw [if_neg hint]
      have hne : e ≠ i - 1 := by
        rintro rfl
        rw [g1] at ha
        rw [show i - 1 + 1 = i by omega, g2] at hb
        cases ha
        cases hb
        exact hint hab
      have hlt : i < poly.size := by omega
      have hmod : i % poly.size = i + 1 - 1 := by
        rw [Nat.mod_eq_of_lt hlt]
        omega
      rw [hmod]
      exact ih (i + 1) _ (by omega) (by omega) ⟨e, a, b, by omega, h2, ha, hb, hab⟩

theorem ptinpoly_of_edge (poly : Points) (p : Point) (box : Bbox)
    (hn : poly.size ≤ poly.pts.length)
    (hin : ¬ (p.x < box.xmin ∨ p.x > box.xmax ∨ p.y < box.ymin ∨ p.y > box.ymax))
    (i : Nat) (a b : Point) (hi : i < poly.size) (ha : poly.pts[i]? = some a)
    (hb : poly.pts[(i + 1) % poly.size]? = some b) (hp : OnSegment a b p) :
    ptinpoly poly p box = some 1 := by
  unfold ptinpoly
  rw [if_neg hin]
  have hint : intersect a b p p ≠ 0 := by
    rw [intersect_point_of_onSegment a b p hp]
    decide
  exact ptinpolyLoop_of_edge poly p hn poly.size 1 0 (le_refl 1) (by omega)
    ⟨i, a, b, by omega, hi, ha, hb, hint⟩

theorem bbox_rectangle (x0 y0 x1 y1 : ℚ) (m : Nat) (rest : List Point)
    (hx : x0 < x1) (hy : y0 < y1) :
    bbox ⟨m, rectangle x0 y0 x1 y1 ++ rest, 4⟩ = some ⟨x0, y0, x1, y1⟩ := by
  have hx' : ¬ x1 < x0 := not_lt.2 hx.le
  have hy' : ¬ y1 < y0 := not_lt.2 hy.le
  simp [bbox, bboxLoop, bboxStep, rectangle, hx, hy, hx', hy']

theorem ptinpoly_rectangle_interior (x0 y0 x1 y1 : ℚ) (m : Nat) (rest : List Point)
    (p : Point) (h1 : x0 < p.x) (h2 : p.x < x1) (h3 : y0 < p.y) (h4 : p.y < y1) :
    ptinpoly ⟨m, rectangle x0 y0 x1 y1 ++ rest, 4⟩ p ⟨x0, y0, x1, y1⟩ = some 1 := by
  have hx : x0 < x1 := lt_trans h1 h2
  have hy : y0 < y1 := lt_trans h3 h4
  have i0 : intersect ⟨x0, y0⟩ ⟨x1, y0⟩ p p = 0 := by
    apply intersect_point_of_cross_ne
    simp only [cross]
    have := mul_pos (sub_pos.2 hx) (sub_pos.2 h3)
    intro h; linarith
  have i1 : intersect ⟨x1, y0⟩ ⟨x1, y1⟩ p p = 0 := by
    apply intersect_point_of_cross_ne
    simp only [cross]
    have := mul_pos (sub_pos.2 hy) (sub_pos.2 h2)
    intro h; linarith
  have i2 : intersect ⟨x1, y1⟩ ⟨x0, y1⟩ p p = 0 := by
    apply intersect_point_of_cross_ne
    simp only [cross]
    have := mul_pos (sub_pos.2 hx) (sub_pos.2 h4)
    intro h; linarith
  have i3 : intersect ⟨x0, y1⟩ ⟨x0, y0⟩ p p = 0 := by
    apply intersect_point_of_cross_ne
    simp only [cross]
    have := mul_pos (sub_pos.2 hy) (sub_pos.2 h1)
    intro h; linarith
  have c0 : crosses ⟨x0, y0⟩ ⟨x1, y0⟩ p = false := by
    simp [crosses, dmin, dmax, h3]
  have c1 : crosses ⟨x1, y0⟩ ⟨x1, y1⟩ p = true := by
    simp [crosses, dmin, dmax, h3, hy, not_lt.2 hy.le, h4.le, h2.le, ne_of_lt hy]
  have c2 : crosses ⟨x1, y1⟩ ⟨x0, y1⟩ p = false := by
    simp [crosses, dmin, dmax, h4.le]
  have c3 : crosses ⟨x0, y1⟩ ⟨x0, y0⟩ p = false := by
    simp [crosses, dmin, dmax, h1]
  have hin : ¬ (p.x < x0 ∨ p.x > x1 ∨ p.y < y0 ∨ p.y > y1) := by
    rintro (h | h | h | h) <;> linarith
  simp [ptinpoly, hin, ptinpolyLoop, rectangle, i0, i1, i2, i3, c0, c1, c2, c3]


theorem OnSegment.symm (a b p : Point) (h : OnSegment a b p) : OnSegment b a p := by
  obtain ⟨t, ht0, ht1, rfl⟩ := h
  exact ⟨1 - t, by linarith, by linarith, lineAt_swap a b t⟩

theorem onSegment_horizontal (a1 b1 y : ℚ) (p : Point) (hab : a1 < b1) (hp : p.y = y)
    (h1 : a1 ≤ p.x) (h2 : p.x ≤ b1) : OnSegment ⟨a1, y⟩ ⟨b1, y⟩ p := by
  have hd : 0 < b1 - a1 := sub_pos.2 hab
  refine ⟨(p.x - a1) / (b1 - a1), div_nonneg (by linarith) hd.le,
    (div_le_one hd).2 (by linarith), ?_⟩
  cases p with | mk px py =>
  simp only at hp
  subst hp
  simp only [lineAt, Point.mk.injEq, sub_self, mul_zero, add_zero, and_true]
  field_simp

theorem onSegment_vertical (x a2 b2 : ℚ) (p : Point) (hab : a2 < b2) (hp : p.x = x)
    (h1 : a2 ≤ p.y) (h2 : p.y ≤ b2) : OnSegment ⟨x, a2⟩ ⟨x, b2⟩ p := by
  have hd : 0 < b2 - a2 := sub_pos.2 hab
  refine ⟨(p.y - a2) / (b2 - a2), div_nonneg (by linarith) hd.le,
    (div_le_one hd).2 (by linarith), ?_⟩
  cases p with | mk px py =>
  simp only at hp
  subst hp
  simp only [lineAt, Point.mk.injEq, sub_self, mul_zero, add_zero, true_and]
  field_simp

theorem ptinpoly_rectangle_spec (x0 y0 x1 y1 : ℚ) (m : Nat) (rest : List Point)
    (p : Point) (hx : x0 < x1) (hy : y0 < y1) :
    ptinpoly ⟨m, rectangle x0 y0 x1 y1 ++ rest, 4⟩ p ⟨x0, y0, x1, y1⟩ =
      some (if x0 ≤ p.x ∧ p.x ≤ x1 ∧ y0 ≤ p.y ∧ p.y ≤ y1 then 1 else 0) := by
  by_cases hin : x0 ≤ p.x ∧ p.x ≤ x1 ∧ y0 ≤ p.y ∧ p.y ≤ y1
  · rw [if_pos hin]
    obtain ⟨h1, h2, h3, h4⟩ := hin
    have hbox : ¬ (p.x < x0 ∨ p.x > x1 ∨ p.y < y0 ∨ p.y > y1) := by
      rintro (h | h | h | h) <;> linarith
    have hn : (4 : Nat) ≤ (rectangle x0 y0 x1 y1 ++ rest).length := by
      simp [rectangle]
    rcases eq_or_lt_of_le h3 with e3 | l3
    · exact ptinpoly_of_edge ⟨m, rectangle x0 y0 x1 y1 ++ rest, 4⟩ p ⟨x0, y0, x1, y1⟩ hn hbox
        0 ⟨x0, y0⟩ ⟨x1, y0⟩ (by simp) (by simp [rectangle]) (by simp [rectangle])
        (onSegment_horizontal x0 x1 y0 p hx e3.symm h1 h2)
    rcases eq_or_lt_of_le h2 with e2 | l2
    · exact ptinpoly_of_edge ⟨m, rectangle x0 y0 x1 y1 ++ rest, 4⟩ p ⟨x0, y0, x1, y1⟩ hn hbox
        1 ⟨x1, y0⟩ ⟨x1, y1⟩ (by simp) (by simp [rectangle]) (by simp [rectangle])
        (onSegment_vertical x1 y0 y1 p hy e2 h3 h4)
    rcases eq_or_lt_of_le h4 with e4 | l4
    · exact ptinpoly_of_edge ⟨m, rectangle x0 y0 x1 y1 ++ rest, 4⟩ p ⟨x0, y0, x1, y1⟩ hn hbox
        2 ⟨x1, y1⟩ ⟨x0, y1⟩ (by simp) (by simp [rectangle]) (by simp [rectangle])
        (OnSegment.symm _ _ _ (onSegment_horizontal x0 x1 y1 p hx e4 h1 h2))
    rcases eq_or_lt_of_le h1 with e1 | l1
    · exact ptinpoly_of_edge ⟨m, rectangle x0 y0 x1 y1 ++ rest, 4⟩ p ⟨x0, y0, x1, y1⟩ hn hbox
        3 ⟨x0, y1⟩ ⟨x0, y0⟩ (by simp) (by simp [rectangle]) (by simp [rectangle])
        (OnSegment.symm _ _ _ (onSegment_vertical x0 y0 y1 p hy e1.symm h3 h4))
    exact ptinpoly_rectangle_interior x0 y0 x1 y1 m rest p l1 l2 l3 l4
  · rw [if_neg hin]
    apply ptinpoly_outside
    by_contra hc
    push_neg at hc
    exact hin ⟨hc.1, hc.2.1, hc.2.2.1, hc.2.2.2⟩


theorem IsBboxOf.ordered (box : Bbox) (l : List Point) (h : IsBboxOf box l) :
    box.xmin ≤ box.xmax ∧ box.ymin ≤ box.ymax := by
  obtain ⟨hall, ⟨q1, hq1, e1⟩, -, ⟨q3, hq3, e3⟩, -⟩ := h
  have b1 := hall q1 hq1
  have b3 := hall q3 hq3
  exact ⟨by linarith [b1.1, b1.2.1], by linarith [b3.2.2.1, b3.2.2.2]⟩

/-! ## The claims -/

/-- C1 (fails on the code): `intersect` answers 1 for the two degenerate
segments `(0,0)-(0,0)` and `(0,1)-(0,1)`, which are two distinct points and so
have no point in common; `ccw a a c` only compares the x coordinates. -/
theorem intersect_two_points_same_x :
    intersect ⟨0, 0⟩ ⟨0, 0⟩ ⟨0, 1⟩ ⟨0, 1⟩ = 1 ∧
      ¬ SegmentsMeet ⟨0, 0⟩ ⟨0, 0⟩ ⟨0, 1⟩ ⟨0, 1⟩ := by
  constructor
  · norm_num [intersect, ccw]
  · rintro ⟨r, ⟨t, -, -, h1⟩, ⟨s, -, -, h2⟩⟩
    rw [h1] at h2
    simp [lineAt] at h2

/-- C4: the degenerate call `ccw a a c` depends only on the x coordinates: it
is -1 if `c.x < a.x`, 1 if `c.x > a.x` and 0 if `c.x = a.x`; so
`ccw (0,0) (0,0) (5,0) = 1`, `ccw (0,0) (0,0) (-5,0) = -1` and
`ccw (0,0) (0,0) (0,0) = 0`. -/
theorem ccw_same_point_compares_x :
    (∀ a c : Point, ccw a a c = if c.x < a.x then -1 else if c.x > a.x then 1 else 0) ∧
      ccw ⟨0, 0⟩ ⟨0, 0⟩ ⟨5, 0⟩ = 1 ∧ ccw ⟨0, 0⟩ ⟨0, 0⟩ ⟨-5, 0⟩ = -1 ∧
      ccw ⟨0, 0⟩ ⟨0, 0⟩ ⟨0, 0⟩ = 0 := by
  refine ⟨ccw_degenerate, ?_, ?_, ?_⟩ <;> rw [ccw_degenerate] <;> norm_num

/-- C6: two segments that share an end point intersect, degenerate segments
included: `intersect p1 p2 p2 q = 1` and `intersect p1 p2 p1 q = 1` for all
points, and `intersect (0,0) (1,1) (1,1) (2,0) = 1`. -/
theorem intersect_of_shared_endpoint :
    (∀ p1 p2 q : Point, intersect p1 p2 p2 q = 1 ∧ intersect p1 p2 p1 q = 1) ∧
      intersect ⟨0, 0⟩ ⟨1, 1⟩ ⟨1, 1⟩ ⟨2, 0⟩ = 1 :=
  ⟨fun p1 p2 q => ⟨intersect_shared_right p1 p2 q, intersect_shared_left p1 p2 q⟩,
    intersect_shared_right ⟨0, 0⟩ ⟨1, 1⟩ ⟨2, 0⟩⟩


/-- C7: for a buffer whose logical length `size` is at least 1 (and whose
`size` slots are allocated), `bbox` returns a box: every one of the first
`size` points lies inside it, each of `xmin`, `xmax`, `ymin`, `ymax` is the
coordinate of one of those points, and so `xmin ≤ xmax` and `ymin ≤ ymax`. -/
theorem bbox_is_extent (points : Points) (h1 : 1 ≤ points.size)
    (h2 : points.size ≤ points.pts.length) :
    ∃ box, bbox points = some box ∧ IsBboxOf box (points.pts.take points.size) ∧
      box.xmin ≤ box.xmax ∧ box.ymin ≤ box.ymax := by
  obtain ⟨box, hb, hB⟩ := bbox_spec points h1 h2
  exact ⟨box, hb, hB, IsBboxOf.ordered box _ hB⟩

theorem bbox_is_extent_witness :
    (1 ≤ (ofList [⟨1, 5⟩, ⟨-2, 3⟩, ⟨4, -1⟩]).size ∧
      (ofList [⟨1, 5⟩, ⟨-2, 3⟩, ⟨4, -1⟩]).size ≤ (ofList [⟨1, 5⟩, ⟨-2, 3⟩, ⟨4, -1⟩]).pts.length) ∧
      (∃ box, bbox (ofList [⟨1, 5⟩, ⟨-2, 3⟩, ⟨4, -1⟩]) = some box ∧
        IsBboxOf box ((ofList [⟨1, 5⟩, ⟨-2, 3⟩, ⟨4, -1⟩]).pts.take
          (ofList [⟨1, 5⟩, ⟨-2, 3⟩, ⟨4, -1⟩]).size) ∧
        box.xmin ≤ box.xmax ∧ box.ymin ≤ box.ymax) ∧
      bbox (ofList [⟨1, 5⟩, ⟨-2, 3⟩, ⟨4, -1⟩]) = some ⟨-2, -1, 4, 5⟩ :=
  ⟨⟨by simp [ofList], by simp [ofList]⟩,
    bbox_is_extent (ofList [⟨1, 5⟩, ⟨-2, 3⟩, ⟨4, -1⟩]) (by simp [ofList]) (by simp [ofList]),
    by norm_num [bbox, ofList, bboxLoop, bboxStep]⟩

/-- C8: whatever the polygon's vertices (and their number), a point `p` with
`p.x < box.xmin` or `p.x > box.xmax` or `p.y < box.ymin` or `p.y > box.ymax`
makes `ptinpoly poly p box` return 0. -/
theorem ptinpoly_zero_outside_box (poly : Points) (p : Point) (box : Bbox)
    (h : p.x < box.xmin ∨ p.x > box.xmax ∨ p.y < box.ymin ∨ p.y > box.ymax) :
    ptinpoly poly p box = some 0 :=
  ptinpoly_outside poly p box h

theorem ptinpoly_zero_outside_box_witness :
    ((⟨15, 5⟩ : Point).x < (⟨0, 0, 10, 10⟩ : Bbox).xmin ∨
      (⟨15, 5⟩ : Point).x > (⟨0, 0, 10, 10⟩ : Bbox).xmax ∨
      (⟨15, 5⟩ : Point).y < (⟨0, 0, 10, 10⟩ : Bbox).ymin ∨
      (⟨15, 5⟩ : Point).y > (⟨0, 0, 10, 10⟩ : Bbox).ymax) ∧
      ptinpoly (ofList (rectangle 0 0 10 10)) ⟨15, 5⟩ ⟨0, 0, 10, 10⟩ = some 0 :=
  ⟨by norm_num,
    ptinpoly_zero_outside_box (ofList (rectangle 0 0 10 10)) ⟨15, 5⟩ ⟨0, 0, 10, 10⟩
      (by norm_num)⟩

/-- C10: for the axis-aligned rectangle with vertex list
`(x0,y0), (x1,y0), (x1,y1), (x0,y1)`, `x0 < x1` and `y0 < y1` (held in the
first four slots of a buffer of logical length 4), `bbox` returns
`(x0, y0, x1, y1)` and, with that box, `ptinpoly` returns 1 exactly when
`x0 ≤ p.x ≤ x1` and `y0 ≤ p.y ≤ y1`, and 0 otherwise. -/
theorem ptinpoly_axis_rectangle (x0 y0 x1 y1 : ℚ) (m : Nat) (rest : List Point)
    (p : Point) (hx : x0 < x1) (hy : y0 < y1) :
    bbox ⟨m, rectangle x0 y0 x1 y1 ++ rest, 4⟩ = some ⟨x0, y0, x1, y1⟩ ∧
      (ptinpoly ⟨m, rectangle x0 y0 x1 y1 ++ rest, 4⟩ p ⟨x0, y0, x1, y1⟩ = some 1 ↔
        x0 ≤ p.x ∧ p.x ≤ x1 ∧ y0 ≤ p.y ∧ p.y ≤ y1) ∧
      ptinpoly ⟨m, rectangle x0 y0 x1 y1 ++ rest, 4⟩ p ⟨x0, y0, x1, y1⟩ =
        some (if x0 ≤ p.x ∧ p.x ≤ x1 ∧ y0 ≤ p.y ∧ p.y ≤ y1 then 1 else 0) := by
  refine ⟨bbox_rectangle x0 y0 x1 y1 m rest hx hy, ?_,
    ptinpoly_rectangle_spec x0 y0 x1 y1 m rest p hx hy⟩
  rw [ptinpoly_rectangle_spec x0 y0 x1 y1 m rest p hx hy]
  by_cases hin : x0 ≤ p.x ∧ p.x ≤ x1 ∧ y0 ≤ p.y ∧ p.y ≤ y1
  · rw [if_pos hin]
    exact ⟨fun _ => hin, fun _ => rfl⟩
  · rw [if_neg hin]
    exact ⟨fun h => by simp at h, fun h => absurd h hin⟩

theorem ptinpoly_axis_rectangle_witness :
    ((0 : ℚ) < 10 ∧ (0 : ℚ) < 10) ∧
      bbox ⟨4, rectangle 0 0 10 10 ++ [], 4⟩ = some ⟨0, 0, 10, 10⟩ ∧
      ptinpoly ⟨4, rectangle 0 0 10 10 ++ [], 4⟩ ⟨5, 5⟩ ⟨0, 0, 10, 10⟩ = some 1 ∧
      ptinpoly ⟨4, rectangle 0 0 10 10 ++ [], 4⟩ ⟨15, 5⟩ ⟨0, 0, 10, 10⟩ = some 0 ∧
      ptinpoly ⟨4, rectangle 0 0 10 10 ++ [], 4⟩ ⟨10, 5⟩ ⟨0, 0, 10, 10⟩ = some 1 ∧
      ptinpoly ⟨4, rectangle 0 0 10 10 ++ [], 4⟩ ⟨0, 0⟩ ⟨0, 0, 10, 10⟩ = some 1 :=
  ⟨⟨by norm_num, by norm_num⟩,
    (ptinpoly_axis_rectangle 0 0 10 10 4 [] ⟨5, 5⟩ (by norm_num) (by norm_num)).1,
    by simpa using
      (ptinpoly_axis_rectangle 0 0 10 10 4 [] ⟨5, 5⟩ (by norm_num) (by norm_num)).2.2,
    by simpa using
      (ptinpoly_axis_rectangle 0 0 10 10 4 [] ⟨15, 5⟩ (by norm_num) (by norm_num)).2.2,
    by simpa using
      (ptinpoly_axis_rectangle 0 0 10 10 4 [] ⟨10, 5⟩ (by norm_num) (by norm_num)).2.2,
    by simpa using
      (ptinpoly_axis_rectangle 0 0 10 10 4 [] ⟨0, 0⟩ (by norm_num) (by norm_num)).2.2⟩

/-! ## Spherical distance and the latlong commands -/

theorem spheredist_same (m : Libm) (lat lon : ℚ) (hsin : m.sin 0 = 0) (hsqrt : m.sqrt 0 = 0)
    (hasin : m.asin 0 = 0) : spheredist m lat lon lat lon = 0 := by
  simp [spheredist, hsin, hsqrt, hasin]

theorem validateLatLong_ok_iff (lat lon : ℚ) :
    validateLatLong lat lon = TclStatus.TCL_OK ↔
      -90 ≤ lat ∧ lat ≤ 90 ∧ -180 ≤ lon ∧ lon ≤ 360 := by
  unfold validateLatLong LAT_MIN LAT_MAX LON_MIN LON_MAX
  by_cases h1 : lat < -90 ∨ lat > 90
  · rw [if_pos h1]
    constructor
    · intro h
      cases h
    · rintro ⟨a, b, -, -⟩
      rcases h1 with h1 | h1 <;> linarith
  · rw [if_neg h1]
    push_neg at h1
    by_cases h2 : lon < -180 ∨ lon > 360
    · rw [if_pos h2]
      constructor
      · intro h
        cases h
      · rintro ⟨-, -, a, b⟩
        rcases h2 with h2 | h2 <;> linarith
    · rw [if_neg h2]
      push_neg at h2
      exact ⟨fun _ => ⟨h1.1, h1.2, h2.1, h2.2⟩, fun _ => rfl⟩

theorem validateLatLong_cases (lat lon : ℚ) :
    validateLatLong lat lon = TclStatus.TCL_OK ∨
      validateLatLong lat lon = TclStatus.TCL_ERROR := by
  cases validateLatLong lat lon
  · exact Or.inl rfl
  · exact Or.inr rfl

theorem getLatLong_pair (loc : TclObj) (lat lon : ℚ)
    (h : loc.asList = some [some lat, some lon]) : getLatLong loc = Outcome.ok (lat, lon) := by
  simp [getLatLong, h]

theorem latlong_dist_unchecked (m : Libm) (c s o2 o3 : TclObj) (lat1 lon1 lat2 lon2 : ℚ)
    (h2 : o2.asList = some [some lat1, some lon1])
    (h3 : o3.asList = some [some lat2, some lon2]) :
    latlong_dist m [c, s, o2, o3] = Outcome.ok (spheredist m lat1 lon1 lat2 lon2) := by
  simp [latlong_dist, getLatLong_pair o2 lat1 lon1 h2, getLatLong_pair o3 lat2 lon2 h3]

theorem latlong_dist4_unchecked (m : Libm) (c s o2 o3 o4 o5 : TclObj)
    (lat1 lon1 lat2 lon2 : ℚ) (h2 : o2.asDouble = some lat1) (h3 : o3.asDouble = some lon1)
    (h4 : o4.asDouble = some lat2) (h5 : o5.asDouble = some lon2) :
    latlong_dist4 m [c, s, o2, o3, o4, o5] =
      Outcome.ok (spheredist m lat1 lon1 lat2 lon2) := by
  simp [latlong_dist4, h2, h3, h4, h5]

theorem latlong_radius_unchecked (m : Libm) (info : LatlongInfo) (c s o2 o3 : TclObj)
    (lat lon : ℚ) (h2 : o2.asDouble = some lat) (h3 : o3.asDouble = some lon) :
    latlong_radius m info [c, s, o2, o3] =
      Outcome.ok (spheredist m lat lon info.poleLat info.poleLon) := by
  simp [latlong_radius, h2, h3]

/-! ## The point buffer and `getPoints` -/

theorem storeX_eq (pts : List Point) (i : Nat) (v : ℚ) (q : Point) (h : pts[i]? = some q) :
    storeX pts i v = some (pts.set i { q with x := v }) := by
  simp [storeX, h]

theorem storeY_eq (pts : List Point) (i : Nat) (v : ℚ) (q : Point) (h : pts[i]? = some q) :
    storeY pts i v = some (pts.set i { q with y := v }) := by
  simp [storeY, h]

theorem getElem?_set_set (pts : List Point) (i j : Nat) (a b : Point) (hi : i < pts.length) :
    ((pts.set i a).set i b)[j]? = if j = i then some b else pts[j]? := by
  by_cases h : j = i
  · subst h
    simp [hi]
  · rw [if_neg h]
    rw [List.getElem?_set_ne (Ne.symm h), List.getElem?_set_ne (Ne.symm h)]

theorem numAt_of_getElem? (listv : List (Option ℚ)) (n : Nat) (v : ℚ)
    (h : listv[n]? = some (some v)) : numAt listv n = v := by
  simp [numAt, List.getD_eq_getElem?_getD, h]

theorem getPointsLoop_spec (listv : List (Option ℚ)) :
    ∀ (k i : Nat) (pts : List Point), i + k ≤ pts.length → 2 * (i + k) ≤ listv.length →
      ∃ st pts', getPointsLoop listv k i pts = some (st, pts') ∧ pts'.length = pts.length ∧
        (st = TclStatus.TCL_OK ↔
          ∀ n, 2 * i ≤ n → n < 2 * (i + k) → ∃ v, listv[n]? = some (some v)) ∧
        (st = TclStatus.TCL_OK → ∀ j, pts'[j]? =
          if i ≤ j ∧ j < i + k then
            some { x := numAt listv (2 * j), y := numAt listv (2 * j + 1) }
          else pts[j]?) := by
  intro k
  induction k with
  | zero =>
    intro i pts _ _
    refine ⟨TclStatus.TCL_OK, pts, rfl, rfl, ?_, ?_⟩
    · constructor
      · intro _ n h1 h2
        omega
      · intro _
        rfl
    · intro _ j
      rw [if_neg (by omega)]
  | succ k ih =>
    intro i pts hp hl
    have hi : i < pts.length := by omega
    obtain ⟨q, hq⟩ : ∃ q, pts[i]? = some q := ⟨_, List.getElem?_eq_getElem hi⟩
    obtain ⟨e0, he0⟩ : ∃ e, listv[2 * i]? = some e :=
      ⟨_, List.getElem?_eq_getElem (by omega)⟩
    obtain ⟨e1, he1⟩ : ∃ e, listv[2 * i + 1]? = some e :=
      ⟨_, List.getElem?_eq_getElem (by omega)⟩
    cases e0 with
    | none =>
      refine ⟨TclStatus.TCL_ERROR, pts, ?_, rfl, ?_, ?_⟩
      · rw [getPointsLoop, he0]
      · constructor
        · intro h
          cases h
        · intro h
          obtain ⟨v, hv⟩ := h (2 * i) (le_refl _) (by omega)
          rw [he0] at hv
          cases hv
      · intro h
        cases h
    | some xv =>
      have hs1 := storeX_eq pts i xv q hq
      have hq1 : (pts.set i { q with x := xv })[i]? = some { q with x := xv } := by
        simp [hi]
      have hs2 := fun yv => storeY_eq (pts.set i { q with x := xv }) i yv _ hq1
      cases e1 with
      | none =>
        refine ⟨TclStatus.TCL_ERROR, pts.set i { q with x := xv }, ?_, ?_, ?_, ?_⟩
        · rw [getPointsLoop, he0]
          simp only [hs1, he1]
        · simp
        · constructor
          · intro h
            cases h
          · intro h
            obtain ⟨v, hv⟩ := h (2 * i + 1) (by omega) (by omega)
            rw [he1] at hv
            cases hv
        · intro h
          cases h
      | some yv =>
        obtain ⟨st, pts', hloop, hlen, hiff, hval⟩ :=
          ih (i + 1) ((pts.set i { q with x := xv }).set i { x := xv, y := yv })
            (by simp; omega) (by omega)
        refine ⟨st, pts', ?_, ?_, ?_, ?_⟩
        · rw [getPointsLoop, he0]
          simp only [hs1, he1, hs2 yv]
          exact hloop
        · rw [hlen]
          simp
        · rw [hiff]
          constructor
          · intro h n h1 h2
            by_cases hn0 : n = 2 * i
            · exact ⟨xv, by rw [hn0, he0]⟩
            by_cases hn1 : n = 2 * i + 1
            · exact ⟨yv, by rw [hn1, he1]⟩
            exact h n (by omega) (by omega)
          · intro h n h1 h2
            exact h n (by omega) (by omega)
        · intro hst j
          rw [hval hst j, getElem?_set_set pts i j _ _ hi]
          by_cases hj : j = i
          · subst hj
            rw [if_neg (by omega), if_pos rfl, if_pos (by omega),
              numAt_of_getElem? listv _ xv he0, numAt_of_getElem? listv _ yv he1]
          · rw [if_neg hj]
            by_cases hr : i + 1 ≤ j ∧ j < i + 1 + k
            · rw [if_pos hr, if_pos (by omega)]
            · rw [if_neg hr, if_neg (by omega)]

theorem alloc_length (junk : Nat → Point) (n : Nat) : (alloc junk n).length = n := by
  simp [alloc]

theorem realloc_length (junk : Nat → Point) (pts : List Point) (n : Nat) :
    (realloc junk pts n).length = n := by
  simp [realloc]

theorem getPoints_of_storage (junk : Nat → Point) (coords : TclObj)
    (listv : List (Option ℚ)) (minSize : Nat) (points : Points) (pts2 : List Point)
    (m2 : Nat) (hc : coords.asList = some listv) (heven : listv.length % 2 = 0)
    (hmin : 2 * minSize ≤ listv.length)
    (h2 : (if points.maxSize = 0 then
            ({ maxSize := listv.length / 2, pts := alloc junk (listv.length / 2),
               size := listv.length / 2 } : Points)
          else if listv.length / 2 > points.maxSize then
            { maxSize := listv.length / 2,
              pts := realloc junk points.pts (listv.length / 2),
              size := listv.length / 2 }
          else { maxSize := points.maxSize, pts := points.pts, size := listv.length / 2 })
        = { maxSize := m2, pts := pts2, size := listv.length / 2 }) :
    getPoints junk coords minSize points =
      match getPointsLoop listv (listv.length / 2) 0 pts2 with
      | none => none
      | some (status, pts) =>
        some (status, { maxSize := m2, pts := pts, size := listv.length / 2 }) := by
  unfold getPoints
  rw [hc]
  simp only [heven, ne_eq, not_true_eq_false, if_false, not_lt.2 hmin]
  rw [h2]

theorem getPoints_spec (junk : Nat → Point) (coords : TclObj) (listv : List (Option ℚ))
    (minSize : Nat) (points : Points) (hwf : points.WellFormed)
    (hc : coords.asList = some listv) (heven : listv.length % 2 = 0)
    (hmin : 2 * minSize ≤ listv.length) :
    ∃ st points', getPoints junk coords minSize points = some (st, points') ∧
      points'.size = listv.length / 2 ∧
      points'.maxSize = max points.maxSize (listv.length / 2) ∧
      points'.WellFormed ∧
      (st = TclStatus.TCL_OK ↔ ∀ n, n < listv.length → ∃ v, listv[n]? = some (some v)) ∧
      (st = TclStatus.TCL_OK → ∀ j, j < listv.length / 2 → points'.pts[j]? =
        some { x := numAt listv (2 * j), y := numAt listv (2 * j + 1) }) := by
  unfold Points.WellFormed at hwf
  -- the storage after the growth step
  obtain ⟨m2, pts2, h2, hlen, hm2, hcap⟩ : ∃ m2 pts2,
      (if points.maxSize = 0 then
            ({ maxSize := listv.length / 2, pts := alloc junk (listv.length / 2),
               size := listv.length / 2 } : Points)
          else if listv.length / 2 > points.maxSize then
            { maxSize := listv.length / 2,
              pts := realloc junk points.pts (listv.length / 2),
              size := listv.length / 2 }
          else { maxSize := points.maxSize, pts := points.pts, size := listv.length / 2 })
        = { maxSize := m2, pts := pts2, size := listv.length / 2 } ∧
      pts2.length = m2 ∧ m2 = max points.maxSize (listv.length / 2) ∧
      listv.length / 2 ≤ m2 := by
    by_cases h0 : points.maxSize = 0
    · refine ⟨listv.length / 2, alloc junk (listv.length / 2), if_pos h0,
        alloc_length _ _, ?_, le_refl _⟩
      rw [h0]
      simp
    · by_cases h1 : listv.length / 2 > points.maxSize
      · refine ⟨listv.length / 2, realloc junk points.pts (listv.length / 2), ?_,
          realloc_length _ _ _, ?_, le_refl _⟩
        · rw [if_neg h0, if_pos h1]
        · rw [max_eq_right (le_of_lt h1)]
      · refine ⟨points.maxSize, points.pts, ?_, hwf, ?_, not_lt.1 h1⟩
        · rw [if_neg h0, if_neg h1]
        · rw [max_eq_left (not_lt.1 h1)]
  rw [getPoints_of_storage junk coords listv minSize points pts2 m2 hc heven hmin h2]
  obtain ⟨st, pts', hloop, hl, hiff, hval⟩ :=
    getPointsLoop_spec listv (listv.length / 2) 0 pts2 (by omega) (by omega)
  refine ⟨st, { maxSize := m2, pts := pts', size := listv.length / 2 }, ?_, rfl, hm2, ?_, ?_, ?_⟩
  · rw [hloop]
  · unfold Points.WellFormed
    simp only
    rw [hl, hlen]
  · rw [hiff]
    constructor
    · intro h n hn
      exact h n (by omega) (by omega)
    · intro h n _ hn
      exact h n (by omega)
  · intro hst j hj
    simp only
    rw [hval hst j, if_pos (by omega)]

theorem getPoints_not_list (junk : Nat → Point) (coords : TclObj) (minSize : Nat)
    (points : Points) (hc : coords.asList = none) :
    getPoints junk coords minSize points = some (TclStatus.TCL_ERROR, points) := by
  unfold getPoints
  rw [hc]

theorem getPoints_odd (junk : Nat → Point) (coords : TclObj) (listv : List (Option ℚ))
    (minSize : Nat) (points : Points) (hc : coords.asList = some listv)
    (hodd : listv.length % 2 ≠ 0) :
    getPoints junk coords minSize points = some (TclStatus.TCL_ERROR, points) := by
  unfold getPoints
  rw [hc]
  simp only [hodd, ne_eq, not_false_eq_true, if_true]

theorem getPoints_few (junk : Nat → Point) (coords : TclObj) (listv : List (Option ℚ))
    (minSize : Nat) (points : Points) (hc : coords.asList = some listv)
    (hfew : listv.length < 2 * minSize) :
    getPoints junk coords minSize points = some (TclStatus.TCL_ERROR, points) := by
  unfold getPoints
  rw [hc]
  by_cases hodd : listv.length % 2 ≠ 0
  · simp only [hodd, ne_eq, not_false_eq_true, if_true]
  · simp only [hodd, if_false, hfew, if_true]

theorem TclStatus.error_iff_not_ok (st : TclStatus) :
    st = TclStatus.TCL_ERROR ↔ ¬ st = TclStatus.TCL_OK := by
  cases st <;> simp

theorem getPoints_status (junk : Nat → Point) (coords : TclObj) (listv : List (Option ℚ))
    (minSize : Nat) (points : Points) (hwf : points.WellFormed)
    (hc : coords.asList = some listv) :
    ∃ st points', getPoints junk coords minSize points = some (st, points') ∧
      (st = TclStatus.TCL_ERROR ↔
        (listv.length % 2 = 1 ∨ listv.length / 2 < minSize ∨ none ∈ listv)) := by
  by_cases hodd : listv.length % 2 ≠ 0
  · refine ⟨_, _, getPoints_odd junk coords listv minSize points hc hodd, ?_⟩
    simp only [true_iff]
    exact Or.inl (by omega)
  · by_cases hfew : listv.length < 2 * minSize
    · refine ⟨_, _, getPoints_few junk coords listv minSize points hc hfew, ?_⟩
      simp only [true_iff]
      exact Or.inr (Or.inl (by omega))
    · obtain ⟨st, points', hg, -, -, -, hiff, -⟩ :=
        getPoints_spec junk coords listv minSize points hwf hc (by omega) (by omega)
      refine ⟨st, points', hg, ?_⟩
      rw [TclStatus.error_iff_not_ok, hiff]
      constructor
      · intro h
        refine Or.inr (Or.inr ?_)
        by_contra hmem
        apply h
        intro n hn
        have hget : listv[n]? = some (listv[n]) := List.getElem?_eq_getElem hn
        cases he : listv[n] with
        | none =>
          exfalso
          apply hmem
          rw [← he]
          exact List.getElem_mem hn
        | some v =>
          exact ⟨v, by rw [hget, he]⟩
      · rintro (h | h | h) hall
        · omega
        · omega
        · obtain ⟨n, hn⟩ := List.mem_iff_getElem?.1 h
          have hlt : n < listv.length := by
            by_contra hge
            rw [List.getElem?_eq_none (by omega)] at hn
            cases hn
          obtain ⟨v, hv⟩ := hall n hlt
          rw [hn] at hv
          cases hv

theorem getPoints_ok_shape (junk : Nat → Point) (coords : TclObj)
    (listv : List (Option ℚ)) (minSize : Nat) (points points' : Points)
    (hc : coords.asList = some listv)
    (hok : getPoints junk coords minSize points = some (TclStatus.TCL_OK, points')) :
    listv.length % 2 = 0 ∧ 2 * minSize ≤ listv.length := by
  constructor
  · by_contra hodd
    rw [getPoints_odd junk coords listv minSize points hc hodd] at hok
    cases hok
  · by_contra hfew
    rw [getPoints_few junk coords listv minSize points hc (by omega)] at hok
    cases hok

theorem getPoints_ok_spec (junk : Nat → Point) (coords : TclObj) (listv : List (Option ℚ))
    (minSize : Nat) (points points' : Points) (hwf : points.WellFormed)
    (hc : coords.asList = some listv)
    (hok : getPoints junk coords minSize points = some (TclStatus.TCL_OK, points')) :
    points'.size = listv.length / 2 ∧
      points'.maxSize = max points.maxSize (listv.length / 2) ∧
      points'.WellFormed ∧
      (∀ n, n < listv.length → ∃ v, listv[n]? = some (some v)) ∧
      ∀ j, j < listv.length / 2 → points'.pts[j]? =
        some { x := numAt listv (2 * j), y := numAt listv (2 * j + 1) } := by
  obtain ⟨heven, hmin⟩ := getPoints_ok_shape junk coords listv minSize points points' hc hok
  obtain ⟨st, q, hg, h1, h2, h3, h4, h5⟩ :=
    getPoints_spec junk coords listv minSize points hwf hc heven hmin
  rw [hok] at hg
  simp only [Option.some.injEq, Prod.mk.injEq] at hg
  obtain ⟨rfl, rfl⟩ := hg
  exact ⟨h1, h2, h3, h4.1 rfl, h5 rfl⟩

/-! ## Buffer reuse -/

theorem bboxLoop_congr (P Q : Points) :
    ∀ (k i : Nat) (box : Bbox), (∀ j, j < i + k → P.pts[j]? = Q.pts[j]?) →
      bboxLoop P k i box = bboxLoop Q k i box := by
  intro k
  induction k with
  | zero =>
    intro i box _
    rfl
  | succ k ih =>
    intro i box h
    rw [bboxLoop, bboxLoop, h i (by omega)]
    cases Q.pts[i]? with
    | none => rfl
    | some pt => exact ih (i + 1) _ (fun j hj => h j (by omega))

theorem bbox_congr (P Q : Points) (hs : P.size = Q.size) (h1 : 1 ≤ P.size)
    (h : ∀ j, j < P.size → P.pts[j]? = Q.pts[j]?) : bbox P = bbox Q := by
  unfold bbox
  rw [h 0 (by omega), ← hs]
  cases Q.pts[0]? with
  | none => rfl
  | some p0 => exact bboxLoop_congr P Q _ _ _ (fun j hj => h j (by omega))

theorem ptinpolyLoop_congr (P Q : Points) (p : Point) (hs : P.size = Q.size)
    (h1 : 1 ≤ P.size) (h : ∀ j, j < P.size → P.pts[j]? = Q.pts[j]?) :
    ∀ (k i i1 counter : Nat), i1 < P.size →
      ptinpolyLoop P p k i i1 counter = ptinpolyLoop Q p k i i1 counter := by
  intro k
  induction k with
  | zero =>
    intro i i1 counter _
    rfl
  | succ k ih =>
    intro i i1 counter hi1
    have hmod : i % P.size < P.size := Nat.mod_lt _ (by omega)
    rw [ptinpolyLoop, ptinpolyLoop, ← hs, h i1 hi1, h _ hmod]
    cases Q.pts[i1]? with
    | none => rfl
    | some p1 =>
      cases Q.pts[i % P.size]? with
      | none => rfl
      | some p2 =>
        simp only []
        split_ifs
        · rfl
        · exact ih _ _ _ hmod
        · exact ih _ _ _ hmod

theorem ptinpoly_congr (P Q : Points) (p : Point) (box : Bbox) (hs : P.size = Q.size)
    (h1 : 1 ≤ P.size) (h : ∀ j, j < P.size → P.pts[j]? = Q.pts[j]?) :
    ptinpoly P p box = ptinpoly Q p box := by
  unfold ptinpoly
  rw [← hs, ptinpolyLoop_congr P Q p hs h1 h P.size 1 0 0 (by omega)]

theorem ptinpolyLoop_total (poly : Points) (p : Point) (hn : poly.size ≤ poly.pts.length)
    (h1 : 1 ≤ poly.size) :
    ∀ (k i i1 counter : Nat), i1 < poly.size →
      ∃ v, ptinpolyLoop poly p k i i1 counter = some v ∧ (v = 0 ∨ v = 1) := by
  intro k
  induction k with
  | zero =>
    intro i i1 counter _
    refine ⟨_, rfl, ?_⟩
    split_ifs
    · exact Or.inl rfl
    · exact Or.inr rfl
  | succ k ih =>
    intro i i1 counter hi1
    have hmod : i % poly.size < poly.size := Nat.mod_lt _ (by omega)
    obtain ⟨p1, g1⟩ : ∃ p1, poly.pts[i1]? = some p1 :=
      ⟨_, List.getElem?_eq_getElem (by omega)⟩
    obtain ⟨p2, g2⟩ : ∃ p2, poly.pts[i % poly.size]? = some p2 :=
      ⟨_, List.getElem?_eq_getElem (by omega)⟩
    rw [ptinpolyLoop, g1, g2]
    simp only []
    by_cases hint : intersect p1 p2 p p ≠ 0
    · rw [if_pos hint]
      exact ⟨1, rfl, Or.inr rfl⟩
    · rw [if_neg hint]
      exact ih _ _ _ hmod

theorem ptinpoly_total (poly : Points) (p : Point) (box : Bbox)
    (hn : poly.size ≤ poly.pts.length) (h1 : 1 ≤ poly.size) :
    ∃ v, ptinpoly poly p box = some v ∧ (v = 0 ∨ v = 1) := by
  unfold ptinpoly
  split_ifs
  · exact ⟨0, rfl, Or.inl rfl⟩
  · exact ptinpolyLoop_total poly p hn h1 _ _ _ _ (by omega)

theorem toPoints_length (vals : List ℚ) : (toPoints vals).length = vals.length / 2 := by
  induction vals using toPoints.induct with
  | case1 x y rest ih =>
    rw [toPoints, List.length_cons, ih]
    simp only [List.length_cons]
    omega
  | case2 l h =>
    match l, h with
    | [], _ => rfl
    | [_], _ => simp [toPoints]
    | x :: y :: rest, h => exact absurd rfl (h x y rest)

theorem toPoints_getElem? (vals : List ℚ) :
    ∀ j, j < vals.length / 2 → (toPoints vals)[j]? =
      some { x := numAt (vals.map some) (2 * j), y := numAt (vals.map some) (2 * j + 1) } := by
  induction vals using toPoints.induct with
  | case1 x y rest ih =>
    intro j hj
    cases j with
    | zero => simp [toPoints, numAt]
    | succ j =>
      simp only [List.length_cons] at hj
      rw [toPoints, List.getElem?_cons_succ, ih j (by omega)]
      simp [numAt, Nat.mul_succ]
  | case2 l h =>
    intro j hj
    match l, h with
    | [], _ => simp at hj
    | [_], _ =>
      simp only [List.length_cons, List.length_nil] at hj
      omega
    | x :: y :: rest, h => exact absurd rfl (h x y rest)

/-! ## Spherical polygon area -/

theorem toRadiansLoop_spec :
    ∀ (k i : Nat) (pts : List Point), i + k ≤ pts.length →
      ∃ pts', toRadiansLoop k i pts = some pts' ∧ pts'.length = pts.length ∧
        ∀ j, pts'[j]? = if i ≤ j ∧ j < i + k then (pts[j]?).map toRadians else pts[j]? := by
  intro k
  induction k with
  | zero =>
    intro i pts _
    refine ⟨pts, rfl, rfl, fun j => ?_⟩
    rw [if_neg (by omega)]
  | succ k ih =>
    intro i pts h
    have hi : i < pts.length := by omega
    obtain ⟨q, hq⟩ : ∃ q, pts[i]? = some q := ⟨_, List.getElem?_eq_getElem hi⟩
    obtain ⟨pts', hloop, hlen, hval⟩ :=
      ih (i + 1) (pts.set i { x := q.x * radians, y := q.y * radians }) (by simp; omega)
    refine ⟨pts', ?_, ?_, fun j => ?_⟩
    · rw [toRadiansLoop, hq]
      exact hloop
    · rw [hlen]
      simp
    · rw [hval j]
      by_cases hj : j = i
      · subst hj
        rw [if_neg (by omega), if_pos (by omega), hq]
        simp [hi, toRadians]
      · rw [List.getElem?_set_ne (Ne.symm hj)]
        by_cases hr : i + 1 ≤ j ∧ j < i + 1 + k
        · rw [if_pos hr, if_pos (by omega)]
        · rw [if_neg hr, if_neg (by omega)]

theorem toRadiansLoop_all (l : List Point) :
    toRadiansLoop l.length 0 l = some (l.map toRadians) := by
  obtain ⟨pts', hloop, hlen, hval⟩ := toRadiansLoop_spec l.length 0 l (by omega)
  rw [hloop]
  congr 1
  apply List.ext_getElem?
  intro j
  rw [hval j, List.getElem?_map]
  by_cases hj : j < l.length
  · rw [if_pos (by omega)]
  · rw [if_neg (by omega), List.getElem?_eq_none (by omega)]
    rfl

theorem readAt_prev2 (pts : List Point) (n i : Nat) (hn : 2 ≤ n) :
    readAt pts (if (i : Int) - 2 < 0 then (i : Int) - 2 + n else (i : Int) - 2)
      = pts[prev2 n i]? := by
  unfold readAt prev2
  by_cases h : i < 2
  · have h1 : (i : Int) - 2 < 0 := by omega
    have h2 : ¬ ((i : Int) - 2 + n < 0) := by omega
    rw [if_pos h1, if_neg h2, if_pos h]
    congr 1
    omega
  · have h1 : ¬ ((i : Int) - 2 < 0) := by omega
    rw [if_neg h1, if_neg h1, if_neg h]
    congr 1
    omega

theorem readAt_prev1 (pts : List Point) (n i : Nat) (hn : 2 ≤ n) :
    readAt pts (if (i : Int) - 1 < 0 then (i : Int) - 1 + n else (i : Int) - 1)
      = pts[prev1 n i]? := by
  unfold readAt prev1
  by_cases h : i < 1
  · have h1 : (i : Int) - 1 < 0 := by omega
    have h2 : ¬ ((i : Int) - 1 + n < 0) := by
      have hn1 : 1 ≤ n := le_trans (by decide) hn
      omega
    rw [if_pos h1, if_neg h2, if_pos h]
    congr 1
    omega
  · have h1 : ¬ ((i : Int) - 1 < 0) := by omega
    rw [if_neg h1, if_neg h1, if_neg h]
    congr 1
    omega

theorem prev2_lt (n i : Nat) (hn : 2 ≤ n) (hi : i < n) : prev2 n i < n := by
  unfold prev2
  split_ifs <;> omega

theorem prev1_lt (n i : Nat) (hi : i < n) : prev1 n i < n := by
  unfold prev1
  split_ifs <;> omega

theorem getD_of_getElem? (pts : List Point) (j : Nat) (q : Point) (h : pts[j]? = some q) :
    pts.getD j ⟨0, 0⟩ = q := by
  simp [List.getD_eq_getElem?_getD, h]

theorem areaSumLoop_spec (m : Libm) (poly : Points) (hn : 2 ≤ poly.size)
    (hlen : poly.size ≤ poly.pts.length) :
    ∀ (k i : Nat) (sum : ℚ), i + k ≤ poly.size →
      areaSumLoop m poly k i sum = some (sum + Finset.sum (Finset.range k)
        (fun t => areaTerm m (fun j => poly.pts.getD j ⟨0, 0⟩) poly.size (i + t))) := by
  intro k
  induction k with
  | zero =>
    intro i sum _
    simp [areaSumLoop]
  | succ k ih =>
    intro i sum h
    have hi : i < poly.size := by omega
    obtain ⟨qi, hqi⟩ : ∃ q, poly.pts[i]? = some q :=
      ⟨_, List.getElem?_eq_getElem (by omega)⟩
    obtain ⟨qj, hqj⟩ : ∃ q, poly.pts[prev2 poly.size i]? = some q :=
      ⟨_, List.getElem?_eq_getElem (by have := prev2_lt poly.size i hn hi; omega)⟩
    obtain ⟨qk, hqk⟩ : ∃ q, poly.pts[prev1 poly.size i]? = some q :=
      ⟨_, List.getElem?_eq_getElem (by have := prev1_lt poly.size i hi; omega)⟩
    rw [areaSumLoop]
    simp only []
    rw [readAt_prev2 poly.pts poly.size i hn, readAt_prev1 poly.pts poly.size i hn,
      hqi, hqj, hqk]
    simp only []
    rw [ih (i + 1) _ (by omega), Finset.sum_range_succ']
    congr 1
    have e : areaTerm m (fun j => poly.pts.getD j ⟨0, 0⟩) poly.size (i + 0)
        = (qi.y - qj.y) * m.sin qk.x := by
      simp only [areaTerm, add_zero]
      rw [getD_of_getElem? _ _ _ hqi, getD_of_getElem? _ _ _ hqj,
        getD_of_getElem? _ _ _ hqk]
    rw [e]
    have e2 : ∀ t, i + 1 + t = i + (t + 1) := fun t => by omega
    simp only [e2]
    ring

theorem ll_area_ofList (m : Libm) (l : List Point) (hn : 2 ≤ l.length) :
    ll_area m (ofList l) =
      some (-(earthRadius * earthRadius / 2) *
          areaSum m (fun j => (l.map toRadians).getD j ⟨0, 0⟩) l.length,
        { maxSize := l.length, pts := l.map toRadians, size := l.length }) := by
  unfold ll_area
  simp only [ofList]
  rw [toRadiansLoop_all l]
  simp only []
  rw [areaSumLoop_spec m _ hn (by simp) l.length 0 0 (by simp)]
  simp only [zero_add, areaSum]

theorem sum_next1 (U : Nat → ℚ) (n : Nat) :
    Finset.sum (Finset.range n) (fun i => U (next1 n i)) = Finset.sum (Finset.range n) U := by
  cases n with
  | zero => simp
  | succ k =>
    rw [Finset.sum_range_succ, Finset.sum_range_succ']
    have e1 : next1 (k + 1) k = 0 := by
      unfold next1
      rw [if_neg (by omega)]
    rw [e1]
    congr 1
    apply Finset.sum_congr rfl
    intro i hi
    have hi' : i < k := Finset.mem_range.1 hi
    unfold next1
    rw [if_pos (by omega)]

theorem next1_lt (n i : Nat) (hn : 1 ≤ n) : next1 n i < n := by
  unfold next1
  split_ifs <;> omega

theorem areaSum_next1 (m : Libm) (g g' : Nat → Point) (n : Nat) (hn : 3 ≤ n)
    (h : ∀ i, i < n → g' i = g (next1 n i)) : areaSum m g' n = areaSum m g n := by
  unfold areaSum
  rw [← sum_next1 (fun i => areaTerm m g n i) n]
  apply Finset.sum_congr rfl
  intro i hi
  have hi' : i < n := Finset.mem_range.1 hi
  unfold areaTerm
  rw [h i hi', h _ (prev2_lt n i (by omega) hi'), h _ (prev1_lt n i hi')]
  have e2 : next1 n (prev2 n i) = prev2 n (next1 n i) := by
    unfold next1 prev2
    split_ifs <;> omega
  have e1 : next1 n (prev1 n i) = prev1 n (next1 n i) := by
    unfold next1 prev1
    split_ifs <;> omega
  rw [e1, e2]

theorem areaSum_reflect (m : Libm) (g g' : Nat → Point) (n : Nat) (hn : 3 ≤ n)
    (h : ∀ i, i < n → g' i = g (n - 1 - i)) : areaSum m g' n = - areaSum m g n := by
  unfold areaSum
  rw [← sum_next1 (fun i => areaTerm m g n i) n,
    ← sum_next1 (fun i => areaTerm m g n (next1 n i)) n,
    ← Finset.sum_range_reflect (fun i => areaTerm m g n (next1 n (next1 n i))) n,
    ← Finset.sum_neg_distrib]
  apply Finset.sum_congr rfl
  intro i hi
  have hi' : i < n := Finset.mem_range.1 hi
  unfold areaTerm
  rw [h i hi', h _ (prev2_lt n i (by omega) hi'), h _ (prev1_lt n i hi')]
  have e0 : prev2 n (next1 n (next1 n (n - 1 - i))) = n - 1 - i := by
    unfold next1 prev2
    split_ifs <;> omega
  have e2 : n - 1 - prev2 n i = next1 n (next1 n (n - 1 - i)) := by
    unfold next1 prev2
    split_ifs <;> omega
  have e1 : prev1 n (next1 n (next1 n (n - 1 - i))) = n - 1 - prev1 n i := by
    unfold next1 prev1
    split_ifs <;> omega
  rw [e0, e1, ← e2]
  ring

theorem getD_rotate_one (L : List Point) (i : Nat) (hi : i < L.length) :
    (L.rotate 1).getD i ⟨0, 0⟩ = L.getD (next1 L.length i) ⟨0, 0⟩ := by
  rw [List.getD_eq_getElem?_getD, List.getD_eq_getElem?_getD, List.getElem?_rotate hi]
  have e : (i + 1) % L.length = next1 L.length i := by
    unfold next1
    by_cases h : i + 1 < L.length
    · rw [if_pos h, Nat.mod_eq_of_lt h]
    · rw [if_neg h]
      have : i + 1 = L.length := by omega
      rw [this, Nat.mod_self]
  rw [e]

theorem getD_reverse (L : List Point) (i : Nat) (hi : i < L.length) :
    L.reverse.getD i ⟨0, 0⟩ = L.getD (L.length - 1 - i) ⟨0, 0⟩ := by
  rw [List.getD_eq_getElem?_getD, List.getD_eq_getElem?_getD, List.getElem?_reverse hi]

theorem ll_area_rotate_one (m : Libm) (l : List Point) (hn : 3 ≤ l.length) :
    (ll_area m (ofList (l.rotate 1))).map Prod.fst = (ll_area m (ofList l)).map Prod.fst := by
  rw [ll_area_ofList m l (by omega),
    ll_area_ofList m (l.rotate 1) (by rw [List.length_rotate]; omega)]
  simp only [Option.map_some', List.length_rotate, List.map_rotate]
  congr 2
  apply areaSum_next1 m _ _ _ hn
  intro i hi
  have := getD_rotate_one (l.map toRadians) i (by simpa using hi)
  simpa using this

theorem ll_area_rotate_any (m : Libm) (r : Nat) :
    ∀ l : List Point, 3 ≤ l.length →
      (ll_area m (ofList (l.rotate r))).map Prod.fst = (ll_area m (ofList l)).map Prod.fst := by
  induction r with
  | zero =>
    intro l _
    rw [List.rotate_zero]
  | succ r ih =>
    intro l hn
    rw [← List.rotate_rotate, ll_area_rotate_one m (l.rotate r)
      (by rw [List.length_rotate]; exact hn)]
    exact ih l hn

theorem ll_area_reverse_neg (m : Libm) (l : List Point) (hn : 3 ≤ l.length) :
    ∃ a, (ll_area m (ofList l)).map Prod.fst = some a ∧
      (ll_area m (ofList l.reverse)).map Prod.fst = some (-a) := by
  rw [ll_area_ofList m l (by omega),
    ll_area_ofList m l.reverse (by rw [List.length_reverse]; omega)]
  refine ⟨_, rfl, ?_⟩
  simp only [Option.map_some', List.length_reverse, List.map_reverse]
  congr 1
  rw [areaSum_reflect m (fun j => (l.map toRadians).getD j ⟨0, 0⟩) _ _ hn]
  · ring
  · intro i hi
    have := getD_reverse (l.map toRadians) i (by simpa using hi)
    simpa using this

theorem getPoints_view (junk : Nat → Point) (coords : TclObj) (vals : List ℚ)
    (minSize : Nat) (b : Points) (hwf : b.WellFormed)
    (hc : coords.asList = some (vals.map some)) (heven : vals.length % 2 = 0)
    (hmin : 2 * minSize ≤ vals.length) :
    ∃ r, getPoints junk coords minSize b = some (TclStatus.TCL_OK, r) ∧
      r.size = vals.length / 2 ∧ r.size ≤ r.pts.length ∧
      ∀ j, j < r.size → r.pts[j]? = (toPoints vals)[j]? := by
  obtain ⟨st, r, hg, hsize, hmax, hwf', hiff, hval⟩ :=
    getPoints_spec junk coords (vals.map some) minSize b hwf hc
      (by simpa using heven) (by simpa using hmin)
  have hst : st = TclStatus.TCL_OK := by
    rw [hiff]
    intro n hn
    rw [List.length_map] at hn
    exact ⟨vals[n], by simp [hn]⟩
  subst hst
  rw [List.length_map] at hsize hmax hval
  refine ⟨r, hg, hsize, ?_, ?_⟩
  · unfold Points.WellFormed at hwf'
    rw [hwf', hmax, hsize]
    exact le_max_right _ _
  · intro j hj
    rw [hsize] at hj
    rw [hval rfl j hj, toPoints_getElem? vals j hj]

/-! ## Edges and crossings -/

theorem ccw_eq_zero_imp (a b p : Point) (hab : a ≠ b) (h : ccw a b p = 0) :
    OnSegment a b p := by
  have hc : cross a b p = 0 := by
    by_contra hne
    rcases lt_or_gt_of_ne hne with h' | h'
    · rw [ccw_of_cross_neg a b p h'] at h
      cases h
    · rw [ccw_of_cross_pos a b p h'] at h
      cases h
  have e := collinear_eq_lineAt a b p hab hc
  generalize ((b.x - a.x) * (p.x - a.x) + (b.y - a.y) * (p.y - a.y)) /
      ((b.x - a.x) * (b.x - a.x) + (b.y - a.y) * (b.y - a.y)) = t at e
  rw [e, ccw_lineAt a b t hab] at h
  refine ⟨t, ?_, ?_, e⟩
  · by_contra ht
    rw [if_pos (not_le.1 ht)] at h
    cases h
  · by_contra ht
    have ht' : 1 < t := not_le.1 ht
    rw [if_neg (not_lt.2 (by linarith)), if_neg ht] at h
    cases h

theorem intersect_point_ne_zero_imp (a b p : Point) (hab : a ≠ b)
    (h : intersect a b p p ≠ 0) : OnSegment a b p := by
  apply ccw_eq_zero_imp a b p hab
  unfold intersect at h
  by_contra hne
  apply h
  have hpos : 0 < ccw a b p * ccw a b p := mul_self_pos.2 hne
  rw [if_neg]
  rintro ⟨h1, -⟩
  exact absurd hpos (not_lt.2 h1)

theorem crosses_iff (a b p : Point) :
    crosses a b p = true ↔
      (a.y < p.y ∧ p.y ≤ b.y ∧ 0 ≤ cross a b p) ∨
      (b.y < p.y ∧ p.y ≤ a.y ∧ cross a b p ≤ 0) := by
  unfold crosses dmin dmax cross
  rcases lt_trichotomy a.y b.y with hy | hy | hy
  · have hd : 0 < b.y - a.y := sub_pos.2 hy
    have hyn : a.y ≠ b.y := ne_of_lt hy
    have hyg : ¬ a.y > b.y := not_lt.2 hy.le
    simp only [if_pos hy, if_neg hyg, hyn, ne_eq, not_false_eq_true, if_true]
    by_cases h1 : p.y > a.y
    · by_cases h2 : p.y ≤ b.y
      · have hxi : p.x ≤ (p.y - a.y) * (b.x - a.x) / (b.y - a.y) + a.x ↔
            0 ≤ (b.x - a.x) * (p.y - a.y) - (b.y - a.y) * (p.x - a.x) := by
          rw [← sub_le_iff_le_add, le_div_iff₀ hd]
          constructor <;> intro h <;> linarith
        have hle : (p.y - a.y) * (b.x - a.x) / (b.y - a.y) + a.x ≤
            (if a.x > b.x then a.x else b.x) := by
          rw [← le_sub_iff_add_le, div_le_iff₀ hd]
          split_ifs with hx
          · have := mul_nonneg (sub_nonneg.2 (le_of_lt h1)) (le_of_lt (sub_pos.2 hx))
            nlinarith
          · have := mul_nonneg (sub_nonneg.2 h2) (sub_nonneg.2 (not_lt.1 hx))
            nlinarith
        simp only [if_pos h1, if_pos h2]
        by_cases hx : p.x ≤ (if a.x > b.x then a.x else b.x)
        · rw [if_pos hx]
          by_cases hv : a.x = b.x
          · have h0 : p.x ≤ (p.y - a.y) * (b.x - a.x) / (b.y - a.y) + a.x := by
              rw [hv, sub_self, mul_zero, zero_div, zero_add]
              rw [hv] at hx
              simpa using hx
            simp only [hv, true_or, if_true, true_iff]
            left
            refine ⟨h1, h2, ?_⟩
            rw [hv] at h0 hxi
            exact hxi.1 h0
          · simp only [hv, false_or]
            by_cases hi : p.x ≤ (p.y - a.y) * (b.x - a.x) / (b.y - a.y) + a.x
            · simp only [if_pos hi, true_iff]
              exact Or.inl ⟨h1, h2, hxi.1 hi⟩
            · simp only [if_neg hi, Bool.false_eq_true, false_iff]
              rintro (⟨-, -, h⟩ | ⟨h, -, -⟩)
              · exact hi (hxi.2 h)
              · linarith
        · rw [if_neg hx]
          simp only [Bool.false_eq_true, false_iff]
          rintro (⟨-, -, h⟩ | ⟨h, -, -⟩)
          · exact hx (le_trans (hxi.2 h) hle)
          · linarith
      · simp only [if_pos h1, if_neg h2, Bool.false_eq_true, false_iff]
        rintro (⟨-, h, -⟩ | ⟨-, h, -⟩)
        · exact h2 h
        · linarith
    · simp only [if_neg h1, Bool.false_eq_true, false_iff]
      rintro (⟨h, -, -⟩ | ⟨h, -, -⟩)
      · exact h1 h
      · linarith
  · simp only [hy, lt_irrefl, gt_iff_lt, if_false, ne_eq, not_true_eq_false]
    by_cases h1 : b.y < p.y
    · by_cases h2 : p.y ≤ b.y
      · linarith
      · simp only [if_pos h1, if_neg h2, Bool.false_eq_true, false_iff]
        rintro (⟨-, h, -⟩ | ⟨-, h, -⟩) <;> exact h2 h
    · simp only [if_neg h1, Bool.false_eq_true, false_iff]
      rintro (⟨h, -, -⟩ | ⟨h, -, -⟩) <;> exact h1 h
  · have hd : b.y - a.y < 0 := sub_neg.2 hy
    have hyn : a.y ≠ b.y := ne_of_gt hy
    have hyl : ¬ a.y < b.y := not_lt.2 hy.le
    simp only [if_neg hyl, gt_iff_lt, if_pos hy, hyn, ne_eq, not_false_eq_true, if_true]
    by_cases h1 : b.y < p.y
    · by_cases h2 : p.y ≤ a.y
      · have hxi : p.x ≤ (p.y - a.y) * (b.x - a.x) / (b.y - a.y) + a.x ↔
            (b.x - a.x) * (p.y - a.y) - (b.y - a.y) * (p.x - a.x) ≤ 0 := by
          rw [← sub_le_iff_le_add, le_div_iff_of_neg hd]
          constructor <;> intro h <;> linarith
        have hle : (p.y - a.y) * (b.x - a.x) / (b.y - a.y) + a.x ≤
            (if b.x < a.x then a.x else b.x) := by
          rw [← le_sub_iff_add_le, div_le_iff_of_neg hd]
          split_ifs with hx
          · have := mul_nonneg (sub_nonneg.2 (le_of_lt h1)) (le_of_lt (sub_pos.2 hx))
            nlinarith
          · have := mul_nonneg (sub_nonneg.2 h2) (sub_nonneg.2 (not_lt.1 hx))
            nlinarith
        simp only [if_pos h1, if_pos h2]
        by_cases hx : p.x ≤ (if b.x < a.x then a.x else b.x)
        · rw [if_pos hx]
          by_cases hv : a.x = b.x
          · have h0 : p.x ≤ (p.y - a.y) * (b.x - a.x) / (b.y - a.y) + a.x := by
              rw [hv, sub_self, mul_zero, zero_div, zero_add]
              rw [hv] at hx
              simpa using hx
            simp only [hv, true_or, if_true, true_iff]
            right
            refine ⟨h1, h2, ?_⟩
            rw [hv] at h0 hxi
            exact hxi.1 h0
          · simp only [hv, false_or]
            by_cases hi : p.x ≤ (p.y - a.y) * (b.x - a.x) / (b.y - a.y) + a.x
            · simp only [if_pos hi, true_iff]
              exact Or.inr ⟨h1, h2, hxi.1 hi⟩
            · simp only [if_neg hi, Bool.false_eq_true, false_iff]
              rintro (⟨h, -, -⟩ | ⟨-, -, h⟩)
              · linarith
              · exact hi (hxi.2 h)
        · rw [if_neg hx]
          simp only [Bool.false_eq_true, false_iff]
          rintro (⟨h, -, -⟩ | ⟨-, -, h⟩)
          · linarith
          · exact hx (le_trans (hxi.2 h) hle)
      · simp only [if_pos h1, if_neg h2, Bool.false_eq_true, false_iff]
        rintro (⟨-, h, -⟩ | ⟨-, h, -⟩)
        · linarith
        · exact h2 h
    · simp only [if_neg h1, Bool.false_eq_true, false_iff]
      rintro (⟨h, -, -⟩ | ⟨h, -, -⟩)
      · linarith
      · exact h1 h

theorem onSegment_self_iff (v p : Point) : OnSegment v v p ↔ p = v := by
  constructor
  · rintro ⟨t, -, -, h⟩
    rw [h, lineAt_self]
  · rintro rfl
    exact ⟨0, le_refl 0, zero_le_one, (lineAt_self p 0).symm⟩

theorem lonely_parity (A B C s1 s2 s3 : ℚ) (c1 c2 c3 : Bool)
    (hI : s2 * A + s3 * B + s1 * C = 0)
    (H1 : s1 = 0 → s2 * s3 < 0) (H2 : s2 = 0 → s1 * s3 < 0) (H3 : s3 = 0 → s1 * s2 < 0)
    (hc1 : c1 = true ↔ (A < 0 ∧ 0 ≤ B ∧ 0 ≤ s1) ∨ (B < 0 ∧ 0 ≤ A ∧ s1 ≤ 0))
    (hc2 : c2 = true ↔ (B < 0 ∧ 0 ≤ C ∧ 0 ≤ s2) ∨ (C < 0 ∧ 0 ≤ B ∧ s2 ≤ 0))
    (hc3 : c3 = true ↔ (C < 0 ∧ 0 ≤ A ∧ 0 ≤ s3) ∨ (A < 0 ∧ 0 ≤ C ∧ s3 ≤ 0))
    (hl : (A < 0 ∧ 0 ≤ B ∧ 0 ≤ C) ∨ (0 ≤ A ∧ B < 0 ∧ C < 0)) :
    (xor (xor c1 c2) c3 = true ↔
      (0 < s1 ∧ 0 < s2 ∧ 0 < s3) ∨ (s1 < 0 ∧ s2 < 0 ∧ s3 < 0)) := by
  have K1 : s1 = 0 → False := by
    intro h
    have k := H1 h
    rw [h] at hI
    rcases hl with ⟨hA, hB, hC⟩ | ⟨hA, hB, hC⟩ <;>
      rcases lt_trichotomy s2 0 with h2 | h2 | h2 <;>
      rcases lt_trichotomy s3 0 with h3 | h3 | h3 <;>
      nlinarith
  have K3 : s3 = 0 → False := by
    intro h
    have k := H3 h
    rw [h] at hI
    rcases hl with ⟨hA, hB, hC⟩ | ⟨hA, hB, hC⟩ <;>
      rcases lt_trichotomy s1 0 with h1 | h1 | h1 <;>
      rcases lt_trichotomy s2 0 with h2 | h2 | h2 <;>
      nlinarith
  have hc2' : c2 = false := by
    rw [← Bool.not_eq_true, hc2]
    rcases hl with ⟨hA, hB, hC⟩ | ⟨hA, hB, hC⟩
    · rintro (⟨h, -, -⟩ | ⟨h, -, -⟩) <;> linarith
    · rintro (⟨-, h, -⟩ | ⟨-, h, -⟩) <;> linarith
  subst hc2'
  rcases hl with ⟨hA, hB, hC⟩ | ⟨hA, hB, hC⟩
  · -- the first vertex alone below the ray
    have e1 : c1 = true ↔ 0 < s1 := by
      rw [hc1]
      constructor
      · rintro (⟨-, -, h⟩ | ⟨h, -, -⟩)
        · exact lt_of_le_of_ne h (fun e => K1 e.symm)
        · linarith
      · intro h
        exact Or.inl ⟨hA, hB, h.le⟩
    have e3 : c3 = true ↔ s3 < 0 := by
      rw [hc3]
      constructor
      · rintro (⟨h, -, -⟩ | ⟨-, -, h⟩)
        · linarith
        · exact lt_of_le_of_ne h K3
      · intro h
        exact Or.inr ⟨hA, hC, h.le⟩
    rcases lt_trichotomy s1 0 with h1 | h1 | h1
    · have f1 : c1 = false := by
        rw [← Bool.not_eq_true, e1]
        linarith
      rcases lt_trichotomy s3 0 with h3 | h3 | h3
      · have f3 : c3 = true := e3.2 h3
        subst f1 f3
        simp only [Bool.xor_false, Bool.false_bne, true_iff]
        right
        refine ⟨h1, ?_, h3⟩
        rcases lt_trichotomy s2 0 with h2 | h2 | h2
        · exact h2
        · have := H2 h2
          nlinarith
        · nlinarith
      · exact absurd h3 K3
      · have f3 : c3 = false := by
          rw [← Bool.not_eq_true, e3]
          linarith
        subst f1 f3
        simp only [Bool.xor_false, Bool.false_eq_true, false_iff]
        rintro (⟨h, -, -⟩ | ⟨-, -, h⟩) <;> linarith
    · exact absurd h1 K1
    · have f1 : c1 = true := e1.2 h1
      rcases lt_trichotomy s3 0 with h3 | h3 | h3
      · have f3 : c3 = true := e3.2 h3
        subst f1 f3
        simp only [Bool.xor_false, Bool.xor_self, Bool.false_eq_true, false_iff]
        rintro (⟨-, -, h⟩ | ⟨h, -, -⟩) <;> linarith
      · exact absurd h3 K3
      · have f3 : c3 = false := by
          rw [← Bool.not_eq_true, e3]
          linarith
        subst f1 f3
        simp only [Bool.xor_false, true_iff]
        left
        refine ⟨h1, ?_, h3⟩
        rcases lt_trichotomy s2 0 with h2 | h2 | h2
        · nlinarith
        · have := H2 h2
          nlinarith
        · exact h2
  · -- the first vertex alone on or above the ray
    have e1 : c1 = true ↔ s1 < 0 := by
      rw [hc1]
      constructor
      · rintro (⟨h, -, -⟩ | ⟨-, -, h⟩)
        · linarith
        · exact lt_of_le_of_ne h K1
      · intro h
        exact Or.inr ⟨hB, hA, h.le⟩
    have e3 : c3 = true ↔ 0 < s3 := by
      rw [hc3]
      constructor
      · rintro (⟨-, -, h⟩ | ⟨h, -, -⟩)
        · exact lt_of_le_of_ne h (fun e => K3 e.symm)
        · linarith
      · intro h
        exact Or.inl ⟨hC, hA, h.le⟩
    rcases lt_trichotomy s1 0 with h1 | h1 | h1
    · have f1 : c1 = true := e1.2 h1
      rcases lt_trichotomy s3 0 with h3 | h3 | h3
      · have f3 : c3 = false := by
          rw [← Bool.not_eq_true, e3]
          linarith
        subst f1 f3
        simp only [Bool.xor_false, true_iff]
        right
        refine ⟨h1, ?_, h3⟩
        rcases lt_trichotomy s2 0 with h2 | h2 | h2
        · exact h2
        · have := H2 h2
          nlinarith
        · nlinarith
      · exact absurd h3 K3
      · have f3 : c3 = true := e3.2 h3
        subst f1 f3
        simp only [Bool.xor_false, Bool.xor_self, Bool.false_eq_true, false_iff]
        rintro (⟨h, -, -⟩ | ⟨-, -, h⟩) <;> linarith
    · exact absurd h1 K1
    · have f1 : c1 = false := by
        rw [← Bool.not_eq_true, e1]
        linarith
      rcases lt_trichotomy s3 0 with h3 | h3 | h3
      · have f3 : c3 = false := by
          rw [← Bool.not_eq_true, e3]
          linarith
        subst f1 f3
        simp only [Bool.xor_false, Bool.false_eq_true, false_iff]
        rintro (⟨-, -, h⟩ | ⟨h, -, -⟩) <;> linarith
      · exact absurd h3 K3
      · have f3 : c3 = true := e3.2 h3
        subst f1 f3
        simp only [Bool.xor_false, Bool.false_bne, true_iff]
        left
        refine ⟨h1, ?_, h3⟩
        rcases lt_trichotomy s2 0 with h2 | h2 | h2
        · nlinarith
        · have := H2 h2
          nlinarith
        · exact h2

theorem flat_parity (A B C s1 s2 s3 : ℚ) (c1 c2 c3 : Bool)
    (hI : s2 * A + s3 * B + s1 * C = 0) (hflat : ¬ (A = B ∧ B = C))
    (hc1 : c1 = true ↔ (A < 0 ∧ 0 ≤ B ∧ 0 ≤ s1) ∨ (B < 0 ∧ 0 ≤ A ∧ s1 ≤ 0))
    (hc2 : c2 = true ↔ (B < 0 ∧ 0 ≤ C ∧ 0 ≤ s2) ∨ (C < 0 ∧ 0 ≤ B ∧ s2 ≤ 0))
    (hc3 : c3 = true ↔ (C < 0 ∧ 0 ≤ A ∧ 0 ≤ s3) ∨ (A < 0 ∧ 0 ≤ C ∧ s3 ≤ 0))
    (hs : (A < 0 ∧ B < 0 ∧ C < 0) ∨ (0 ≤ A ∧ 0 ≤ B ∧ 0 ≤ C)) :
    (xor (xor c1 c2) c3 = true ↔
      (0 < s1 ∧ 0 < s2 ∧ 0 < s3) ∨ (s1 < 0 ∧ s2 < 0 ∧ s3 < 0)) := by
  have f1 : c1 = false := by
    rw [← Bool.not_eq_true, hc1]
    rcases hs with ⟨hA, hB, hC⟩ | ⟨hA, hB, hC⟩ <;>
      rintro (⟨h, h', -⟩ | ⟨h, h', -⟩) <;> linarith
  have f2 : c2 = false := by
    rw [← Bool.not_eq_true, hc2]
    rcases hs with ⟨hA, hB, hC⟩ | ⟨hA, hB, hC⟩ <;>
      rintro (⟨h, h', -⟩ | ⟨h, h', -⟩) <;> linarith
  have f3 : c3 = false := by
    rw [← Bool.not_eq_true, hc3]
    rcases hs with ⟨hA, hB, hC⟩ | ⟨hA, hB, hC⟩ <;>
      rintro (⟨h, h', -⟩ | ⟨h, h', -⟩) <;> linarith
  subst f1 f2 f3
  simp only [Bool.xor_false, Bool.false_eq_true, false_iff]
  rcases hs with ⟨hA, hB, hC⟩ | ⟨hA, hB, hC⟩
  · rintro (⟨h1, h2, h3⟩ | ⟨h1, h2, h3⟩) <;> nlinarith
  · rintro (⟨h1, h2, h3⟩ | ⟨h1, h2, h3⟩)
    · have p1 := mul_nonneg h2.le hA
      have p2 := mul_nonneg h3.le hB
      have p3 := mul_nonneg h1.le hC
      have z1 : s2 * A = 0 := by linarith
      have z2 : s3 * B = 0 := by linarith
      have z3 : s1 * C = 0 := by linarith
      have a0 : A = 0 := (mul_eq_zero.1 z1).resolve_left (ne_of_gt h2)
      have b0 : B = 0 := (mul_eq_zero.1 z2).resolve_left (ne_of_gt h3)
      have c0 : C = 0 := (mul_eq_zero.1 z3).resolve_left (ne_of_gt h1)
      exact hflat ⟨by rw [a0, b0], by rw [b0, c0]⟩
    · have p1 := mul_nonneg (neg_nonneg.2 h2.le) hA
      have p2 := mul_nonneg (neg_nonneg.2 h3.le) hB
      have p3 := mul_nonneg (neg_nonneg.2 h1.le) hC
      have z1 : s2 * A = 0 := by linarith
      have z2 : s3 * B = 0 := by linarith
      have z3 : s1 * C = 0 := by linarith
      have a0 : A = 0 := (mul_eq_zero.1 z1).resolve_left (ne_of_lt h2)
      have b0 : B = 0 := (mul_eq_zero.1 z2).resolve_left (ne_of_lt h3)
      have c0 : C = 0 := (mul_eq_zero.1 z3).resolve_left (ne_of_lt h1)
      exact hflat ⟨by rw [a0, b0], by rw [b0, c0]⟩

theorem triangle_parity (A B C s1 s2 s3 : ℚ) (c1 c2 c3 : Bool)
    (hI : s2 * A + s3 * B + s1 * C = 0) (hflat : ¬ (A = B ∧ B = C))
    (H1 : s1 = 0 → s2 * s3 < 0) (H2 : s2 = 0 → s1 * s3 < 0) (H3 : s3 = 0 → s1 * s2 < 0)
    (hc1 : c1 = true ↔ (A < 0 ∧ 0 ≤ B ∧ 0 ≤ s1) ∨ (B < 0 ∧ 0 ≤ A ∧ s1 ≤ 0))
    (hc2 : c2 = true ↔ (B < 0 ∧ 0 ≤ C ∧ 0 ≤ s2) ∨ (C < 0 ∧ 0 ≤ B ∧ s2 ≤ 0))
    (hc3 : c3 = true ↔ (C < 0 ∧ 0 ≤ A ∧ 0 ≤ s3) ∨ (A < 0 ∧ 0 ≤ C ∧ s3 ≤ 0)) :
    (xor (xor c1 c2) c3 = true ↔
      (0 < s1 ∧ 0 < s2 ∧ 0 < s3) ∨ (s1 < 0 ∧ s2 < 0 ∧ s3 < 0)) := by
  have H1' : s1 = 0 → s3 * s2 < 0 := fun h => by rw [mul_comm]; exact H1 h
  have H2' : s2 = 0 → s3 * s1 < 0 := fun h => by rw [mul_comm]; exact H2 h
  have H3' : s3 = 0 → s2 * s1 < 0 := fun h => by rw [mul_comm]; exact H3 h
  have rotB : (xor (xor c2 c3) c1 = true ↔
      (0 < s2 ∧ 0 < s3 ∧ 0 < s1) ∨ (s2 < 0 ∧ s3 < 0 ∧ s1 < 0)) →
      (xor (xor c1 c2) c3 = true ↔
        (0 < s1 ∧ 0 < s2 ∧ 0 < s3) ∨ (s1 < 0 ∧ s2 < 0 ∧ s3 < 0)) := by
    intro h
    have e : xor (xor c1 c2) c3 = xor (xor c2 c3) c1 := by
      cases c1 <;> cases c2 <;> cases c3 <;> rfl
    rw [e, h]
    constructor
    · rintro (⟨h2, h3, h1⟩ | ⟨h2, h3, h1⟩)
      · exact Or.inl ⟨h1, h2, h3⟩
      · exact Or.inr ⟨h1, h2, h3⟩
    · rintro (⟨h1, h2, h3⟩ | ⟨h1, h2, h3⟩)
      · exact Or.inl ⟨h2, h3, h1⟩
      · exact Or.inr ⟨h2, h3, h1⟩
  have rotC : (xor (xor c3 c1) c2 = true ↔
      (0 < s3 ∧ 0 < s1 ∧ 0 < s2) ∨ (s3 < 0 ∧ s1 < 0 ∧ s2 < 0)) →
      (xor (xor c1 c2) c3 = true ↔
        (0 < s1 ∧ 0 < s2 ∧ 0 < s3) ∨ (s1 < 0 ∧ s2 < 0 ∧ s3 < 0)) := by
    intro h
    have e : xor (xor c1 c2) c3 = xor (xor c3 c1) c2 := by
      cases c1 <;> cases c2 <;> cases c3 <;> rfl
    rw [e, h]
    constructor
    · rintro (⟨h3, h1, h2⟩ | ⟨h3, h1, h2⟩)
      · exact Or.inl ⟨h1, h2, h3⟩
      · exact Or.inr ⟨h1, h2, h3⟩
    · rintro (⟨h1, h2, h3⟩ | ⟨h1, h2, h3⟩)
      · exact Or.inl ⟨h3, h1, h2⟩
      · exact Or.inr ⟨h3, h1, h2⟩
  have hIB : s3 * B + s1 * C + s2 * A = 0 := by linarith
  have hIC : s1 * C + s2 * A + s3 * B = 0 := by linarith
  rcases lt_or_le A 0 with hA | hA <;> rcases lt_or_le B 0 with hB | hB <;>
    rcases lt_or_le C 0 with hC | hC
  · exact flat_parity A B C s1 s2 s3 c1 c2 c3 hI hflat hc1 hc2 hc3 (Or.inl ⟨hA, hB, hC⟩)
  · exact rotC (lonely_parity C A B s3 s1 s2 c3 c1 c2 hIC H3 H1' H2' hc3 hc1 hc2
      (Or.inr ⟨hC, hA, hB⟩))
  · exact rotB (lonely_parity B C A s2 s3 s1 c2 c3 c1 hIB H2' H3' H1 hc2 hc3 hc1
      (Or.inr ⟨hB, hC, hA⟩))
  · exact lonely_parity A B C s1 s2 s3 c1 c2 c3 hI H1 H2 H3 hc1 hc2 hc3
      (Or.inl ⟨hA, hB, hC⟩)
  · exact lonely_parity A B C s1 s2 s3 c1 c2 c3 hI H1 H2 H3 hc1 hc2 hc3
      (Or.inr ⟨hA, hB, hC⟩)
  · exact rotB (lonely_parity B C A s2 s3 s1 c2 c3 c1 hIB H2' H3' H1 hc2 hc3 hc1
      (Or.inl ⟨hB, hC, hA⟩))
  · exact rotC (lonely_parity C A B s3 s1 s2 c3 c1 c2 hIC H3 H1' H2' hc3 hc1 hc2
      (Or.inl ⟨hC, hA, hB⟩))
  · exact flat_parity A B C s1 s2 s3 c1 c2 c3 hI hflat hc1 hc2 hc3 (Or.inr ⟨hA, hB, hC⟩)

/-! ## Triangles -/

theorem cross_sum (a b c p : Point) :
    cross a b p + cross b c p + cross c a p = cross a b c := by
  unfold cross
  ring

theorem cross_rotate (a b c : Point) : cross b c a = cross a b c := by
  unfold cross
  ring

theorem cross_height_identity (a b c p : Point) :
    cross b c p * (a.y - p.y) + cross c a p * (b.y - p.y) + cross a b p * (c.y - p.y)
      = 0 := by
  unfold cross
  ring

theorem cross_bary_x (a b c p : Point) :
    cross a b c * p.x = cross b c p * a.x + cross c a p * b.x + cross a b p * c.x := by
  unfold cross
  ring

theorem cross_bary_y (a b c p : Point) :
    cross a b c * p.y = cross b c p * a.y + cross c a p * b.y + cross a b p * c.y := by
  unfold cross
  ring

theorem ne_of_cross_ne (a b c : Point) (hD : cross a b c ≠ 0) : a ≠ b := by
  rintro rfl
  apply hD
  unfold cross
  ring

theorem heights_not_flat (a b c p : Point) (hD : cross a b c ≠ 0) :
    ¬ (a.y - p.y = b.y - p.y ∧ b.y - p.y = c.y - p.y) := by
  rintro ⟨h1, h2⟩
  apply hD
  have e1 : b.y = a.y := by linarith
  have e2 : c.y = a.y := by linarith
  unfold cross
  rw [e1, e2]
  ring

/-- A point with vanishing cross product on the first edge whose other two
cross products do not have opposite signs lies on that edge. -/
theorem onSegment_of_cross_zero (a b c p : Point) (hD : cross a b c ≠ 0)
    (h1 : cross a b p = 0) (h : 0 ≤ cross b c p * cross c a p) : OnSegment a b p := by
  have hsum := cross_sum a b c p
  have hx := cross_bary_x a b c p
  have hy := cross_bary_y a b c p
  rw [h1] at hsum hx hy
  set D := cross a b c with hDdef
  set s2 := cross b c p with hs2
  set s3 := cross c a p with hs3
  have hD2 : D = s2 + s3 := by linarith
  have ht0 : 0 ≤ s3 / D := by
    rw [div_nonneg_iff]
    rcases lt_or_gt_of_ne hD with hneg | hpos
    · right
      refine ⟨?_, hneg.le⟩
      by_contra hc
      push_neg at hc
      nlinarith
    · left
      refine ⟨?_, le_of_lt hpos⟩
      by_contra hc
      push_neg at hc
      nlinarith
  have ht1 : s3 / D ≤ 1 := by
    have h2 : 0 ≤ s2 / D := by
      rw [div_nonneg_iff]
      rcases lt_or_gt_of_ne hD with hneg | hpos
      · right
        refine ⟨?_, hneg.le⟩
        by_contra hc
        push_neg at hc
        nlinarith
      · left
        refine ⟨?_, le_of_lt hpos⟩
        by_contra hc
        push_neg at hc
        nlinarith
    have e : s3 / D = 1 - s2 / D := by
      field_simp
      linarith
    rw [e]
    linarith
  refine ⟨s3 / D, ht0, ht1, ?_⟩
  cases p with | mk px py =>
  simp only [lineAt, Point.mk.injEq]
  simp only at hx hy
  constructor
  · field_simp
    linear_combination hx - a.x * hD2
  · field_simp
    linear_combination hy - a.y * hD2

theorem no_edge_sign (a b c p : Point) (hD : cross a b c ≠ 0)
    (hi : intersect a b p p = 0) (h1 : cross a b p = 0) :
    cross b c p * cross c a p < 0 := by
  by_contra hc
  have hseg := onSegment_of_cross_zero a b c p hD h1 (not_lt.1 hc)
  rw [intersect_point_of_onSegment a b p hseg] at hi
  cases hi

theorem inTriangle_of_onSegment_ab (a b c p : Point) (h : OnSegment a b p) :
    InTriangle a b c p := by
  obtain ⟨t, ht0, ht1, rfl⟩ := h
  refine ⟨1 - t, t, 0, by linarith, ht0, le_refl 0, by ring, ?_, ?_⟩ <;>
    simp only [lineAt] <;> ring

theorem inTriangle_rotate (a b c p : Point) (h : InTriangle b c a p) : InTriangle a b c p := by
  obtain ⟨α, β, γ, h1, h2, h3, h4, h5, h6⟩ := h
  exact ⟨γ, α, β, h3, h1, h2, by linarith, by linarith, by linarith⟩

theorem cross_of_bary (a b c p : Point) (α β γ : ℚ) (hs : α + β + γ = 1)
    (hx : p.x = α * a.x + β * b.x + γ * c.x) (hy : p.y = α * a.y + β * b.y + γ * c.y) :
    cross a b p = γ * cross a b c ∧ cross b c p = α * cross a b c ∧
      cross c a p = β * cross a b c := by
  have hα : α = 1 - β - γ := by linarith
  unfold cross
  rw [hx, hy, hα]
  refine ⟨by ring, by ring, by ring⟩

theorem inTriangle_of_strict (a b c p : Point)
    (h : (0 < cross a b p ∧ 0 < cross b c p ∧ 0 < cross c a p) ∨
      (cross a b p < 0 ∧ cross b c p < 0 ∧ cross c a p < 0)) : InTriangle a b c p := by
  have hsum := cross_sum a b c p
  have hx := cross_bary_x a b c p
  have hy := cross_bary_y a b c p
  have hD : cross a b c ≠ 0 := by
    rcases h with ⟨h1, h2, h3⟩ | ⟨h1, h2, h3⟩
    · exact ne_of_gt (by linarith)
    · exact ne_of_lt (by linarith)
  refine ⟨cross b c p / cross a b c, cross c a p / cross a b c, cross a b p / cross a b c,
    ?_, ?_, ?_, ?_, ?_, ?_⟩
  · rw [div_nonneg_iff]
    rcases h with ⟨h1, h2, h3⟩ | ⟨h1, h2, h3⟩
    · exact Or.inl ⟨h2.le, by linarith⟩
    · exact Or.inr ⟨h2.le, by linarith⟩
  · rw [div_nonneg_iff]
    rcases h with ⟨h1, h2, h3⟩ | ⟨h1, h2, h3⟩
    · exact Or.inl ⟨h3.le, by linarith⟩
    · exact Or.inr ⟨h3.le, by linarith⟩
  · rw [div_nonneg_iff]
    rcases h with ⟨h1, h2, h3⟩ | ⟨h1, h2, h3⟩
    · exact Or.inl ⟨h1.le, by linarith⟩
    · exact Or.inr ⟨h1.le, by linarith⟩
  · field_simp
    linarith
  · field_simp
    linarith
  · field_simp
    linarith

theorem strict_of_inTriangle (a b c p : Point) (hD : cross a b c ≠ 0)
    (H1 : cross a b p = 0 → cross b c p * cross c a p < 0)
    (H2 : cross b c p = 0 → cross a b p * cross c a p < 0)
    (H3 : cross c a p = 0 → cross a b p * cross b c p < 0)
    (h : InTriangle a b c p) :
    (0 < cross a b p ∧ 0 < cross b c p ∧ 0 < cross c a p) ∨
      (cross a b p < 0 ∧ cross b c p < 0 ∧ cross c a p < 0) := by
  obtain ⟨α, β, γ, h1, h2, h3, hs, hx, hy⟩ := h
  obtain ⟨e1, e2, e3⟩ := cross_of_bary a b c p α β γ hs hx hy
  rw [e1, e2, e3] at H1 H2 H3 ⊢
  set D := cross a b c with hDdef
  have hγ : 0 < γ := by
    rcases eq_or_lt_of_le h3 with h0 | h0
    · have := H1 (by rw [← h0, zero_mul])
      nlinarith [mul_nonneg h1 h2, mul_self_nonneg D]
    · exact h0
  have hα : 0 < α := by
    rcases eq_or_lt_of_le h1 with h0 | h0
    · have := H2 (by rw [← h0, zero_mul])
      nlinarith [mul_nonneg h3 h2, mul_self_nonneg D]
    · exact h0
  have hβ : 0 < β := by
    rcases eq_or_lt_of_le h2 with h0 | h0
    · have := H3 (by rw [← h0, zero_mul])
      nlinarith [mul_nonneg h3 h1, mul_self_nonneg D]
    · exact h0
  rcases lt_or_gt_of_ne hD with hneg | hpos
  · right
    exact ⟨mul_neg_of_pos_of_neg hγ hneg, mul_neg_of_pos_of_neg hα hneg,
      mul_neg_of_pos_of_neg hβ hneg⟩
  · left
    exact ⟨mul_pos hγ hpos, mul_pos hα hpos, mul_pos hβ hpos⟩

theorem inTriangle_inside (box : Bbox) (a b c p : Point) (hB : IsBboxOf box [a, b, c])
    (h : InTriangle a b c p) :
    ¬ (p.x < box.xmin ∨ p.x > box.xmax ∨ p.y < box.ymin ∨ p.y > box.ymax) := by
  obtain ⟨α, β, γ, h1, h2, h3, hs, hx, hy⟩ := h
  have Ha := hB.1 a (by simp)
  have Hb := hB.1 b (by simp)
  have Hc := hB.1 c (by simp)
  have key : ∀ u v w lo : ℚ, α * u + β * v + γ * w - lo =
      α * (u - lo) + β * (v - lo) + γ * (w - lo) := by
    intro u v w lo
    linear_combination lo * hs
  rw [hx, hy]
  rintro (h | h | h | h)
  · have k := key a.x b.x c.x box.xmin
    have := mul_nonneg h1 (sub_nonneg.2 Ha.1)
    have := mul_nonneg h2 (sub_nonneg.2 Hb.1)
    have := mul_nonneg h3 (sub_nonneg.2 Hc.1)
    linarith
  · have k := key a.x b.x c.x box.xmax
    have := mul_nonneg h1 (sub_nonneg.2 Ha.2.1)
    have := mul_nonneg h2 (sub_nonneg.2 Hb.2.1)
    have := mul_nonneg h3 (sub_nonneg.2 Hc.2.1)
    linarith
  · have k := key a.y b.y c.y box.ymin
    have := mul_nonneg h1 (sub_nonneg.2 Ha.2.2.1)
    have := mul_nonneg h2 (sub_nonneg.2 Hb.2.2.1)
    have := mul_nonneg h3 (sub_nonneg.2 Hc.2.2.1)
    linarith
  · have k := key a.y b.y c.y box.ymax
    have := mul_nonneg h1 (sub_nonneg.2 Ha.2.2.2)
    have := mul_nonneg h2 (sub_nonneg.2 Hb.2.2.2)
    have := mul_nonneg h3 (sub_nonneg.2 Hc.2.2.2)
    linarith

theorem ptinpoly_three_vertices (m : Nat) (a b c p : Point) (rest : List Point) (box : Bbox)
    (hin : ¬ (p.x < box.xmin ∨ p.x > box.xmax ∨ p.y < box.ymin ∨ p.y > box.ymax))
    (i1 : intersect a b p p = 0) (i2 : intersect b c p p = 0)
    (i3 : intersect c a p p = 0) :
    ptinpoly ⟨m, a :: b :: c :: rest, 3⟩ p box =
      some (if xor (xor (crosses a b p) (crosses b c p)) (crosses c a p) = true then 1
        else 0) := by
  unfold ptinpoly
  rw [if_neg hin]
  cases h1 : crosses a b p <;> cases h2 : crosses b c p <;> cases h3 : crosses c a p <;>
    simp [ptinpolyLoop, i1, i2, i3, h1, h2, h3]

theorem ptinpoly_triangle (m : Nat) (a b c p : Point) (rest : List Point)
    (hD : cross a b c ≠ 0) :
    ∃ box, bbox ⟨m, a :: b :: c :: rest, 3⟩ = some box ∧
      (InTriangle a b c p → ptinpoly ⟨m, a :: b :: c :: rest, 3⟩ p box = some 1) ∧
      (¬ InTriangle a b c p → ptinpoly ⟨m, a :: b :: c :: rest, 3⟩ p box = some 0) := by
  have hn : (3 : Nat) ≤ (a :: b :: c :: rest).length := by simp
  obtain ⟨box, hb, hB⟩ := bbox_spec ⟨m, a :: b :: c :: rest, 3⟩ (by simp) hn
  have hB' : IsBboxOf box [a, b, c] := by simpa using hB
  have hDb : cross b c a ≠ 0 := by rw [cross_rotate]; exact hD
  have hDc : cross c a b ≠ 0 := by rw [cross_rotate, cross_rotate]; exact hD
  have hab : a ≠ b := ne_of_cross_ne a b c hD
  have hbc : b ≠ c := ne_of_cross_ne b c a hDb
  have hca : c ≠ a := ne_of_cross_ne c a b hDc
  -- the three edges lie in the triangle
  have e1 : OnSegment a b p → InTriangle a b c p := inTriangle_of_onSegment_ab a b c p
  have e2 : OnSegment b c p → InTriangle a b c p := fun h =>
    inTriangle_rotate a b c p (inTriangle_of_onSegment_ab b c a p h)
  have e3 : OnSegment c a p → InTriangle a b c p := fun h =>
    inTriangle_rotate a b c p (inTriangle_rotate b c a p (inTriangle_of_onSegment_ab c a b p h))
  -- away from the edges the parity of the crossings decides
  have core : intersect a b p p = 0 → intersect b c p p = 0 → intersect c a p p = 0 →
      (xor (xor (crosses a b p) (crosses b c p)) (crosses c a p) = true ↔
        InTriangle a b c p) := by
    intro i1 i2 i3
    have H1 : cross a b p = 0 → cross b c p * cross c a p < 0 :=
      no_edge_sign a b c p hD i1
    have H2 : cross b c p = 0 → cross a b p * cross c a p < 0 := fun h => by
      have := no_edge_sign b c a p hDb i2 h
      rw [mul_comm]
      exact this
    have H3 : cross c a p = 0 → cross a b p * cross b c p < 0 :=
      no_edge_sign c a b p hDc i3
    have hc1 := crosses_iff a b p
    have hc2 := crosses_iff b c p
    have hc3 := crosses_iff c a p
    have par := triangle_parity (a.y - p.y) (b.y - p.y) (c.y - p.y) (cross a b p)
      (cross b c p) (cross c a p) (crosses a b p) (crosses b c p) (crosses c a p)
      (cross_height_identity a b c p) (heights_not_flat a b c p hD) H1 H2 H3
      (by rw [hc1]; simp only [sub_neg, sub_nonneg])
      (by rw [hc2]; simp only [sub_neg, sub_nonneg])
      (by rw [hc3]; simp only [sub_neg, sub_nonneg])
    rw [par]
    exact ⟨inTriangle_of_strict a b c p, strict_of_inTriangle a b c p hD H1 H2 H3⟩
  refine ⟨box, hb, ?_, ?_⟩
  · intro hT
    have hin := inTriangle_inside box a b c p hB' hT
    by_cases i1 : intersect a b p p = 0
    · by_cases i2 : intersect b c p p = 0
      · by_cases i3 : intersect c a p p = 0
        · rw [ptinpoly_three_vertices m a b c p rest box hin i1 i2 i3,
            if_pos ((core i1 i2 i3).2 hT)]
        · exact ptinpoly_of_edge ⟨m, a :: b :: c :: rest, 3⟩ p box hn hin 2 c a (by simp)
            (by simp) (by simp) (intersect_point_ne_zero_imp c a p hca i3)
      · exact ptinpoly_of_edge ⟨m, a :: b :: c :: rest, 3⟩ p box hn hin 1 b c (by simp)
          (by simp) (by simp) (intersect_point_ne_zero_imp b c p hbc i2)
    · exact ptinpoly_of_edge ⟨m, a :: b :: c :: rest, 3⟩ p box hn hin 0 a b (by simp)
        (by simp) (by simp) (intersect_point_ne_zero_imp a b p hab i1)
  · intro hT
    by_cases hin : p.x < box.xmin ∨ p.x > box.xmax ∨ p.y < box.ymin ∨ p.y > box.ymax
    · exact ptinpoly_outside _ p box hin
    · have i1 : intersect a b p p = 0 := by
        by_contra h
        exact hT (e1 (intersect_point_ne_zero_imp a b p hab h))
      have i2 : intersect b c p p = 0 := by
        by_contra h
        exact hT (e2 (intersect_point_ne_zero_imp b c p hbc h))
      have i3 : intersect c a p p = 0 := by
        by_contra h
        exact hT (e3 (intersect_point_ne_zero_imp c a p hca h))
      rw [ptinpoly_three_vertices m a b c p rest box hin i1 i2 i3,
        if_neg (fun h => hT ((core i1 i2 i3).1 h))]

/-! ## The claims on distance, area and the point buffer -/

/-- C13: the distance from a location to itself is zero,
`spheredist lat lon lat lon = 0` for all `lat` and `lon`, given that the math
library has `sin 0 = 0`, `sqrt 0 = 0` and `asin 0 = 0`. -/
theorem spheredist_self_zero (m : Libm) (lat lon : ℚ) (hsin : m.sin 0 = 0)
    (hsqrt : m.sqrt 0 = 0) (hasin : m.asin 0 = 0) : spheredist m lat lon lat lon = 0 :=
  spheredist_same m lat lon hsin hsqrt hasin

theorem spheredist_self_zero_witness :
    (polyLibm.sin 0 = 0 ∧ polyLibm.sqrt 0 = 0 ∧ polyLibm.asin 0 = 0) ∧
      spheredist polyLibm 0 0 0 0 = 0 ∧ spheredist polyLibm 34 (-118) 34 (-118) = 0 :=
  ⟨⟨by norm_num [polyLibm], by norm_num [polyLibm], by norm_num [polyLibm]⟩,
    spheredist_self_zero polyLibm 0 0 (by norm_num [polyLibm]) (by norm_num [polyLibm])
      (by norm_num [polyLibm]),
    spheredist_self_zero polyLibm 34 (-118) (by norm_num [polyLibm])
      (by norm_num [polyLibm]) (by norm_num [polyLibm])⟩

/-- C14: for a polygon of at least 3 vertices held in a fresh buffer,
`ll_area` returns a value, and it returns the same value on the vertex list
rotated by any number `r` of positions. -/
theorem ll_area_rotation_invariant (m : Libm) (l : List Point) (r : Nat)
    (h : 3 ≤ l.length) :
    ∃ a, (ll_area m (ofList l)).map Prod.fst = some a ∧
      (ll_area m (ofList (l.rotate r))).map Prod.fst = some a := by
  rw [ll_area_rotate_any m r l h, ll_area_ofList m l (by omega)]
  exact ⟨_, rfl, rfl⟩

theorem ll_area_rotation_invariant_witness :
    3 ≤ (rectangle 0 0 1 1).length ∧
      ∃ a, (ll_area polyLibm (ofList (rectangle 0 0 1 1))).map Prod.fst = some a ∧
        (ll_area polyLibm (ofList ((rectangle 0 0 1 1).rotate 1))).map Prod.fst = some a :=
  ⟨by simp [rectangle],
    ll_area_rotation_invariant polyLibm (rectangle 0 0 1 1) 1 (by simp [rectangle])⟩

/-- C15: for a polygon of at least 3 vertices held in a fresh buffer,
`ll_area` returns a value `a`, and on the reversed vertex list it returns
`-a`. -/
theorem ll_area_reversal_negates (m : Libm) (l : List Point) (h : 3 ≤ l.length) :
    ∃ a, (ll_area m (ofList l)).map Prod.fst = some a ∧
      (ll_area m (ofList l.reverse)).map Prod.fst = some (-a) :=
  ll_area_reverse_neg m l h

theorem ll_area_reversal_negates_witness :
    3 ≤ (rectangle 0 0 1 1).length ∧
      ∃ a, (ll_area polyLibm (ofList (rectangle 0 0 1 1))).map Prod.fst = some a ∧
        (ll_area polyLibm (ofList (rectangle 0 0 1 1).reverse)).map Prod.fst = some (-a) :=
  ⟨by simp [rectangle], ll_area_reversal_negates polyLibm (rectangle 0 0 1 1)
    (by simp [rectangle])⟩

/-- C16: when `getPoints` accepts a coordinate list `listv` into a well-formed
buffer, then afterwards `size` is `n = listv.length / 2`, `maxSize` is the
maximum of the old `maxSize` and `n` (so it never shrinks), the buffer is
still well formed, and slot `i < n` holds the pair
`(listv[2 i], listv[2 i + 1])`. -/
theorem getPoints_accepted_state (junk : Nat → Point) (coords : TclObj)
    (listv : List (Option ℚ)) (minSize : Nat) (points points' : Points)
    (hwf : points.WellFormed) (hc : coords.asList = some listv)
    (hok : getPoints junk coords minSize points = some (TclStatus.TCL_OK, points')) :
    points'.size = listv.length / 2 ∧
      points'.maxSize = max points.maxSize (listv.length / 2) ∧
      points.maxSize ≤ points'.maxSize ∧ points'.WellFormed ∧
      ∀ i, i < listv.length / 2 → ∃ x y, listv[2 * i]? = some (some x) ∧
        listv[2 * i + 1]? = some (some y) ∧ points'.pts[i]? = some { x := x, y := y } := by
  obtain ⟨h1, h2, h3, h4, h5⟩ :=
    getPoints_ok_spec junk coords listv minSize points points' hwf hc hok
  refine ⟨h1, h2, ?_, h3, ?_⟩
  · rw [h2]
    exact le_max_left _ _
  · intro i hi
    obtain ⟨x, hx⟩ := h4 (2 * i) (by omega)
    obtain ⟨y, hy⟩ := h4 (2 * i + 1) (by omega)
    refine ⟨x, y, hx, hy, ?_⟩
    rw [h5 i hi, numAt_of_getElem? listv _ x hx, numAt_of_getElem? listv _ y hy]

theorem getPoints_accepted_state_witness :
    ((⟨3, [⟨7, 7⟩, ⟨8, 8⟩, ⟨9, 9⟩], 3⟩ : Points).WellFormed ∧
      (TclObj.nums [1, 2, 3, 4]).asList = some [some 1, some 2, some 3, some 4] ∧
      getPoints (fun _ => ⟨0, 0⟩) (TclObj.nums [1, 2, 3, 4]) 1
          ⟨3, [⟨7, 7⟩, ⟨8, 8⟩, ⟨9, 9⟩], 3⟩ =
        some (TclStatus.TCL_OK, ⟨3, [⟨1, 2⟩, ⟨3, 4⟩, ⟨9, 9⟩], 2⟩)) ∧
      (⟨3, [⟨1, 2⟩, ⟨3, 4⟩, ⟨9, 9⟩], 2⟩ : Points).size = 2 ∧
      (⟨3, [⟨1, 2⟩, ⟨3, 4⟩, ⟨9, 9⟩], 2⟩ : Points).maxSize = 3 :=
  have hwf : (⟨3, [⟨7, 7⟩, ⟨8, 8⟩, ⟨9, 9⟩], 3⟩ : Points).WellFormed := rfl
  have hc : (TclObj.nums [1, 2, 3, 4]).asList = some [some 1, some 2, some 3, some 4] := rfl
  have hok : getPoints (fun _ => ⟨0, 0⟩) (TclObj.nums [1, 2, 3, 4]) 1
      ⟨3, [⟨7, 7⟩, ⟨8, 8⟩, ⟨9, 9⟩], 3⟩ =
        some (TclStatus.TCL_OK, ⟨3, [⟨1, 2⟩, ⟨3, 4⟩, ⟨9, 9⟩], 2⟩) := by
    simp [getPoints, getPointsLoop, storeX, storeY, TclObj.nums]
  ⟨⟨hwf, hc, hok⟩,
    (getPoints_accepted_state _ _ _ 1 _ _ hwf hc hok).1,
    (getPoints_accepted_state _ _ _ 1 _ _ hwf hc hok).2.1⟩

/-- C17: on a coordinate list `listv` and a well-formed buffer, `getPoints`
returns a status; it is `TCL_ERROR` exactly when the number of coordinates is
odd, or the number of points `listv.length / 2` is below `minSize`, or some
coordinate is not a number, and `TCL_OK` for every even-length all-numeric
list of at least `minSize` points. -/
theorem getPoints_error_iff_malformed (junk : Nat → Point) (coords : TclObj)
    (listv : List (Option ℚ)) (minSize : Nat) (points : Points)
    (hwf : points.WellFormed) (hc : coords.asList = some listv) :
    ∃ st points', getPoints junk coords minSize points = some (st, points') ∧
      (st = TclStatus.TCL_ERROR ↔
        (listv.length % 2 = 1 ∨ listv.length / 2 < minSize ∨ none ∈ listv)) ∧
      (st = TclStatus.TCL_OK ↔
        (listv.length % 2 = 0 ∧ minSize ≤ listv.length / 2 ∧ none ∉ listv)) := by
  obtain ⟨st, points', hg, hiff⟩ := getPoints_status junk coords listv minSize points hwf hc
  refine ⟨st, points', hg, hiff, ?_⟩
  have hne : st = TclStatus.TCL_OK ↔ ¬ st = TclStatus.TCL_ERROR := by
    cases st <;> simp
  rw [hne, hiff]
  constructor
  · intro h
    push_neg at h
    exact ⟨by omega, by omega, h.2.2⟩
  · rintro ⟨h1, h2, h3⟩ (h | h | h)
    · omega
    · omega
    · exact h3 h

theorem getPoints_error_iff_malformed_witness :
    (newPoints.WellFormed ∧
      (TclObj.nums [1, 2, 3]).asList = some [some 1, some 2, some 3]) ∧
      ∃ st points', getPoints (fun _ => ⟨0, 0⟩) (TclObj.nums [1, 2, 3]) 1 newPoints
          = some (st, points') ∧
        (st = TclStatus.TCL_ERROR ↔
          ([some (1 : ℚ), some 2, some 3].length % 2 = 1 ∨
            [some (1 : ℚ), some 2, some 3].length / 2 < 1 ∨
            none ∈ [some (1 : ℚ), some 2, some 3])) ∧
        (st = TclStatus.TCL_OK ↔
          ([some (1 : ℚ), some 2, some 3].length % 2 = 0 ∧
            1 ≤ [some (1 : ℚ), some 2, some 3].length / 2 ∧
            none ∉ [some (1 : ℚ), some 2, some 3])) :=
  ⟨⟨rfl, rfl⟩,
    getPoints_error_iff_malformed (fun _ => ⟨0, 0⟩) (TclObj.nums [1, 2, 3])
      [some 1, some 2, some 3] 1 newPoints rfl rfl⟩

/-- C18: no stale data leaks through buffer reuse.  For two well-formed
prior buffers (any size, capacity, contents, and any contents of freshly
allocated memory) and a valid coordinate list `vals` of at least
`minSize ≥ 1` points, `getPoints` succeeds on both, and `bbox` and
`ptinpoly` (for any point and any box) return on both buffers the value they
return on a fresh buffer holding exactly the points of `vals`. -/
theorem buffer_reuse_no_stale_data (junk1 junk2 : Nat → Point) (coords : TclObj)
    (vals : List ℚ) (minSize : Nat) (b1 b2 : Points) (p : Point) (box : Bbox)
    (hwf1 : b1.WellFormed) (hwf2 : b2.WellFormed)
    (hc : coords.asList = some (vals.map some)) (heven : vals.length % 2 = 0)
    (hpos : 1 ≤ minSize) (hmin : 2 * minSize ≤ vals.length) :
    ∃ r1 r2 fbox v,
      getPoints junk1 coords minSize b1 = some (TclStatus.TCL_OK, r1) ∧
      getPoints junk2 coords minSize b2 = some (TclStatus.TCL_OK, r2) ∧
      bbox (ofList (toPoints vals)) = some fbox ∧ bbox r1 = some fbox ∧
      bbox r2 = some fbox ∧
      ptinpoly (ofList (toPoints vals)) p box = some v ∧ ptinpoly r1 p box = some v ∧
      ptinpoly r2 p box = some v := by
  obtain ⟨r1, hg1, hs1, hl1, hv1⟩ :=
    getPoints_view junk1 coords vals minSize b1 hwf1 hc heven hmin
  obtain ⟨r2, hg2, hs2, hl2, hv2⟩ :=
    getPoints_view junk2 coords vals minSize b2 hwf2 hc heven hmin
  have hfs : (ofList (toPoints vals)).size = vals.length / 2 := toPoints_length vals
  have hfl : (ofList (toPoints vals)).size ≤ (ofList (toPoints vals)).pts.length :=
    le_refl _
  have hf1 : 1 ≤ (ofList (toPoints vals)).size := by
    rw [hfs]
    omega
  obtain ⟨fbox, hfb, -⟩ := bbox_spec (ofList (toPoints vals)) hf1 hfl
  obtain ⟨v, hfv, -⟩ := ptinpoly_total (ofList (toPoints vals)) p box hfl hf1
  have e1 : r1.size = (ofList (toPoints vals)).size := by rw [hs1, hfs]
  have e2 : r2.size = (ofList (toPoints vals)).size := by rw [hs2, hfs]
  refine ⟨r1, r2, fbox, v, hg1, hg2, hfb, ?_, ?_, hfv, ?_, ?_⟩
  · rw [bbox_congr r1 (ofList (toPoints vals)) e1 (by omega) hv1]
    exact hfb
  · rw [bbox_congr r2 (ofList (toPoints vals)) e2 (by omega) hv2]
    exact hfb
  · rw [ptinpoly_congr r1 (ofList (toPoints vals)) p box e1 (by omega) hv1]
    exact hfv
  · rw [ptinpoly_congr r2 (ofList (toPoints vals)) p box e2 (by omega) hv2]
    exact hfv

theorem buffer_reuse_no_stale_data_witness :
    (newPoints.WellFormed ∧ (⟨3, [⟨7, 7⟩, ⟨8, 8⟩, ⟨9, 9⟩], 3⟩ : Points).WellFormed ∧
      (TclObj.nums [1, 2, 3, 4]).asList = some ([1, 2, 3, 4].map some) ∧
      [(1 : ℚ), 2, 3, 4].length % 2 = 0 ∧ 1 ≤ 1 ∧ 2 * 1 ≤ [(1 : ℚ), 2, 3, 4].length) ∧
      ∃ r1 r2 fbox v,
        getPoints (fun _ => ⟨0, 0⟩) (TclObj.nums [1, 2, 3, 4]) 1 newPoints
          = some (TclStatus.TCL_OK, r1) ∧
        getPoints (fun _ => ⟨5, 5⟩) (TclObj.nums [1, 2, 3, 4]) 1
          ⟨3, [⟨7, 7⟩, ⟨8, 8⟩, ⟨9, 9⟩], 3⟩ = some (TclStatus.TCL_OK, r2) ∧
        bbox (ofList (toPoints [1, 2, 3, 4])) = some fbox ∧ bbox r1 = some fbox ∧
        bbox r2 = some fbox ∧
        ptinpoly (ofList (toPoints [1, 2, 3, 4])) ⟨2, 3⟩ ⟨1, 2, 3, 4⟩ = some v ∧
        ptinpoly r1 ⟨2, 3⟩ ⟨1, 2, 3, 4⟩ = some v ∧
        ptinpoly r2 ⟨2, 3⟩ ⟨1, 2, 3, 4⟩ = some v :=
  ⟨⟨rfl, rfl, rfl, rfl, le_refl 1, by decide⟩,
    buffer_reuse_no_stale_data (fun _ => ⟨0, 0⟩) (fun _ => ⟨5, 5⟩) (TclObj.nums [1, 2, 3, 4])
      [1, 2, 3, 4] 1 newPoints ⟨3, [⟨7, 7⟩, ⟨8, 8⟩, ⟨9, 9⟩], 3⟩ ⟨2, 3⟩ ⟨1, 2, 3, 4⟩
      rfl rfl rfl rfl (le_refl 1) (by decide)⟩

/-- C19: `validateLatLong lat lon` succeeds exactly when `-90 ≤ lat ≤ 90` and
`-180 ≤ lon ≤ 360`, all four bounds included, and fails for every other
pair. -/
theorem validateLatLong_ok_iff_in_range (lat lon : ℚ) :
    (validateLatLong lat lon = TclStatus.TCL_OK ↔
        -90 ≤ lat ∧ lat ≤ 90 ∧ -180 ≤ lon ∧ lon ≤ 360) ∧
      (validateLatLong lat lon = TclStatus.TCL_ERROR ↔
        ¬ (-90 ≤ lat ∧ lat ≤ 90 ∧ -180 ≤ lon ∧ lon ≤ 360)) := by
  refine ⟨validateLatLong_ok_iff lat lon, ?_⟩
  rw [TclStatus.error_iff_not_ok, validateLatLong_ok_iff]

/-- C20 (fails on the code): `latlong dist`, `latlong dist4` and
`latlong radius` accept the latitude 100, outside `[-90, 90]`, and return
`TCL_OK` with `spheredist` applied to it. -/
theorem latlong_dist_out_of_range_accepted :
    ¬ ((-90 : ℚ) ≤ 100 ∧ (100 : ℚ) ≤ 90) ∧
      latlong_dist polyLibm
          [TclObj.word, TclObj.word, TclObj.nums [100, 0], TclObj.nums [0, 0]] =
        Outcome.ok (spheredist polyLibm 100 0 0 0) ∧
      latlong_dist4 polyLibm
          [TclObj.word, TclObj.word, TclObj.num 100, TclObj.num 0, TclObj.num 0,
            TclObj.num 0] =
        Outcome.ok (spheredist polyLibm 100 0 0 0) ∧
      latlong_radius polyLibm ⟨0, 0, 0, newPoints⟩
          [TclObj.word, TclObj.word, TclObj.num 100, TclObj.num 0] =
        Outcome.ok (spheredist polyLibm 100 0 0 0) := by
  refine ⟨by norm_num, ?_, ?_, ?_⟩
  · simp [latlong_dist, getLatLong, TclObj.nums]
  · simp [latlong_dist4, TclObj.num]
  · simp [latlong_radius, TclObj.num]

/-- C20 (amended): the three distance commands do not check ranges.  When
the arguments of `latlong dist` are two pairs of numbers, those of
`latlong dist4` four numbers and those of `latlong radius` two numbers, each
command returns `TCL_OK` with `spheredist` applied to exactly those numbers,
whatever their values. -/
theorem latlong_dist_commands_no_range_check (m : Libm) (info : LatlongInfo)
    (c s o2 o3 d2 d3 d4 d5 : TclObj) (lat1 lon1 lat2 lon2 : ℚ)
    (h2 : o2.asList = some [some lat1, some lon1])
    (h3 : o3.asList = some [some lat2, some lon2])
    (g2 : d2.asDouble = some lat1) (g3 : d3.asDouble = some lon1)
    (g4 : d4.asDouble = some lat2) (g5 : d5.asDouble = some lon2) :
    latlong_dist m [c, s, o2, o3] = Outcome.ok (spheredist m lat1 lon1 lat2 lon2) ∧
      latlong_dist4 m [c, s, d2, d3, d4, d5] =
        Outcome.ok (spheredist m lat1 lon1 lat2 lon2) ∧
      latlong_radius m info [c, s, d2, d3] =
        Outcome.ok (spheredist m lat1 lon1 info.poleLat info.poleLon) :=
  ⟨latlong_dist_unchecked m c s o2 o3 lat1 lon1 lat2 lon2 h2 h3,
    latlong_dist4_unchecked m c s d2 d3 d4 d5 lat1 lon1 lat2 lon2 g2 g3 g4 g5,
    latlong_radius_unchecked m info c s d2 d3 lat1 lon1 g2 g3⟩

theorem latlong_dist_commands_no_range_check_witness :
    ((TclObj.nums [95, 400]).asList = some [some 95, some 400] ∧
      (TclObj.nums [-91, -200]).asList = some [some (-91), some (-200)] ∧
      (TclObj.num 95).asDouble = some 95 ∧ (TclObj.num 400).asDouble = some 400 ∧
      (TclObj.num (-91)).asDouble = some (-91) ∧
      (TclObj.num (-200)).asDouble = some (-200)) ∧
      latlong_dist polyLibm
          [TclObj.word, TclObj.word, TclObj.nums [95, 400], TclObj.nums [-91, -200]] =
        Outcome.ok (spheredist polyLibm 95 400 (-91) (-200)) ∧
      latlong_dist4 polyLibm
          [TclObj.word, TclObj.word, TclObj.num 95, TclObj.num 400, TclObj.num (-91),
            TclObj.num (-200)] =
        Outcome.ok (spheredist polyLibm 95 400 (-91) (-200)) ∧
      latlong_radius polyLibm ⟨0, 0, 0, newPoints⟩
          [TclObj.word, TclObj.word, TclObj.num 95, TclObj.num 400] =
        Outcome.ok (spheredist polyLibm 95 400 0 0) :=
  ⟨⟨rfl, rfl, rfl, rfl, rfl, rfl⟩,
    latlong_dist_commands_no_range_check polyLibm ⟨0, 0, 0, newPoints⟩ TclObj.word
      TclObj.word (TclObj.nums [95, 400]) (TclObj.nums [-91, -200]) (TclObj.num 95)
      (TclObj.num 400) (TclObj.num (-91)) (TclObj.num (-200)) 95 400 (-91) (-200)
      rfl rfl rfl rfl rfl rfl⟩

/-! ## The claims on triangles and small polygons -/

theorem result_iff (r : Option Int) (P : Prop) (h1 : P → r = some 1)
    (h0 : ¬ P → r = some 0) : (r = some 1 ↔ P) ∧ (r = some 0 ↔ ¬ P) := by
  constructor
  · constructor
    · intro h
      by_contra hP
      rw [h0 hP] at h
      simp at h
    · exact h1
  · constructor
    · intro h hP
      rw [h1 hP] at h
      simp at h
    · exact h0

/-- C11: for a triangle `a b c` whose vertices are not collinear (either
winding order), held in the first three slots of a buffer of logical length
3, `bbox` returns a box and, with it, `ptinpoly` returns 1 exactly when `p`
is a convex combination of `a`, `b` and `c`, and 0 otherwise. -/
theorem ptinpoly_triangle_iff (m : Nat) (a b c p : Point) (rest : List Point)
    (hD : cross a b c ≠ 0) :
    ∃ box, bbox ⟨m, a :: b :: c :: rest, 3⟩ = some box ∧
      (ptinpoly ⟨m, a :: b :: c :: rest, 3⟩ p box = some 1 ↔ InTriangle a b c p) ∧
      (ptinpoly ⟨m, a :: b :: c :: rest, 3⟩ p box = some 0 ↔ ¬ InTriangle a b c p) := by
  obtain ⟨box, hb, h1, h0⟩ := ptinpoly_triangle m a b c p rest hD
  exact ⟨box, hb, result_iff _ _ h1 h0⟩

theorem ptinpoly_triangle_iff_witness :
    cross ⟨0, 0⟩ ⟨4, 0⟩ ⟨0, 4⟩ ≠ 0 ∧
      (∃ box, bbox ⟨3, [⟨0, 0⟩, ⟨4, 0⟩, ⟨0, 4⟩], 3⟩ = some box ∧
        (ptinpoly ⟨3, [⟨0, 0⟩, ⟨4, 0⟩, ⟨0, 4⟩], 3⟩ ⟨1, 1⟩ box = some 1 ↔
          InTriangle ⟨0, 0⟩ ⟨4, 0⟩ ⟨0, 4⟩ ⟨1, 1⟩) ∧
        (ptinpoly ⟨3, [⟨0, 0⟩, ⟨4, 0⟩, ⟨0, 4⟩], 3⟩ ⟨1, 1⟩ box = some 0 ↔
          ¬ InTriangle ⟨0, 0⟩ ⟨4, 0⟩ ⟨0, 4⟩ ⟨1, 1⟩)) ∧
      InTriangle ⟨0, 0⟩ ⟨4, 0⟩ ⟨0, 4⟩ ⟨1, 1⟩ ∧
      ptinpoly ⟨3, [⟨0, 0⟩, ⟨4, 0⟩, ⟨0, 4⟩], 3⟩ ⟨1, 1⟩ ⟨0, 0, 4, 4⟩ = some 1 ∧
      ptinpoly ⟨3, [⟨0, 0⟩, ⟨4, 0⟩, ⟨0, 4⟩], 3⟩ ⟨3, 3⟩ ⟨0, 0, 4, 4⟩ = some 0 :=
  ⟨by norm_num [cross],
    ptinpoly_triangle_iff 3 ⟨0, 0⟩ ⟨4, 0⟩ ⟨0, 4⟩ ⟨1, 1⟩ [] (by norm_num [cross]),
    ⟨1 / 2, 1 / 4, 1 / 4, by norm_num, by norm_num, by norm_num, by norm_num, by norm_num,
      by norm_num⟩,
    by norm_num [ptinpoly, ptinpolyLoop, intersect, ccw, crosses, dmin, dmax],
    by norm_num [ptinpoly, ptinpolyLoop, intersect, ccw, crosses, dmin, dmax]⟩

theorem areaSumLoop_succ (m : Libm) (poly : Points) (n i : Nat) (sum : ℚ) :
    areaSumLoop m poly (n + 1) i sum =
      match poly.pts[i]?, readAt poly.pts (areaIndexJ poly.size i),
        readAt poly.pts (areaIndexK poly.size i) with
      | some pi, some pj, some pk =>
        areaSumLoop m poly n (i + 1) (sum + (pi.y - pj.y) * m.sin pk.x)
      | _, _, _ => none := by
  rw [areaSumLoop]
  rfl

theorem areaIndexJ_eq (n i : Nat) (hn : 3 ≤ n) (hi : i < n) :
    areaIndexJ n i = ((i : Int) - 2) % (n : Int) ∧ 0 ≤ areaIndexJ n i ∧
      areaIndexJ n i < n := by
  unfold areaIndexJ
  simp only []
  by_cases h : (i : Int) - 2 < 0
  · rw [if_pos h]
    refine ⟨?_, by omega, by omega⟩
    rw [← Int.add_emod_self, Int.emod_eq_of_lt (by omega) (by omega)]
  · rw [if_neg h]
    refine ⟨?_, by omega, by omega⟩
    rw [Int.emod_eq_of_lt (by omega) (by omega)]

theorem areaIndexK_eq (n i : Nat) (hi : i < n) :
    areaIndexK n i = ((i : Int) - 1) % (n : Int) ∧ 0 ≤ areaIndexK n i ∧
      areaIndexK n i < n := by
  unfold areaIndexK
  simp only []
  by_cases h : (i : Int) - 1 < 0
  · rw [if_pos h]
    refine ⟨?_, by omega, by omega⟩
    rw [← Int.add_emod_self, Int.emod_eq_of_lt (by omega) (by omega)]
  · rw [if_neg h]
    refine ⟨?_, by omega, by omega⟩
    rw [Int.emod_eq_of_lt (by omega) (by omega)]

theorem readAt_in_range (pts : List Point) (n : Nat) (j : Int) (hlen : n ≤ pts.length)
    (h0 : 0 ≤ j) (h1 : j < n) : ∃ q, readAt pts j = some q := by
  unfold readAt
  rw [if_neg (by omega)]
  exact ⟨_, List.getElem?_eq_getElem (by omega)⟩

theorem ll_area_frame (m : Libm) (poly : Points) (hn : 2 ≤ poly.size)
    (hlen : poly.size ≤ poly.pts.length) :
    ∃ a poly', ll_area m poly = some (a, poly') ∧ poly'.size = poly.size ∧
      poly'.maxSize = poly.maxSize ∧ poly'.pts.length = poly.pts.length ∧
      (∀ i, i < poly.size → poly'.pts[i]? = (poly.pts[i]?).map toRadians) ∧
      (∀ i, poly.size ≤ i → poly'.pts[i]? = poly.pts[i]?) := by
  obtain ⟨pts', hloop, hl, hval⟩ := toRadiansLoop_spec poly.size 0 poly.pts (by omega)
  have hs := areaSumLoop_spec m { poly with pts := pts' } hn (by simp only; omega)
    poly.size 0 0 (by simp)
  have hll : ∃ a, ll_area m poly = some (a, { poly with pts := pts' }) := by
    unfold ll_area
    rw [hloop]
    simp only []
    rw [hs]
    exact ⟨_, rfl⟩
  obtain ⟨a, ha⟩ := hll
  refine ⟨a, { poly with pts := pts' }, ha, rfl, rfl, hl, ?_, ?_⟩
  · intro i hi
    simp only
    rw [hval i, if_pos (by omega)]
  · intro i hi
    simp only
    rw [hval i, if_neg (by omega)]

/-! ## Horizontal edges, degenerate pairs and symmetry of the distance -/

theorem crosses_horizontal (p1 p2 p : Point) (h : p1.y = p2.y) : crosses p1 p2 p = false := by
  unfold crosses
  simp only [h, ne_eq, not_true_eq_false, if_false, ite_self]

theorem crossesChecked_eq (p1 p2 p : Point) :
    crossesChecked p1 p2 p = some (crosses p1 p2 p) := by
  unfold crossesChecked crosses divChecked
  by_cases h1 : p.y > dmin p1.y p2.y
  · by_cases h2 : p.y ≤ dmax p1.y p2.y
    · by_cases h3 : p.x ≤ dmax p1.x p2.x
      · by_cases h4 : p1.y ≠ p2.y
        · have h5 : ¬ (p2.y - p1.y = 0) := fun h => h4 (by linarith)
          simp only [if_pos h1, if_pos h2, if_pos h3, if_pos h4, if_neg h5]
          split_ifs <;> rfl
        · simp only [if_pos h1, if_pos h2, if_pos h3, if_neg h4]
      · simp only [if_pos h1, if_pos h2, if_neg h3]
    · simp only [if_pos h1, if_neg h2]
  · simp only [if_neg h1]

theorem ccw_degenerate_sq (p q : Point) : ccw p p q * ccw p p q ≤ 0 ↔ q.x = p.x := by
  rw [ccw_degenerate]
  constructor
  · intro h
    by_contra hne
    rcases lt_or_gt_of_ne hne with hlt | hgt
    · rw [if_pos hlt] at h
      exact absurd h (by decide)
    · rw [if_neg (not_lt.2 hgt.le), if_pos hgt] at h
      exact absurd h (by decide)
  · intro h
    rw [h, if_neg (lt_irrefl _), if_neg (lt_irrefl _)]
    decide

theorem intersect_degenerate_iff (p q : Point) : intersect p p q q = 1 ↔ p.x = q.x := by
  unfold intersect
  constructor
  · intro h
    by_contra hne
    rw [if_neg (fun hc => hne ((ccw_degenerate_sq q p).1 hc.2))] at h
    cases h
  · intro h
    rw [if_pos ⟨(ccw_degenerate_sq p q).2 h.symm, (ccw_degenerate_sq q p).2 h⟩]

theorem spheredist_symm (m : Libm) (lat1 lon1 lat2 lon2 : ℚ)
    (hodd : ∀ x, m.sin (-x) = - m.sin x) :
    spheredist m lat1 lon1 lat2 lon2 = spheredist m lat2 lon2 lat1 lon1 := by
  unfold spheredist
  simp only []
  have e1 : (lat2 * radians - lat1 * radians) / 2 = -((lat1 * radians - lat2 * radians) / 2) := by
    ring
  have e2 : (lon2 * radians - lon1 * radians) / 2 = -((lon1 * radians - lon2 * radians) / 2) := by
    ring
  rw [e1, e2, hodd, hodd]
  congr 3
  ring

/-! ## The buffer invariant and the area command -/

theorem getPoints_invariant (junk : Nat → Point) (coords : TclObj) (minSize : Nat)
    (b : Points) (hwf : b.WellFormed) (hs : b.size ≤ b.maxSize) :
    ∃ st b', getPoints junk coords minSize b = some (st, b') ∧ b'.WellFormed ∧
      b'.size ≤ b'.maxSize := by
  cases hc : coords.asList with
  | none => exact ⟨_, _, getPoints_not_list junk coords minSize b hc, hwf, hs⟩
  | some listv =>
    by_cases hodd : listv.length % 2 ≠ 0
    · exact ⟨_, _, getPoints_odd junk coords listv minSize b hc hodd, hwf, hs⟩
    · by_cases hfew : listv.length < 2 * minSize
      · exact ⟨_, _, getPoints_few junk coords listv minSize b hc hfew, hwf, hs⟩
      · obtain ⟨st, b', hg, h1, h2, h3, -, -⟩ :=
          getPoints_spec junk coords listv minSize b hwf hc (by omega) (by omega)
        refine ⟨st, b', hg, h3, ?_⟩
        rw [h1, h2]
        exact le_max_right _ _

theorem runCalls_invariant (calls : List Call) :
    ∀ b : Points, b.WellFormed → b.size ≤ b.maxSize →
      ∃ b', runCalls calls b = some b' ∧ b'.WellFormed ∧ b'.size ≤ b'.maxSize := by
  induction calls with
  | nil =>
    intro b hwf hs
    exact ⟨b, rfl, hwf, hs⟩
  | cons c cs ih =>
    intro b hwf hs
    obtain ⟨st, b1, hg, hwf1, hs1⟩ := getPoints_invariant c.junk c.coords c.minSize b hwf hs
    obtain ⟨b', hr, hwf', hs'⟩ := ih b1 hwf1 hs1
    refine ⟨b', ?_, hwf', hs'⟩
    rw [runCalls, hg]
    exact hr

theorem validateLoop_spec (pts : List Point) :
    ∀ (k i : Nat), i + k ≤ pts.length →
      ∃ st, validateLoop pts k i = some st ∧
        (st = TclStatus.TCL_OK ↔ ∀ j, i ≤ j → j < i + k →
          ∃ q, pts[j]? = some q ∧ validateLatLong q.x q.y = TclStatus.TCL_OK) := by
  intro k
  induction k with
  | zero =>
    intro i _
    refine ⟨_, rfl, ?_⟩
    simp only [true_iff]
    intro j h1 h2
    omega
  | succ k ih =>
    intro i h
    obtain ⟨q, hq⟩ : ∃ q, pts[i]? = some q := ⟨_, List.getElem?_eq_getElem (by omega)⟩
    by_cases hv : validateLatLong q.x q.y ≠ TclStatus.TCL_OK
    · refine ⟨TclStatus.TCL_ERROR, ?_, ?_⟩
      · rw [validateLoop, hq]
        simp only [if_pos hv]
      · constructor
        · intro hc
          cases hc
        · intro hall
          obtain ⟨q', hq', hok⟩ := hall i (le_refl _) (by omega)
          rw [hq] at hq'
          cases hq'
          exact absurd hok hv
    · obtain ⟨st, hloop, hiff⟩ := ih (i + 1) (by omega)
      refine ⟨st, ?_, ?_⟩
      · rw [validateLoop, hq]
        simp only [if_neg hv]
        exact hloop
      · rw [hiff]
        constructor
        · intro hall j h1 h2
          by_cases hj : j = i
          · subst hj
            exact ⟨q, hq, not_not.1 hv⟩
          · exact hall j (by omega) (by omega)
        · intro hall j h1 h2
          exact hall j (by omega) (by omega)

theorem LatlongInfo.with_self (info : LatlongInfo) :
    ({ info with pointsBuffer := info.pointsBuffer } : LatlongInfo) = info := by
  cases info
  rfl

theorem latlong_area_few (m : Libm) (junk : Nat → Point) (info : LatlongInfo)
    (c s o2 : TclObj) (listv : List (Option ℚ)) (hc : o2.asList = some listv)
    (h : listv.length / 2 < 3) :
    latlong_area m junk info [c, s, o2] = some (Outcome.error, info) := by
  have hg : getPoints junk o2 3 info.pointsBuffer =
      some (TclStatus.TCL_ERROR, info.pointsBuffer) := by
    by_cases hodd : listv.length % 2 ≠ 0
    · exact getPoints_odd junk o2 listv 3 _ hc hodd
    · exact getPoints_few junk o2 listv 3 _ hc (by omega)
  simp only [latlong_area, hg, LatlongInfo.with_self]

theorem latlong_area_invalid (m : Libm) (junk : Nat → Point) (info : LatlongInfo)
    (c s o2 : TclObj) (vals : List ℚ) (q : Point) (hwf : info.pointsBuffer.WellFormed)
    (hc : o2.asList = some (vals.map some)) (heven : vals.length % 2 = 0)
    (h3 : 3 ≤ vals.length / 2) (hq : q ∈ toPoints vals)
    (hbad : validateLatLong q.x q.y = TclStatus.TCL_ERROR) :
    ∃ r, getPoints junk o2 3 info.pointsBuffer = some (TclStatus.TCL_OK, r) ∧
      latlong_area m junk info [c, s, o2] =
        some (Outcome.error, { info with pointsBuffer := r }) := by
  obtain ⟨r, hg, hs, hl, hv⟩ :=
    getPoints_view junk o2 vals 3 info.pointsBuffer hwf hc heven (by omega)
  obtain ⟨st, hloop, hiff⟩ := validateLoop_spec r.pts r.size 0 (by omega)
  have hst : st = TclStatus.TCL_ERROR := by
    rw [TclStatus.error_iff_not_ok, hiff]
    intro hall
    obtain ⟨j, hj⟩ := List.mem_iff_getElem?.1 hq
    have hjl : j < (toPoints vals).length := by
      by_contra hge
      rw [List.getElem?_eq_none (by omega)] at hj
      cases hj
    rw [toPoints_length] at hjl
    obtain ⟨q', hq', hok⟩ := hall j (Nat.zero_le _) (by omega)
    rw [hv j (by omega), hj] at hq'
    cases hq'
    rw [hbad] at hok
    cases hok
  subst hst
  refine ⟨r, hg, ?_⟩
  simp only [latlong_area, hg, hloop]

theorem latlong_area_ok (m : Libm) (junk : Nat → Point) (info info' : LatlongInfo)
    (c s o2 : TclObj) (a : ℚ) (hwf : info.pointsBuffer.WellFormed)
    (h : latlong_area m junk info [c, s, o2] = some (Outcome.ok a, info')) :
    ∃ r, getPoints junk o2 3 info.pointsBuffer = some (TclStatus.TCL_OK, r) ∧
      3 ≤ r.size ∧
      (∀ i, i < r.size →
        ∃ q, r.pts[i]? = some q ∧ validateLatLong q.x q.y = TclStatus.TCL_OK) ∧
      ll_area m r = some (a, info'.pointsBuffer) := by
  cases hg : getPoints junk o2 3 info.pointsBuffer with
  | none => simp [latlong_area, hg] at h
  | some pr =>
    obtain ⟨st, r⟩ := pr
    cases st with
    | TCL_ERROR => simp [latlong_area, hg] at h
    | TCL_OK =>
      cases hc : o2.asList with
      | none =>
        rw [getPoints_not_list junk o2 3 _ hc] at hg
        cases hg
      | some listv =>
        obtain ⟨hsz, -, hwf', -, -⟩ :=
          getPoints_ok_spec junk o2 listv 3 info.pointsBuffer r hwf hc hg
        obtain ⟨-, hmin⟩ := getPoints_ok_shape junk o2 listv 3 info.pointsBuffer r hc hg
        have hle : r.size ≤ r.pts.length := by
          obtain ⟨-, hmx, -, -, -⟩ :=
            getPoints_ok_spec junk o2 listv 3 info.pointsBuffer r hwf hc hg
          unfold Points.WellFormed at hwf'
          rw [hwf', hmx, hsz]
          exact le_max_right _ _
        obtain ⟨vst, hloop, hiff⟩ := validateLoop_spec r.pts r.size 0 (by omega)
        cases vst with
        | TCL_ERROR => simp [latlong_area, hg, hloop] at h
        | TCL_OK =>
          cases hll : ll_area m r with
          | none => simp [latlong_area, hg, hloop, hll] at h
          | some res =>
            obtain ⟨a', buf'⟩ := res
            simp only [latlong_area, hg, hloop, hll, Option.some.injEq, Prod.mk.injEq,
              Outcome.ok.injEq] at h
            obtain ⟨ha, hi⟩ := h
            subst ha
            subst hi
            refine ⟨r, rfl, by omega, ?_, hll⟩
            intro i hi
            exact hiff.1 rfl i (Nat.zero_le _) (by omega)

theorem latlong_area_valid (m : Libm) (junk : Nat → Point) (info : LatlongInfo)
    (c s o2 : TclObj) (vals : List ℚ) (hwf : info.pointsBuffer.WellFormed)
    (hc : o2.asList = some (vals.map some)) (heven : vals.length % 2 = 0)
    (h3 : 3 ≤ vals.length / 2)
    (hall : ∀ q, q ∈ toPoints vals → validateLatLong q.x q.y = TclStatus.TCL_OK) :
    ∃ r a r', getPoints junk o2 3 info.pointsBuffer = some (TclStatus.TCL_OK, r) ∧
      ll_area m r = some (a, r') ∧
      latlong_area m junk info [c, s, o2] =
        some (Outcome.ok a, { info with pointsBuffer := r' }) := by
  obtain ⟨r, hg, hs, hl, hv⟩ :=
    getPoints_view junk o2 vals 3 info.pointsBuffer hwf hc heven (by omega)
  obtain ⟨st, hloop, hiff⟩ := validateLoop_spec r.pts r.size 0 (by omega)
  have hst : st = TclStatus.TCL_OK := by
    rw [hiff]
    intro j _ hj
    have hj' : j < vals.length / 2 := by omega
    obtain ⟨q, hq⟩ : ∃ q, (toPoints vals)[j]? = some q :=
      ⟨_, List.getElem?_eq_getElem (by rw [toPoints_length]; exact hj')⟩
    exact ⟨q, by rw [hv j (by omega), hq], hall q (List.getElem?_mem hq)⟩
  subst hst
  obtain ⟨a, r', hll, -⟩ := ll_area_frame m r (by omega) hl
  refine ⟨r, a, r', hg, hll, ?_⟩
  simp only [latlong_area, hg, hloop, hll]

/-! ## Points outside the bounding box -/

theorem ccw_values (a b c : Point) : ccw a b c = 1 ∨ ccw a b c = -1 ∨ ccw a b c = 0 := by
  unfold ccw
  simp only []
  split_ifs <;> simp

theorem dot_self_pos (a b : Point) (h : a ≠ b) : 0 < dot a b b := normSq_pos a b h

theorem ccw_collinear (a b c : Point) (hab : a ≠ b) (hc : cross a b c = 0) :
    ccw a b c = if dot a b c < 0 then -1 else if dot a b c ≤ dot a b b then 0 else 1 := by
  have hN := dot_self_pos a b hab
  have e := collinear_eq_lineAt a b c hab hc
  have ht : ((b.x - a.x) * (c.x - a.x) + (b.y - a.y) * (c.y - a.y)) /
      ((b.x - a.x) * (b.x - a.x) + (b.y - a.y) * (b.y - a.y)) = dot a b c / dot a b b := rfl
  rw [ht] at e
  have h1 : dot a b c / dot a b b < 0 ↔ dot a b c < 0 := by
    rw [div_lt_iff₀ hN, zero_mul]
  have h2 : dot a b c / dot a b b ≤ 1 ↔ dot a b c ≤ dot a b b := by
    rw [div_le_iff₀ hN, one_mul]
  have h3 := ccw_lineAt a b (dot a b c / dot a b b) hab
  rw [← e] at h3
  rw [h3]
  by_cases k1 : dot a b c < 0
  · rw [if_pos k1, if_pos (h1.2 k1)]
  · rw [if_neg k1, if_neg (fun h => k1 (h1.1 h))]
    by_cases k2 : dot a b c ≤ dot a b b
    · rw [if_pos k2, if_pos (h2.2 k2)]
    · rw [if_neg k2, if_neg (fun h => k2 (h2.1 h))]

theorem ccw_pos_iff (a b c : Point) (hab : a ≠ b) :
    ccw a b c = 1 ↔ 0 < cross a b c ∨ (cross a b c = 0 ∧ dot a b b < dot a b c) := by
  have hN := dot_self_pos a b hab
  rcases lt_trichotomy (cross a b c) 0 with h | h | h
  · rw [ccw_of_cross_neg a b c h]
    constructor
    · intro hc
      cases hc
    · rintro (h' | ⟨h', -⟩) <;> linarith
  · rw [ccw_collinear a b c hab h]
    constructor
    · intro hc
      right
      refine ⟨h, ?_⟩
      by_contra hle
      have k2 : dot a b c ≤ dot a b b := not_lt.1 hle
      by_cases k1 : dot a b c < 0
      · rw [if_pos k1] at hc
        cases hc
      · rw [if_neg k1, if_pos k2] at hc
        cases hc
    · rintro (h' | ⟨-, h'⟩)
      · linarith
      · rw [if_neg (by linarith), if_neg (by linarith)]
  · rw [ccw_of_cross_pos a b c h]
    exact ⟨fun _ => Or.inl h, fun _ => rfl⟩

theorem ccw_zero_iff (a b c : Point) (hab : a ≠ b) :
    ccw a b c = 0 ↔ cross a b c = 0 ∧ 0 ≤ dot a b c ∧ dot a b c ≤ dot a b b := by
  rcases lt_trichotomy (cross a b c) 0 with h | h | h
  · rw [ccw_of_cross_neg a b c h]
    constructor
    · intro hc
      cases hc
    · rintro ⟨h', -⟩
      linarith
  · rw [ccw_collinear a b c hab h]
    constructor
    · intro hc
      refine ⟨h, ?_, ?_⟩
      · by_contra hlt
        rw [if_pos (not_le.1 hlt)] at hc
        cases hc
      · by_contra hgt
        by_cases k1 : dot a b c < 0
        · rw [if_pos k1] at hc
          cases hc
        · rw [if_neg k1, if_neg hgt] at hc
          cases hc
    · rintro ⟨-, h1, h2⟩
      rw [if_neg (by linarith), if_pos h2]
  · rw [ccw_of_cross_pos a b c h]
    constructor
    · intro hc
      cases hc
    · rintro ⟨h', -⟩
      linarith

theorem cross_lineAt_affine (a b x1 x2 : Point) (u : ℚ) :
    cross a b (lineAt x1 x2 u) = (1 - u) * cross a b x1 + u * cross a b x2 := by
  unfold cross lineAt
  ring

theorem dot_lineAt_affine (a b x1 x2 : Point) (u : ℚ) :
    dot a b (lineAt x1 x2 u) = (1 - u) * dot a b x1 + u * dot a b x2 := by
  unfold dot lineAt
  ring

theorem ccw_one_convex (a b x1 x2 r : Point) (hab : a ≠ b) (h1 : ccw a b x1 = 1)
    (h2 : ccw a b x2 = 1) (hr : OnSegment x1 x2 r) : ccw a b r = 1 := by
  obtain ⟨u, hu0, hu1, rfl⟩ := hr
  rw [ccw_pos_iff a b _ hab] at h1 h2 ⊢
  rw [cross_lineAt_affine, dot_lineAt_affine]
  have hv : 0 ≤ 1 - u := by linarith
  rcases h1 with f1 | ⟨f1, d1⟩ <;> rcases h2 with f2 | ⟨f2, d2⟩
  · left
    rcases eq_or_lt_of_le hu0 with h0 | h0
    · rw [← h0]
      linarith
    · have := mul_pos h0 f2
      have := mul_nonneg hv f1.le
      linarith
  · rw [f2, mul_zero, add_zero]
    rcases eq_or_lt_of_le hv with h0 | h0
    · right
      have hu : u = 1 := by linarith
      rw [hu]
      refine ⟨by ring, by linarith⟩
    · left
      exact mul_pos h0 f1
  · rw [f1, mul_zero, zero_add]
    rcases eq_or_lt_of_le hu0 with h0 | h0
    · right
      rw [← h0]
      refine ⟨by ring, by linarith⟩
    · left
      exact mul_pos h0 f2
  · right
    rw [f1, f2]
    refine ⟨by ring, ?_⟩
    have := mul_le_mul_of_nonneg_left d1.le hv
    have := mul_le_mul_of_nonneg_left d2.le hu0
    rcases eq_or_lt_of_le hu0 with h0 | h0
    · rw [← h0]
      linarith
    · have := mul_lt_mul_of_pos_left d2 h0
      linarith

theorem ccw_neg_one_convex (a b x1 x2 r : Point) (hab : a ≠ b) (h1 : ccw a b x1 = -1)
    (h2 : ccw a b x2 = -1) (hr : OnSegment x1 x2 r) : ccw a b r = -1 := by
  have k1 : ccw b a x1 = 1 := by rw [ccw_swap a b x1 hab, h1]; rfl
  have k2 : ccw b a x2 = 1 := by rw [ccw_swap a b x2 hab, h2]; rfl
  have k := ccw_one_convex b a x1 x2 r (Ne.symm hab) k1 k2 hr
  rw [ccw_swap a b r hab] at k
  omega

theorem ccw_mul_nonpos_of_meet (a b x1 x2 r : Point) (hab : a ≠ b)
    (hr : OnSegment x1 x2 r) (hr0 : ccw a b r = 0) : ccw a b x1 * ccw a b x2 ≤ 0 := by
  rcases ccw_values a b x1 with h1 | h1 | h1 <;> rcases ccw_values a b x2 with h2 | h2 | h2
  · have := ccw_one_convex a b x1 x2 r hab h1 h2 hr
    omega
  · rw [h1, h2]
    decide
  · rw [h1, h2]
    decide
  · rw [h1, h2]
    decide
  · have := ccw_neg_one_convex a b x1 x2 r hab h1 h2 hr
    omega
  · rw [h1, h2]
    decide
  · rw [h1, h2]
    decide
  · rw [h1, h2]
    decide
  · rw [h1, h2]
    decide

theorem ccw_zero_of_onSegment (a b r : Point) (hab : a ≠ b) (h : OnSegment a b r) :
    ccw a b r = 0 := by
  obtain ⟨t, ht0, ht1, rfl⟩ := h
  rw [ccw_lineAt a b t hab, if_neg (not_lt.2 ht0), if_pos ht1]

theorem intersect_of_meet (p1 p2 q1 q2 : Point) (hp : p1 ≠ p2) (hq : q1 ≠ q2)
    (h : SegmentsMeet p1 p2 q1 q2) : intersect p1 p2 q1 q2 = 1 := by
  obtain ⟨r, hrp, hrq⟩ := h
  unfold intersect
  rw [if_pos ⟨ccw_mul_nonpos_of_meet p1 p2 q1 q2 r hp hrq (ccw_zero_of_onSegment p1 p2 r hp hrp),
    ccw_mul_nonpos_of_meet q1 q2 p1 p2 r hq hrp (ccw_zero_of_onSegment q1 q2 r hq hrq)⟩]

theorem onSegment_left (a b : Point) : OnSegment a b a := by
  refine ⟨0, le_refl 0, zero_le_one, ?_⟩
  cases a
  simp [lineAt]

theorem onSegment_right (a b : Point) : OnSegment a b b := by
  refine ⟨1, zero_le_one, le_refl 1, ?_⟩
  cases b
  simp [lineAt]

theorem ccw_mul_of_cross_mul_pos (a b x y : Point) (h : 0 < cross a b x * cross a b y) :
    ccw a b x * ccw a b y = 1 := by
  rcases lt_trichotomy (cross a b x) 0 with hx | hx | hx
  · have hy : cross a b y < 0 := by
      by_contra hc
      have := mul_nonpos_of_nonpos_of_nonneg hx.le (not_lt.1 hc)
      linarith
    rw [ccw_of_cross_neg a b x hx, ccw_of_cross_neg a b y hy]
    rfl
  · rw [hx, zero_mul] at h
    exact absurd h (lt_irrefl 0)
  · have hy : 0 < cross a b y := by
      by_contra hc
      have := mul_nonpos_of_nonneg_of_nonpos hx.le (not_lt.1 hc)
      linarith
    rw [ccw_of_cross_pos a b x hx, ccw_of_cross_pos a b y hy]
    rfl

theorem cross_mul_neg_of_ccw (a b x y : Point) (hx : cross a b x ≠ 0)
    (hy : cross a b y ≠ 0) (h : ccw a b x * ccw a b y ≤ 0) :
    cross a b x * cross a b y < 0 := by
  by_contra hc
  have hpos : 0 < cross a b x * cross a b y :=
    lt_of_le_of_ne (not_lt.1 hc) (Ne.symm (mul_ne_zero hx hy))
  rw [ccw_mul_of_cross_mul_pos a b x y hpos] at h
  exact absurd h (by decide)

theorem lineAt_lineAt (a b : Point) (t1 t2 u : ℚ) :
    lineAt (lineAt a b t1) (lineAt a b t2) u = lineAt a b (t1 + u * (t2 - t1)) := by
  simp only [lineAt, Point.mk.injEq]
  constructor <;> ring

theorem lineAt_zero (a b : Point) : lineAt a b 0 = a := by
  cases a
  simp [lineAt]

theorem ccw_lineAt_ne_zero (a b : Point) (t : ℚ) (hab : a ≠ b)
    (h : ccw a b (lineAt a b t) ≠ 0) : t < 0 ∨ 1 < t := by
  rw [ccw_lineAt a b t hab] at h
  by_contra hc
  push_neg at hc
  rw [if_neg (not_lt.2 hc.1), if_pos hc.2] at h
  exact h rfl

/-- An end point of one segment on the line of the other but off that other
segment is incompatible with the two straddle tests when none of the four
orientations is 0. -/
theorem no_collinear_endpoint (p1 p2 q1 q2 : Point) (hp : p1 ≠ p2) (hq : q1 ≠ q2)
    (hf1 : cross p1 p2 q1 = 0) (hc1 : ccw p1 p2 q1 ≠ 0) (hc2 : ccw p1 p2 q2 ≠ 0)
    (hc : ccw p1 p2 q1 * ccw p1 p2 q2 ≤ 0) (hd1 : ccw q1 q2 p1 ≠ 0)
    (hd : ccw q1 q2 p1 * ccw q1 q2 p2 ≤ 0) : False := by
  obtain ⟨t1, e1⟩ : ∃ t, q1 = lineAt p1 p2 t := ⟨_, collinear_eq_lineAt p1 p2 q1 hp hf1⟩
  subst e1
  have ht1 := ccw_lineAt_ne_zero p1 p2 t1 hp hc1
  by_cases hf2 : cross p1 p2 q2 = 0
  · obtain ⟨t2, e2⟩ : ∃ t, q2 = lineAt p1 p2 t := ⟨_, collinear_eq_lineAt p1 p2 q2 hp hf2⟩
    subst e2
    have ht2 := ccw_lineAt_ne_zero p1 p2 t2 hp hc2
    rw [ccw_lineAt p1 p2 t1 hp, ccw_lineAt p1 p2 t2 hp] at hc
    have hon : ∀ u : ℚ, 0 ≤ u → u ≤ 1 → t1 + u * (t2 - t1) = 0 → False := by
      intro u hu0 hu1 hz
      apply hd1
      apply ccw_zero_of_onSegment _ _ _ hq
      refine ⟨u, hu0, hu1, ?_⟩
      rw [lineAt_lineAt, hz, lineAt_zero]
    rcases ht1 with h1 | h1 <;> rcases ht2 with h2 | h2
    · rw [if_pos h1, if_pos h2] at hc
      exact absurd hc (by decide)
    · have hd' : 0 < t2 - t1 := by linarith
      refine hon (-t1 / (t2 - t1)) (div_nonneg (by linarith) hd'.le)
        ((div_le_one hd').2 (by linarith)) ?_
      field_simp
    · have hd' : 0 < t1 - t2 := by linarith
      refine hon (t1 / (t1 - t2)) (div_nonneg (by linarith) hd'.le)
        ((div_le_one hd').2 (by linarith)) ?_
      field_simp
      ring
    · rw [if_neg (by linarith), if_neg (by linarith), if_neg (by linarith),
        if_neg (by linarith)] at hc
      exact absurd hc (by decide)
  · have g1 : cross (lineAt p1 p2 t1) q2 p1 = t1 * cross p1 p2 q2 := by
      unfold cross lineAt
      ring
    have g2 : cross (lineAt p1 p2 t1) q2 p2 = (t1 - 1) * cross p1 p2 q2 := by
      unfold cross lineAt
      ring
    have hsq : 0 < cross p1 p2 q2 * cross p1 p2 q2 := mul_self_pos.2 hf2
    have hpos : 0 < cross (lineAt p1 p2 t1) q2 p1 * cross (lineAt p1 p2 t1) q2 p2 := by
      rw [g1, g2]
      have e : t1 * cross p1 p2 q2 * ((t1 - 1) * cross p1 p2 q2)
          = (t1 * (t1 - 1)) * (cross p1 p2 q2 * cross p1 p2 q2) := by ring
      rw [e]
      apply mul_pos _ hsq
      rcases ht1 with h1 | h1
      · exact mul_pos_of_neg_of_neg h1 (by linarith)
      · exact mul_pos (by linarith) (by linarith)
    rw [ccw_mul_of_cross_mul_pos _ _ _ _ hpos] at hd
    exact absurd hd (by decide)

theorem ratio_bounds (x y : ℚ) (h : x * y < 0) :
    x - y ≠ 0 ∧ 0 ≤ x / (x - y) ∧ x / (x - y) ≤ 1 := by
  rcases lt_trichotomy x 0 with hx | hx | hx
  · have hy : 0 < y := by
      by_contra hc
      have := mul_nonneg_of_nonpos_of_nonpos hx.le (not_lt.1 hc)
      linarith
    have hd : x - y < 0 := by linarith
    refine ⟨ne_of_lt hd, div_nonneg_of_nonpos hx.le hd.le, ?_⟩
    rw [div_le_one_of_neg hd]
    linarith
  · rw [hx, zero_mul] at h
    exact absurd h (lt_irrefl 0)
  · have hy : y < 0 := by
      by_contra hc
      have := mul_nonneg hx.le (not_lt.1 hc)
      linarith
    have hd : 0 < x - y := by linarith
    refine ⟨ne_of_gt hd, div_nonneg hx.le hd.le, ?_⟩
    rw [div_le_one hd]
    linarith

theorem proper_meet (p1 p2 q1 q2 : Point)
    (hf : cross p1 p2 q1 * cross p1 p2 q2 < 0)
    (hg : cross q1 q2 p1 * cross q1 q2 p2 < 0) : SegmentsMeet p1 p2 q1 q2 := by
  obtain ⟨hfd, hf0, hf1⟩ := ratio_bounds _ _ hf
  obtain ⟨hgd, hg0, hg1⟩ := ratio_bounds _ _ hg
  refine ⟨lineAt p1 p2 (cross q1 q2 p1 / (cross q1 q2 p1 - cross q1 q2 p2)),
    ⟨_, hg0, hg1, rfl⟩,
    ⟨cross p1 p2 q1 / (cross p1 p2 q1 - cross p1 p2 q2), hf0, hf1, ?_⟩⟩
  simp only [lineAt, Point.mk.injEq]
  constructor
  · field_simp
    unfold cross
    ring
  · field_simp
    unfold cross
    ring

theorem meet_of_intersect (p1 p2 q1 q2 : Point) (hp : p1 ≠ p2) (hq : q1 ≠ q2)
    (h : intersect p1 p2 q1 q2 = 1) : SegmentsMeet p1 p2 q1 q2 := by
  unfold intersect at h
  by_cases hcond : ccw p1 p2 q1 * ccw p1 p2 q2 ≤ 0 ∧ ccw q1 q2 p1 * ccw q1 q2 p2 ≤ 0
  · obtain ⟨hc, hd⟩ := hcond
    by_cases c1 : ccw p1 p2 q1 = 0
    · exact ⟨q1, ccw_eq_zero_imp p1 p2 q1 hp c1, onSegment_left q1 q2⟩
    by_cases c2 : ccw p1 p2 q2 = 0
    · exact ⟨q2, ccw_eq_zero_imp p1 p2 q2 hp c2, onSegment_right q1 q2⟩
    by_cases d1 : ccw q1 q2 p1 = 0
    · exact ⟨p1, onSegment_left p1 p2, ccw_eq_zero_imp q1 q2 p1 hq d1⟩
    by_cases d2 : ccw q1 q2 p2 = 0
    · exact ⟨p2, onSegment_right p1 p2, ccw_eq_zero_imp q1 q2 p2 hq d2⟩
    have c1' : ccw p2 p1 q1 ≠ 0 := by
      rw [ccw_swap p1 p2 q1 hp]
      exact neg_ne_zero.2 c1
    have d1' : ccw q2 q1 p1 ≠ 0 := by
      rw [ccw_swap q1 q2 p1 hq]
      exact neg_ne_zero.2 d1
    have hc' : ccw p2 p1 q1 * ccw p2 p1 q2 ≤ 0 := by
      rw [ccw_mul_swap p1 p2 q1 q2]
      exact hc
    have hd' : ccw q2 q1 p1 * ccw q2 q1 p2 ≤ 0 := by
      rw [ccw_mul_swap q1 q2 p1 p2]
      exact hd
    have f1 : cross p1 p2 q1 ≠ 0 := fun hz =>
      no_collinear_endpoint p1 p2 q1 q2 hp hq hz c1 c2 hc d1 hd
    have f2 : cross p1 p2 q2 ≠ 0 := fun hz =>
      no_collinear_endpoint p1 p2 q2 q1 hp (Ne.symm hq) hz c2 c1
        (by rw [mul_comm]; exact hc) d1' hd'
    have g1 : cross q1 q2 p1 ≠ 0 := fun hz =>
      no_collinear_endpoint q1 q2 p1 p2 hq hp hz d1 d2 hd c1 hc
    have g2 : cross q1 q2 p2 ≠ 0 := fun hz =>
      no_collinear_endpoint q1 q2 p2 p1 hq (Ne.symm hp) hz d2 d1
        (by rw [mul_comm]; exact hd) c1' hc'
    exact proper_meet p1 p2 q1 q2 (cross_mul_neg_of_ccw p1 p2 q1 q2 f1 f2 hc)
      (cross_mul_neg_of_ccw q1 q2 p1 p2 g1 g2 hd)
  · rw [if_neg hcond] at h
    cases h

theorem segmentsMeet_comm (p1 p2 q1 q2 : Point) :
    SegmentsMeet p1 p2 q1 q2 ↔ SegmentsMeet q1 q2 p1 p2 :=
  ⟨fun ⟨r, h1, h2⟩ => ⟨r, h2, h1⟩, fun ⟨r, h1, h2⟩ => ⟨r, h2, h1⟩⟩

theorem segmentsMeet_point_iff (a b p : Point) : SegmentsMeet a b p p ↔ OnSegment a b p := by
  constructor
  · rintro ⟨r, h1, h2⟩
    rw [(onSegment_self_iff p r).1 h2] at h1
    exact h1
  · intro h
    exact ⟨p, h, onSegment_left p p⟩

theorem intersect_values (p1 p2 q1 q2 : Point) :
    intersect p1 p2 q1 q2 = 0 ∨ intersect p1 p2 q1 q2 = 1 := by
  unfold intersect
  split_ifs
  · exact Or.inr rfl
  · exact Or.inl rfl

theorem intersect_point_iff (a b p : Point) (hab : a ≠ b) :
    intersect a b p p = 1 ↔ OnSegment a b p := by
  constructor
  · intro h
    apply intersect_point_ne_zero_imp a b p hab
    rw [h]
    decide
  · exact intersect_point_of_onSegment a b p

theorem intersect_iff_meet (p1 p2 q1 q2 : Point) (h : p1 ≠ p2 ∨ q1 ≠ q2) :
    intersect p1 p2 q1 q2 = 1 ↔ SegmentsMeet p1 p2 q1 q2 := by
  by_cases hp : p1 = p2
  · have hq : q1 ≠ q2 := h.resolve_left (not_not.2 hp)
    subst hp
    rw [intersect_comm, segmentsMeet_comm, segmentsMeet_point_iff]
    exact intersect_point_iff q1 q2 p1 hq
  · by_cases hq : q1 = q2
    · subst hq
      rw [segmentsMeet_point_iff]
      exact intersect_point_iff p1 p2 q1 hp
    · exact ⟨meet_of_intersect p1 p2 q1 q2 hp hq, intersect_of_meet p1 p2 q1 q2 hp hq⟩

theorem ll_area_empty (m : Libm) (poly : Points) (h0 : poly.size = 0) :
    ll_area m poly = some (0, poly) := by
  obtain ⟨ms, pts, sz⟩ := poly
  simp only at h0
  subst h0
  simp [ll_area, toRadiansLoop, areaSumLoop]

/-! ## Rounded arithmetic -/

theorem binary64_literals :
    binary64 (1 / 10) = 3602879701896397 / 36028797018963968 ∧
      binary64 (2 / 10) = 3602879701896397 / 18014398509481984 ∧
      binary64 (3 / 10) = 5404319552844595 / 18014398509481984 ∧
      binary64 (4 / 10) = 3602879701896397 / 9007199254740992 ∧
      binary64 (5 / 10) = 1 / 2 ∧
      binary64 (6 / 10) = 5404319552844595 / 9007199254740992 ∧
      binary64 (7 / 10) = 3152519739159347 / 4503599627370496 ∧
      binary64 (9 / 10) = 8106479329266893 / 9007199254740992 ∧
      binary64 1 = 1 ∧ binary64 0 = 0 ∧ binary64 90 = 90 ∧ binary64 6371 = 6371 := by
  decide!

theorem binary64_radians :
    Rounded.radians binary64 = 5030569068109113 / 288230376151711744 := by
  decide!

theorem rounded_ccw_exact (a b c : Point) : Rounded.ccw (fun q => q) a b c = ccw a b c :=
  rfl

theorem rounded_intersect_exact (p1 p2 q1 q2 : Point) :
    Rounded.intersect (fun q => q) p1 p2 q1 q2 = intersect p1 p2 q1 q2 :=
  rfl

theorem rounded_crosses_exact (p1 p2 p : Point) :
    Rounded.crosses (fun q => q) p1 p2 p = crosses p1 p2 p :=
  rfl

theorem rounded_ptinpolyLoop_exact (poly : Points) (p : Point) :
    ∀ k i i1 counter : Nat, Rounded.ptinpolyLoop (fun q => q) poly p k i i1 counter =
      ptinpolyLoop poly p k i i1 counter := by
  intro k
  induction k with
  | zero =>
    intro i i1 counter
    rfl
  | succ k ih =>
    intro i i1 counter
    rw [Rounded.ptinpolyLoop, ptinpolyLoop]
    generalize poly.pts[i1]? = o1
    generalize poly.pts[i % poly.size]? = o2
    cases o1 <;> cases o2 <;>
      first
        | rfl
        | simp only [rounded_intersect_exact, rounded_crosses_exact, ih]

theorem rounded_ptinpoly_exact (poly : Points) (p : Point) (box : Bbox) :
    Rounded.ptinpoly (fun q => q) poly p box = ptinpoly poly p box := by
  unfold Rounded.ptinpoly ptinpoly
  rw [rounded_ptinpolyLoop_exact]

theorem areaIndexJ_bounds (n i : Nat) (hn : 2 ≤ n) (hi : i < n) :
    0 ≤ areaIndexJ n i ∧ areaIndexJ n i < n := by
  unfold areaIndexJ
  simp only
  split_ifs <;> omega

theorem rounded_toRadiansLoop_spec (rnd : ℚ → ℚ) :
    ∀ (k i : Nat) (pts : List Point), i + k ≤ pts.length →
      ∃ pts', Rounded.toRadiansLoop rnd k i pts = some pts' ∧ pts'.length = pts.length ∧
        ∀ j, pts'[j]? =
          if i ≤ j ∧ j < i + k then
            (pts[j]?).map fun q =>
              { x := rnd (q.x * Rounded.radians rnd), y := rnd (q.y * Rounded.radians rnd) }
          else pts[j]? := by
  intro k
  induction k with
  | zero =>
    intro i pts _
    refine ⟨pts, rfl, rfl, fun j => ?_⟩
    rw [if_neg (by omega)]
  | succ k ih =>
    intro i pts h
    have hi : i < pts.length := by omega
    obtain ⟨q, hq⟩ : ∃ q, pts[i]? = some q := ⟨_, List.getElem?_eq_getElem hi⟩
    obtain ⟨pts', hloop, hlen, hval⟩ :=
      ih (i + 1)
        (pts.set i { x := rnd (q.x * Rounded.radians rnd), y := rnd (q.y * Rounded.radians rnd) })
        (by simp; omega)
    refine ⟨pts', ?_, ?_, fun j => ?_⟩
    · rw [Rounded.toRadiansLoop, hq]
      exact hloop
    · rw [hlen]
      simp
    · rw [hval j]
      by_cases hj : j = i
      · subst hj
        rw [if_neg (by omega), if_pos (by omega), hq]
        simp [hi]
      · rw [List.getElem?_set_ne (Ne.symm hj)]
        by_cases hr : i + 1 ≤ j ∧ j < i + 1 + k
        · rw [if_pos hr, if_pos (by omega)]
        · rw [if_neg hr, if_neg (by omega)]

theorem rounded_areaSumLoop_total (rnd : ℚ → ℚ) (m : Libm) (poly : Points)
    (hn : 2 ≤ poly.size) (hlen : poly.size ≤ poly.pts.length) :
    ∀ (k i : Nat) (sum : ℚ), i + k ≤ poly.size →
      ∃ s, Rounded.areaSumLoop rnd m poly k i sum = some s := by
  intro k
  induction k with
  | zero =>
    intro i sum _
    exact ⟨sum, rfl⟩
  | succ k ih =>
    intro i sum h
    have hi : i < poly.size := by omega
    obtain ⟨qi, hqi⟩ : ∃ q, poly.pts[i]? = some q :=
      ⟨_, List.getElem?_eq_getElem (by omega)⟩
    obtain ⟨hj0, hj1⟩ := areaIndexJ_bounds poly.size i hn hi
    obtain ⟨-, hk0, hk1⟩ := areaIndexK_eq poly.size i hi
    obtain ⟨qj, hqj⟩ := readAt_in_range poly.pts poly.size _ hlen hj0 hj1
    obtain ⟨qk, hqk⟩ := readAt_in_range poly.pts poly.size _ hlen hk0 hk1
    rw [Rounded.areaSumLoop, hqi, hqj, hqk]
    exact ih (i + 1) _ (by omega)

theorem rounded_ll_area_empty (rnd : ℚ → ℚ) (m : Libm) (poly : Points) (h0 : poly.size = 0) :
    ∃ a, Rounded.ll_area rnd m poly = some (a, poly) := by
  obtain ⟨ms, pts, sz⟩ := poly
  simp only at h0
  subst h0
  exact ⟨_, rfl⟩

/-! ## The claims on the area command, the segment test and the buffer -/

/-- C21: validation comes before the spherical area function.  On a coordinate
list `listv` and a well-formed buffer, `getPoints` leaves a buffer `r`, and the
command `latlong area` either returns an error with the buffer still `r` (the
in-place conversion of `ll_area` has not run), or returns the value of
`ll_area` on `r`, and then every vertex of `r` passes `validateLatLong` and
there are at least 3 of them.  The error case is the one taken whenever the
list has fewer than 3 points or some vertex has a latitude outside
`[-90, 90]` or a longitude outside `[-180, 360]`. -/
theorem latlong_area_validates_first (m : Libm) (junk : Nat → Point) (info : LatlongInfo)
    (c s o2 : TclObj) (listv : List (Option ℚ)) (hwf : info.pointsBuffer.WellFormed)
    (hc : o2.asList = some listv) :
    ∃ st r, getPoints junk o2 3 info.pointsBuffer = some (st, r) ∧
      (latlong_area m junk info [c, s, o2] =
          some (Outcome.error, { info with pointsBuffer := r }) ∨
        ∃ a r', ll_area m r = some (a, r') ∧
          latlong_area m junk info [c, s, o2] =
            some (Outcome.ok a, { info with pointsBuffer := r' }) ∧
          st = TclStatus.TCL_OK ∧ 3 ≤ r.size ∧
          ∀ i, i < r.size →
            ∃ q, r.pts[i]? = some q ∧ validateLatLong q.x q.y = TclStatus.TCL_OK) ∧
      ((listv.length / 2 < 3 ∨
          ∃ (i : Nat) (lat lon : ℚ), listv[2 * i]? = some (some lat) ∧
            listv[2 * i + 1]? = some (some lon) ∧
            (lat < -90 ∨ 90 < lat ∨ lon < -180 ∨ 360 < lon)) →
        latlong_area m junk info [c, s, o2] =
          some (Outcome.error, { info with pointsBuffer := r })) := by
  obtain ⟨st, r, hg, -⟩ := getPoints_status junk o2 listv 3 info.pointsBuffer hwf hc
  refine ⟨st, r, hg, ?_⟩
  cases st with
  | TCL_ERROR =>
    have he : latlong_area m junk info [c, s, o2] =
        some (Outcome.error, { info with pointsBuffer := r }) := by
      simp [latlong_area, hg]
    exact ⟨Or.inl he, fun _ => he⟩
  | TCL_OK =>
    obtain ⟨h1, h2, h3, -, h5⟩ :=
      getPoints_ok_spec junk o2 listv 3 info.pointsBuffer r hwf hc hg
    obtain ⟨-, hmin⟩ := getPoints_ok_shape junk o2 listv 3 info.pointsBuffer r hc hg
    have hlen : r.size ≤ r.pts.length := by
      rw [h3, h2, h1]
      exact le_max_right _ _
    obtain ⟨st2, hv, hviff⟩ := validateLoop_spec r.pts r.size 0 (by omega)
    cases st2 with
    | TCL_ERROR =>
      have he : latlong_area m junk info [c, s, o2] =
          some (Outcome.error, { info with pointsBuffer := r }) := by
        simp [latlong_area, hg, hv]
      exact ⟨Or.inl he, fun _ => he⟩
    | TCL_OK =>
      have hall := hviff.1 rfl
      obtain ⟨a, r', hll, -⟩ := ll_area_frame m r (by omega) hlen
      have hok : latlong_area m junk info [c, s, o2] =
          some (Outcome.ok a, { info with pointsBuffer := r' }) := by
        simp [latlong_area, hg, hv, hll]
      refine ⟨Or.inr ⟨a, r', hll, hok, rfl, by omega, fun i hi => ?_⟩, ?_⟩
      · exact hall i (Nat.zero_le _) (by omega)
      · rintro (hfew | ⟨i, lat, lon, hlat, hlon, hbad⟩)
        · omega
        · exfalso
          have hi : i < listv.length / 2 := by
            by_contra hge
            rw [List.getElem?_eq_none (by omega)] at hlon
            cases hlon
          obtain ⟨q, hq, hval⟩ := hall i (Nat.zero_le _) (by omega)
          rw [h5 i hi, numAt_of_getElem? listv _ lat hlat,
            numAt_of_getElem? listv _ lon hlon] at hq
          cases hq
          rw [validateLatLong_ok_iff] at hval
          simp only at hval
          rcases hbad with h | h | h | h <;> linarith [hval.1, hval.2.1, hval.2.2.1, hval.2.2.2]

theorem latlong_area_validates_first_witness :
    ((⟨0, 0, 0, newPoints⟩ : LatlongInfo).pointsBuffer.WellFormed ∧
      (TclObj.nums [0, 0, 0, 10, 95, 10]).asList =
        some [some 0, some 0, some 0, some 10, some 95, some 10]) ∧
    ∃ st r, getPoints (fun _ => ⟨0, 0⟩) (TclObj.nums [0, 0, 0, 10, 95, 10]) 3
        (⟨0, 0, 0, newPoints⟩ : LatlongInfo).pointsBuffer = some (st, r) ∧
      (latlong_area polyLibm (fun _ => ⟨0, 0⟩) ⟨0, 0, 0, newPoints⟩
          [TclObj.word, TclObj.word, TclObj.nums [0, 0, 0, 10, 95, 10]] =
          some (Outcome.error,
            { (⟨0, 0, 0, newPoints⟩ : LatlongInfo) with pointsBuffer := r }) ∨
        ∃ a r', ll_area polyLibm r = some (a, r') ∧
          latlong_area polyLibm (fun _ => ⟨0, 0⟩) ⟨0, 0, 0, newPoints⟩
            [TclObj.word, TclObj.word, TclObj.nums [0, 0, 0, 10, 95, 10]] =
            some (Outcome.ok a,
              { (⟨0, 0, 0, newPoints⟩ : LatlongInfo) with pointsBuffer := r' }) ∧
          st = TclStatus.TCL_OK ∧ 3 ≤ r.size ∧
          ∀ i, i < r.size →
            ∃ q, r.pts[i]? = some q ∧ validateLatLong q.x q.y = TclStatus.TCL_OK) ∧
      (((([some 0, some 0, some 0, some 10, some 95, some 10] :
            List (Option ℚ)).length / 2 < 3) ∨
          ∃ (i : Nat) (lat lon : ℚ),
            ([some 0, some 0, some 0, some 10, some 95, some 10] :
              List (Option ℚ))[2 * i]? = some (some lat) ∧
            ([some 0, some 0, some 0, some 10, some 95, some 10] :
              List (Option ℚ))[2 * i + 1]? = some (some lon) ∧
            (lat < -90 ∨ 90 < lat ∨ lon < -180 ∨ 360 < lon)) →
        latlong_area polyLibm (fun _ => ⟨0, 0⟩) ⟨0, 0, 0, newPoints⟩
          [TclObj.word, TclObj.word, TclObj.nums [0, 0, 0, 10, 95, 10]] =
          some (Outcome.error,
            { (⟨0, 0, 0, newPoints⟩ : LatlongInfo) with pointsBuffer := r })) :=
  ⟨⟨rfl, rfl⟩,
    latlong_area_validates_first polyLibm (fun _ => ⟨0, 0⟩) ⟨0, 0, 0, newPoints⟩
      TclObj.word TclObj.word (TclObj.nums [0, 0, 0, 10, 95, 10])
      [some 0, some 0, some 0, some 10, some 95, some 10] rfl rfl⟩

/-- C22: for a polygon of `n ≥ 3` vertices and an index `i < n`, the two
neighbour indices that `ll_area` computes are `j = (i - 2) mod n` and
`k = (i - 1) mod n`, both lie in `[0, n)`, and the pass of the summation loop
for `i` reads the three slots `i`, `j` and `k`, all of which hold a point when
the `n` slots are allocated. -/
theorem ll_area_neighbour_indices (m : Libm) (poly : Points) (i : Nat)
    (hn : 3 ≤ poly.size) (hi : i < poly.size) (hlen : poly.size ≤ poly.pts.length) :
    areaIndexJ poly.size i = ((i : Int) - 2) % (poly.size : Int) ∧
      areaIndexK poly.size i = ((i : Int) - 1) % (poly.size : Int) ∧
      (0 ≤ areaIndexJ poly.size i ∧ areaIndexJ poly.size i < poly.size) ∧
      (0 ≤ areaIndexK poly.size i ∧ areaIndexK poly.size i < poly.size) ∧
      ∃ pi pj pk, poly.pts[i]? = some pi ∧
        poly.pts[(areaIndexJ poly.size i).toNat]? = some pj ∧
        poly.pts[(areaIndexK poly.size i).toNat]? = some pk ∧
        ∀ (n : Nat) (sum : ℚ), areaSumLoop m poly (n + 1) i sum =
          areaSumLoop m poly n (i + 1) (sum + (pi.y - pj.y) * m.sin pk.x) := by
  obtain ⟨hj, hj0, hj1⟩ := areaIndexJ_eq poly.size i hn hi
  obtain ⟨hk, hk0, hk1⟩ := areaIndexK_eq poly.size i hi
  refine ⟨hj, hk, ⟨hj0, hj1⟩, ⟨hk0, hk1⟩, ?_⟩
  obtain ⟨pi, hpi⟩ : ∃ q, poly.pts[i]? = some q :=
    ⟨_, List.getElem?_eq_getElem (by omega)⟩
  obtain ⟨pj, hpj⟩ : ∃ q, poly.pts[(areaIndexJ poly.size i).toNat]? = some q :=
    ⟨_, List.getElem?_eq_getElem (by omega)⟩
  obtain ⟨pk, hpk⟩ : ∃ q, poly.pts[(areaIndexK poly.size i).toNat]? = some q :=
    ⟨_, List.getElem?_eq_getElem (by omega)⟩
  refine ⟨pi, pj, pk, hpi, hpj, hpk, fun n sum => ?_⟩
  rw [areaSumLoop_succ, hpi]
  simp only [readAt, if_neg (not_lt.2 hj0), if_neg (not_lt.2 hk0), hpj, hpk]

theorem ll_area_neighbour_indices_witness :
    (3 ≤ (ofList (rectangle 0 0 1 1)).size ∧ 0 < (ofList (rectangle 0 0 1 1)).size ∧
      (ofList (rectangle 0 0 1 1)).size ≤ (ofList (rectangle 0 0 1 1)).pts.length) ∧
    areaIndexJ (ofList (rectangle 0 0 1 1)).size 0 =
      (((0 : Nat) : Int) - 2) % ((ofList (rectangle 0 0 1 1)).size : Int) ∧
    areaIndexK (ofList (rectangle 0 0 1 1)).size 0 =
      (((0 : Nat) : Int) - 1) % ((ofList (rectangle 0 0 1 1)).size : Int) :=
  ⟨⟨by simp [ofList, rectangle], by simp [ofList, rectangle], by simp [ofList, rectangle]⟩,
    (ll_area_neighbour_indices polyLibm (ofList (rectangle 0 0 1 1)) 0
      (by simp [ofList, rectangle]) (by simp [ofList, rectangle])
      (by simp [ofList, rectangle])).1,
    (ll_area_neighbour_indices polyLibm (ofList (rectangle 0 0 1 1)) 0
      (by simp [ofList, rectangle]) (by simp [ofList, rectangle])
      (by simp [ofList, rectangle])).2.1⟩

/-- C23: `ll_area` converts its input in place and changes nothing else, for
every rounding `rnd` of the arithmetic (`binary64` for the machine, the
identity for exact arithmetic).  On a buffer whose `size` slots are allocated
(and `size` is not 1, the case in which the code reads slot -1) it returns,
and afterwards both coordinates of every slot `i < size` are the rounded
products of their former values and the constant `radians`, the stored value
of the literal 0.017453292519943295, while `size`, `maxSize`, the number of
slots and every slot at an index `≥ size` are unchanged. -/
theorem ll_area_converts_in_place (rnd : ℚ → ℚ) (m : Libm) (poly : Points)
    (hn : poly.size ≠ 1) (hlen : poly.size ≤ poly.pts.length) :
    ∃ a poly', Rounded.ll_area rnd m poly = some (a, poly') ∧
      poly'.size = poly.size ∧ poly'.maxSize = poly.maxSize ∧
      poly'.pts.length = poly.pts.length ∧
      (∀ i, i < poly.size → ∃ q, poly.pts[i]? = some q ∧
        poly'.pts[i]? =
          some { x := rnd (q.x * Rounded.radians rnd), y := rnd (q.y * Rounded.radians rnd) }) ∧
      (∀ i, poly.size ≤ i → poly'.pts[i]? = poly.pts[i]?) ∧
      Rounded.radians rnd = rnd (17453292519943295 / 1000000000000000000) := by
  by_cases h0 : poly.size = 0
  · obtain ⟨a, ha⟩ := rounded_ll_area_empty rnd m poly h0
    refine ⟨a, poly, ha, rfl, rfl, rfl, fun i hi => ?_, fun _ _ => rfl, rfl⟩
    omega
  · obtain ⟨pts', hloop, hl, hval⟩ :=
      rounded_toRadiansLoop_spec rnd poly.size 0 poly.pts (by omega)
    obtain ⟨s, hs⟩ := rounded_areaSumLoop_total rnd m { poly with pts := pts' }
      (by simp only; omega) (by simp only; omega) poly.size 0 0 (by simp)
    have hll : ∃ a, Rounded.ll_area rnd m poly = some (a, { poly with pts := pts' }) := by
      unfold Rounded.ll_area
      rw [hloop]
      simp only []
      rw [hs]
      exact ⟨_, rfl⟩
    obtain ⟨a, ha⟩ := hll
    refine ⟨a, { poly with pts := pts' }, ha, rfl, rfl, hl, fun i hi => ?_, fun i hi => ?_, rfl⟩
    · obtain ⟨q, hq⟩ : ∃ q, poly.pts[i]? = some q :=
        ⟨_, List.getElem?_eq_getElem (by omega)⟩
      refine ⟨q, hq, ?_⟩
      simp only
      rw [hval i, if_pos (by omega), hq]
      rfl
    · simp only
      rw [hval i, if_neg (by omega)]

theorem ll_area_converts_in_place_witness :
    ((⟨3, [⟨90, 180⟩, ⟨0, 0⟩, ⟨7, 7⟩], 2⟩ : Points).size ≠ 1 ∧
      (⟨3, [⟨90, 180⟩, ⟨0, 0⟩, ⟨7, 7⟩], 2⟩ : Points).size ≤
        (⟨3, [⟨90, 180⟩, ⟨0, 0⟩, ⟨7, 7⟩], 2⟩ : Points).pts.length) ∧
    ∃ a poly',
      Rounded.ll_area binary64 polyLibm ⟨3, [⟨90, 180⟩, ⟨0, 0⟩, ⟨7, 7⟩], 2⟩ = some (a, poly') ∧
      poly'.size = 2 ∧ poly'.maxSize = 3 ∧
      poly'.pts[0]? =
        some ⟨884279719003555 / 562949953421312, 884279719003555 / 281474976710656⟩ ∧
      poly'.pts[2]? = some ⟨7, 7⟩ ∧
      Rounded.radians binary64 = 5030569068109113 / 288230376151711744 := by
  refine ⟨⟨by decide, by decide⟩, ?_⟩
  obtain ⟨a, poly', h1, h2, h3, -, h5, h6, -⟩ :=
    ll_area_converts_in_place binary64 polyLibm ⟨3, [⟨90, 180⟩, ⟨0, 0⟩, ⟨7, 7⟩], 2⟩
      (by decide) (by decide)
  obtain ⟨q, hq, hq'⟩ := h5 0 (by decide)
  have hq0 : q = ⟨90, 180⟩ := by
    simp only [List.getElem?_cons_zero, Option.some.injEq] at hq
    exact hq.symm
  subst hq0
  refine ⟨a, poly', h1, h2, h3, ?_, (h6 2 (le_refl 2)).trans rfl, by decide!⟩
  rw [hq']
  decide!

/-- C24: a horizontal edge (`p1.y = p2.y`) never increments the crossing
counter of `ptinpoly`, for any point `p`: the crossing test is false, and the
pass of the loop for that edge hands the counter on unchanged.  The
`xInters` division is never evaluated with a zero divisor: the crossing test
with a checked division always has a value, the one of the code. -/
theorem horizontal_edge_never_counted (poly : Points) (p p1 p2 : Point) :
    (p1.y = p2.y → crosses p1 p2 p = false) ∧
      crossesChecked p1 p2 p = some (crosses p1 p2 p) ∧
      (p1.y = p2.y → ∀ k i i1 counter : Nat, poly.pts[i1]? = some p1 →
        poly.pts[i % poly.size]? = some p2 →
        ptinpolyLoop poly p (k + 1) i i1 counter =
          if intersect p1 p2 p p ≠ 0 then some 1
          else ptinpolyLoop poly p k (i + 1) (i % poly.size) counter) := by
  refine ⟨crosses_horizontal p1 p2 p, crossesChecked_eq p1 p2 p, ?_⟩
  intro h k i i1 counter h1 h2
  rw [ptinpolyLoop, h1, h2]
  simp only [crosses_horizontal p1 p2 p h, Bool.false_eq_true, if_false]

theorem horizontal_edge_never_counted_witness :
    (⟨0, 1⟩ : Point).y = (⟨3, 1⟩ : Point).y ∧ crosses ⟨0, 1⟩ ⟨3, 1⟩ ⟨1, 1⟩ = false :=
  ⟨rfl, (horizontal_edge_never_counted (ofList []) ⟨1, 1⟩ ⟨0, 1⟩ ⟨3, 1⟩).1 rfl⟩

/-- C25: when at least one of the two segments is not a single point
(`p1 ≠ p2` or `q1 ≠ q2`), `intersect p1 p2 q1 q2` is 1 exactly when the closed
segments `p1`-`p2` and `q1`-`q2` have a point in common, and 0 otherwise; in
particular for `p1 ≠ p2` and any point `p`, `intersect p1 p2 p p` is 1 exactly
when `p` lies on the closed segment `p1`-`p2`. -/
theorem intersect_iff_segments_meet (p1 p2 q1 q2 : Point) (h : p1 ≠ p2 ∨ q1 ≠ q2) :
    (intersect p1 p2 q1 q2 = 1 ↔ SegmentsMeet p1 p2 q1 q2) ∧
      (intersect p1 p2 q1 q2 = 0 ↔ ¬ SegmentsMeet p1 p2 q1 q2) ∧
      (p1 ≠ p2 → ∀ p, intersect p1 p2 p p = 1 ↔ OnSegment p1 p2 p) := by
  have hiff := intersect_iff_meet p1 p2 q1 q2 h
  refine ⟨hiff, ?_, fun hp p => intersect_point_iff p1 p2 p hp⟩
  rw [← hiff]
  rcases intersect_values p1 p2 q1 q2 with h0 | h1
  · rw [h0]
    decide
  · rw [h1]
    decide

theorem intersect_iff_segments_meet_witness :
    ((⟨0, 0⟩ : Point) ≠ ⟨2, 2⟩ ∨ (⟨0, 2⟩ : Point) ≠ ⟨2, 0⟩) ∧
      (intersect ⟨0, 0⟩ ⟨2, 2⟩ ⟨0, 2⟩ ⟨2, 0⟩ = 1 ↔
        SegmentsMeet ⟨0, 0⟩ ⟨2, 2⟩ ⟨0, 2⟩ ⟨2, 0⟩) :=
  ⟨Or.inl (by simp),
    (intersect_iff_segments_meet ⟨0, 0⟩ ⟨2, 2⟩ ⟨0, 2⟩ ⟨2, 0⟩ (Or.inl (by simp))).1⟩

/-- C26: when both segments are single points, `intersect` compares only the x
coordinates: `intersect p p q q` is 1 exactly when `p.x = q.x` and 0 exactly
when `p.x ≠ q.x`, whatever `p.y` and `q.y` are. -/
theorem intersect_points_compares_x (px py qx qy : ℚ) :
    (intersect ⟨px, py⟩ ⟨px, py⟩ ⟨qx, qy⟩ ⟨qx, qy⟩ = 1 ↔ px = qx) ∧
      (intersect ⟨px, py⟩ ⟨px, py⟩ ⟨qx, qy⟩ ⟨qx, qy⟩ = 0 ↔ px ≠ qx) := by
  have hiff := intersect_degenerate_iff ⟨px, py⟩ ⟨qx, qy⟩
  simp only at hiff
  refine ⟨hiff, ?_⟩
  rw [ne_eq, ← hiff]
  rcases intersect_values ⟨px, py⟩ ⟨px, py⟩ ⟨qx, qy⟩ ⟨qx, qy⟩ with h0 | h1
  · rw [h0]
    decide
  · rw [h1]
    decide

/-- C27: for points `a ≠ b` and every point `c`, collinear with them or not,
swapping the first two arguments negates the orientation:
`ccw b a c = - ccw a b c`. -/
theorem ccw_swap_negates (a b c : Point) (hab : a ≠ b) : ccw b a c = - ccw a b c :=
  ccw_swap a b c hab

theorem ccw_swap_negates_witness :
    (⟨0, 0⟩ : Point) ≠ ⟨4, 0⟩ ∧
      ccw ⟨4, 0⟩ ⟨0, 0⟩ ⟨1, 3⟩ = - ccw ⟨0, 0⟩ ⟨4, 0⟩ ⟨1, 3⟩ ∧
      ccw ⟨4, 0⟩ ⟨0, 0⟩ ⟨9, 0⟩ = - ccw ⟨0, 0⟩ ⟨4, 0⟩ ⟨9, 0⟩ :=
  ⟨by simp, ccw_swap_negates ⟨0, 0⟩ ⟨4, 0⟩ ⟨1, 3⟩ (by simp),
    ccw_swap_negates ⟨0, 0⟩ ⟨4, 0⟩ ⟨9, 0⟩ (by simp)⟩

/-- C29: `spheredist` is symmetric in its two locations,
`spheredist lat1 lon1 lat2 lon2 = spheredist lat2 lon2 lat1 lon1` for all
arguments, given that the sine of the math library is odd. -/
theorem spheredist_symmetric (m : Libm) (lat1 lon1 lat2 lon2 : ℚ)
    (hodd : ∀ x, m.sin (-x) = - m.sin x) :
    spheredist m lat1 lon1 lat2 lon2 = spheredist m lat2 lon2 lat1 lon1 :=
  spheredist_symm m lat1 lon1 lat2 lon2 hodd

theorem spheredist_symmetric_witness :
    (∀ x, polyLibm.sin (-x) = - polyLibm.sin x) ∧
      spheredist polyLibm 34 (-118) 40 (-74) = spheredist polyLibm 40 (-74) 34 (-118) :=
  ⟨fun x => by simp only [polyLibm]; ring,
    spheredist_symmetric polyLibm 34 (-118) 40 (-74) (fun x => by simp only [polyLibm]; ring)⟩

/-- C30: starting from the zeroed buffer of `newPoints`, after any sequence of
`getPoints` calls, accepted or rejected, with any lists and minimum sizes, the
buffer satisfies `0 ≤ size ≤ maxSize`, `maxSize` is the number of allocated
slots, and so every index below `size` is an allocated slot. -/
theorem buffer_size_within_capacity (calls : List Call) :
    ∃ b, runCalls calls newPoints = some b ∧ 0 ≤ b.size ∧ b.size ≤ b.maxSize ∧
      b.pts.length = b.maxSize ∧ ∀ i, i < b.size → ∃ q, b.pts[i]? = some q := by
  obtain ⟨b, hr, hwf, hs⟩ := runCalls_invariant calls newPoints rfl (le_refl _)
  refine ⟨b, hr, Nat.zero_le _, hs, hwf, fun i hi => ?_⟩
  have hlt : i < b.pts.length := by
    rw [hwf]
    omega
  exact ⟨_, List.getElem?_eq_getElem hlt⟩

/-! ## The code in double arithmetic against the claims stated without rounding -/

end Mars
